import Mathlib

/-!
# Ferrum tenant data manager and token issuer

A shallow embedding of `managers/redis_data_manager/client.go` (client CRUD over
a Redis key space with a per-realm membership list) and of
`services/jwt_generator_service.go` (the access-token signer), with the
properties the specification states about them.

Conventions of the embedding:

* A Go method that mutates the store and returns `error` becomes a function
  `Redis → Option GoError × Redis`; a method returning `(T, error)` becomes
  `Redis → Except GoError T × Redis`.  The store is threaded explicitly, so an
  early error return keeps every write made before it (nothing is rolled back).
* `fmt.Errorf("...: %w", err)` is `GoError.wrap`; `errors.Is` is `GoError.Is`.
* `json.Marshal` / `json.Unmarshal` of the repository's records are the
  constructors of `Doc` and the partial projections out of it.
* Logger calls have no effect on results and are left out.
-/

namespace Ferrum

/-! ## Records of package `data` -/

/-- The `uuid.UUID` of a client, kept as its numeric value. -/
abbrev UUID := Nat

/-- Client kinds: `data.Public`, `data.Confidential`. -/
inductive ClientType where
  | Public
  | Confidential
deriving DecidableEq, Repr

/-- Authentication kinds, `data.ClientIdAndSecrets`. -/
inductive AuthenticationType where
  | ClientIdAndSecrets
deriving DecidableEq, Repr

/-- The record `data.Authentication`. -/
structure Authentication where
  Typ : AuthenticationType
  Value : String
deriving DecidableEq, Repr

/-- The record `data.Client`. -/
structure Client where
  Typ : ClientType
  ID : UUID
  Name : String
  Auth : Authentication
deriving DecidableEq, Repr

/-- The record `data.ExtendedIdentifier`: the membership projection of a client. -/
structure ExtendedIdentifier where
  ID : UUID
  Name : String
deriving DecidableEq, Repr

/-- The record `data.Realm`; user documents are opaque JSON texts. -/
structure Realm where
  Name : String
  Clients : List Client
  Users : List String
  TokenExpiration : Nat
  RefreshTokenExpiration : Nat
deriving DecidableEq, Repr

/-! ## Errors -/

/-- The sentinel errors of `errors_managers`, and the two ways a store request
itself can fail: a transport failure and a reply of the wrong value type. -/
inductive Sentinel where
  | ErrNotFound
  | ErrExists
  | ErrZeroLength
  | ErrNotExists
  | StoreUnavailable
  | WrongType
deriving DecidableEq, Repr

/-- A Go error value: a sentinel, possibly wrapped by `fmt.Errorf("ctx: %w", _)`. -/
inductive GoError where
  | sentinel (e : Sentinel)
  | wrap (ctx : String) (inner : GoError)
deriving DecidableEq, Repr

/-- The test `errors.Is(err, target)` for a sentinel target. -/
def GoError.Is : GoError → Sentinel → Bool
  | .sentinel e, t => decide (e = t)
  | .wrap _ inner, t => inner.Is t

/-! ## The store -/

/-- A JSON document held by the store, by the Go value it encodes; a user
document is kept as its text, and `raw` is a text that is not JSON. -/
inductive Doc where
  | client (c : Client)
  | realm (r : Realm)
  | identifiers (l : List ExtendedIdentifier)
  | user (document : String)
  | raw (text : String)
deriving DecidableEq, Repr

/-- A Redis value: a string or a list of strings. -/
inductive Entry where
  | str (d : Doc)
  | list (slots : List Doc)
deriving DecidableEq, Repr

/-- The Redis instance: one key space, and the outcomes of the coming round
trips (`true`: the request fails in transport; when the list is used up every
request goes through). -/
structure Redis where
  kv : String → Option Entry
  faults : List Bool

/-- One round trip to the server: consumes the next transport outcome. -/
def Redis.roundTrip (s : Redis) : Bool × Redis :=
  match s.faults with
  | [] => (false, s)
  | f :: rest => (f, { s with faults := rest })

/-- The key space with `key` bound to `e`. -/
def Redis.put (s : Redis) (key : String) (e : Entry) : Redis :=
  { s with kv := fun k => if k = key then some e else s.kv k }

/-- The key space with `key` removed. -/
def Redis.remove (s : Redis) (key : String) : Redis :=
  { s with kv := fun k => if k = key then none else s.kv k }

/-- The same key space with no transport failure pending. -/
def Redis.healthy (s : Redis) : Redis :=
  { s with faults := [] }

/-- The manager: `mn.namespace`. -/
structure RedisDataManager where
  nspace : String

/-! ## Key schema -/

/-- Modelled from the spec: the constant `realmKeyTemplate` of the namespaced
key schema is not in the sources; the spec gives `fe_realm_{ns}_{realmName}`. -/
def realmKey (ns realmName : String) : String :=
  "fe_realm_" ++ ns ++ "_" ++ realmName

/-- Modelled from the spec: the constant `realmClientsKeyTemplate` of the
namespaced key schema is not in the sources; the spec gives
`fe_realm_{ns}_{realmName}_clients`. -/
def realmClientsKey (ns realmName : String) : String :=
  "fe_realm_" ++ ns ++ "_" ++ realmName ++ "_clients"

/-- Modelled from the spec: the constant `clientKeyTemplate` of the namespaced
key schema is not in the sources; the spec gives
`fe_client_{ns}_{realmName}_{clientName}`. -/
def clientKey (ns realmName clientName : String) : String :=
  "fe_client_" ++ ns ++ "_" ++ realmName ++ "_" ++ clientName

/-! ## JSON decoding -/

/-- The call `json.Unmarshal` into a `data.Client`. -/
def decodeClient : Doc → Option Client
  | .client c => some c
  | _ => none

/-- The call `json.Unmarshal` into a `data.Realm`. -/
def decodeRealm : Doc → Option Realm
  | .realm r => some r
  | _ => none

/-- The call `json.Unmarshal` of one list slot into a `[]data.ExtendedIdentifier`. -/
def decodeIdentifiers : Doc → Option (List ExtendedIdentifier)
  | .identifiers l => some l
  | _ => none

/-- Decodes every slot of a list value and concatenates the portions;
`none` when a slot does not decode. -/
def decodeSlots {α : Type} (decode : Doc → Option (List α)) : List Doc → Option (List α)
  | [] => some []
  | d :: rest =>
    match decode d, decodeSlots decode rest with
    | some portion, some more => some (portion ++ more)
    | _, _ => none

/-! ## Store operations -/

/-- Modelled from the spec: `getObjectFromRedis` of package `redis_data_manager`
(the two-result version `client.go` calls) is not in the sources.  Spec 4.1:
`get(key) -> bytes | NotFound`; spec 7: a value that does not decode is
reported as NotFound; a failed request is surfaced as its own error. -/
def getObjectFromRedis {α : Type} (decode : Doc → Option α) (s : Redis) (objKey : String) :
    Except GoError α × Redis :=
  match s.roundTrip with
  | (true, s1) => (.error (.sentinel .StoreUnavailable), s1)
  | (false, s1) =>
    match s1.kv objKey with
    | none => (.error (.sentinel .ErrNotFound), s1)
    | some (.list _) => (.error (.sentinel .WrongType), s1)
    | some (.str d) =>
      match decode d with
      | some obj => (.ok obj, s1)
      | none => (.error (.wrap "json.Unmarshal failed" (.sentinel .ErrNotFound)), s1)

/-- Modelled from the spec: `getObjectsListFromRedis` is not in the sources.
Spec 4.1: `listRead(key) -> ordered sequence of bytes | empty` (an absent key
reads as the empty sequence); every slot is decoded with the encoding
`createRealmClients` writes, a JSON array of entries, and the portions are
concatenated in slot order. -/
def getObjectsListFromRedis {α : Type} (decode : Doc → Option (List α)) (s : Redis)
    (objKey : String) : Except GoError (List α) × Redis :=
  match s.roundTrip with
  | (true, s1) => (.error (.sentinel .StoreUnavailable), s1)
  | (false, s1) =>
    match s1.kv objKey with
    | none => (.ok [], s1)
    | some (.str _) => (.error (.sentinel .WrongType), s1)
    | some (.list slots) =>
      match decodeSlots decode slots with
      | some items => (.ok items, s1)
      | none => (.error (.wrap "json.Unmarshal failed" (.sentinel .ErrNotFound)), s1)

/-- Modelled from the spec: `setString` is not in the sources.  Spec 4.1:
`set(key, bytes)` silently replaces whatever the key held. -/
def setString (s : Redis) (objKey : String) (objValue : Doc) : Option GoError × Redis :=
  match s.roundTrip with
  | (true, s1) => (some (.sentinel .StoreUnavailable), s1)
  | (false, s1) => (none, s1.put objKey (.str objValue))

/-- Modelled from the spec: `delKey` is not in the sources.  Spec 4.1:
`delete(key) -> ok | NotFound`; the error for an absent key is the sentinel
`ErrNotExists`, the one `createRealmClients` accepts from a deletion. -/
def delKey (s : Redis) (objKey : String) : Option GoError × Redis :=
  match s.roundTrip with
  | (true, s1) => (some (.sentinel .StoreUnavailable), s1)
  | (false, s1) =>
    match s1.kv objKey with
    | none => (some (.sentinel .ErrNotExists), s1)
    | some _ => (none, s1.remove objKey)

/-- The Redis command `RPUSH key value`: appends one slot, creating the list
when the key is absent; a key holding a string is refused. -/
def RPush (s : Redis) (key : String) (value : Doc) : Option GoError × Redis :=
  match s.roundTrip with
  | (true, s1) => (some (.sentinel .StoreUnavailable), s1)
  | (false, s1) =>
    match s1.kv key with
    | none => (none, s1.put key (.list [value]))
    | some (.list slots) => (none, s1.put key (.list (slots ++ [value])))
    | some (.str _) => (some (.sentinel .WrongType), s1)

/-! ## Client operations (`client.go`) -/

/-- Modelled from the spec: the two-result `GetRealm` that `client.go` calls is
not in the sources.  Spec 4.3: `GetRealm(name) -> Realm | NotFound`, a direct
key lookup, JSON-decoded. -/
def GetRealm (mn : RedisDataManager) (s : Redis) (realmName : String) :
    Except GoError Realm × Redis :=
  match getObjectFromRedis decodeRealm s (realmKey mn.nspace realmName) with
  | (.error err, s1) => (.error (.wrap "getObjectFromRedis failed" err), s1)
  | (.ok realm, s1) => (.ok realm, s1)

/-- The method `RedisDataManager.GetClient`. -/
def GetClient (mn : RedisDataManager) (s : Redis) (realmName clientName : String) :
    Except GoError Client × Redis :=
  let key := clientKey mn.nspace realmName clientName
  match getObjectFromRedis decodeClient s key with
  | (.error err, s1) => (.error (.wrap "getObjectFromRedis failed" err), s1)
  | (.ok client, s1) => (.ok client, s1)

/-- The method `RedisDataManager.getRealmClients`. -/
def getRealmClients (mn : RedisDataManager) (s : Redis) (realmName : String) :
    Except GoError (List ExtendedIdentifier) × Redis :=
  let realmClientsKey := realmClientsKey mn.nspace realmName
  match getObjectsListFromRedis decodeIdentifiers s realmClientsKey with
  | (.error err, s1) => (.error (.wrap "getObjectsListFromRedis failed" err), s1)
  | (.ok realmClients, s1) =>
    if realmClients.length = 0 then (.error (.sentinel .ErrZeroLength), s1)
    else (.ok realmClients, s1)

/-- The loop of `GetClientsFromRealm`: resolves the entries in order and stops
at the first one whose `GetClient` fails. -/
def resolveClients (mn : RedisDataManager) (realmName : String) :
    List ExtendedIdentifier → Redis → Except GoError (List Client) × Redis
  | [], s => (.ok [], s)
  | rc :: rest, s =>
    match GetClient mn s realmName rc.Name with
    | (.error err, s1) => (.error (.wrap "GetClient failed" err), s1)
    | (.ok client, s1) =>
      match resolveClients mn realmName rest s1 with
      | (.error err, s2) => (.error err, s2)
      | (.ok clients, s2) => (.ok (client :: clients), s2)

/-- The method `RedisDataManager.GetClientsFromRealm`. -/
def GetClientsFromRealm (mn : RedisDataManager) (s : Redis) (realmName : String) :
    Except GoError (List Client) × Redis :=
  match getRealmClients mn s realmName with
  | (.error err, s1) => (.error (.wrap "getRealmClients failed" err), s1)
  | (.ok realmClients, s1) => resolveClients mn realmName realmClients s1

/-- The method `RedisDataManager.createClientRedis`; `clientJson` is the
marshalled client. -/
def createClientRedis (mn : RedisDataManager) (s : Redis) (realmName clientName : String)
    (clientJson : Doc) : Option GoError × Redis :=
  let key := clientKey mn.nspace realmName clientName
  match setString s key clientJson with
  | (some err, s1) => (some (.wrap "setString failed" err), s1)
  | (none, s1) => (none, s1)

/-- The method `RedisDataManager.deleteClientRedis`. -/
def deleteClientRedis (mn : RedisDataManager) (s : Redis) (realmName clientName : String) :
    Option GoError × Redis :=
  let key := clientKey mn.nspace realmName clientName
  match delKey s key with
  | (some err, s1) => (some (.wrap "delKey failed" err), s1)
  | (none, s1) => (none, s1)

/-- Modelled from the spec: `deleteRealmClientsRedis` is not in the sources; it
deletes the realm's client list key (spec 4.1 `delete`), like its sibling
`deleteClientRedis` deletes the client key. -/
def deleteRealmClientsRedis (mn : RedisDataManager) (s : Redis) (realmName : String) :
    Option GoError × Redis :=
  let key := realmClientsKey mn.nspace realmName
  match delKey s key with
  | (some err, s1) => (some (.wrap "delKey failed" err), s1)
  | (none, s1) => (none, s1)

/-- The method `RedisDataManager.createRealmClients`: marshals the whole slice
into one JSON array and pushes it as one slot, after deleting the list when
`isAllPreDelete` is set. -/
def createRealmClients (mn : RedisDataManager) (s : Redis) (realmName : String)
    (realmClients : List ExtendedIdentifier) (isAllPreDelete : Bool) : Option GoError × Redis :=
  let bytesRealmClients := Doc.identifiers realmClients
  let pre : Option GoError × Redis :=
    if isAllPreDelete then
      match deleteRealmClientsRedis mn s realmName with
      | (some err, s1) =>
        if !err.Is .ErrNotExists then (some (.wrap "deleteRealmClientsRedis failed" err), s1)
        else (none, s1)
      | (none, s1) => (none, s1)
    else (none, s)
  match pre with
  | (some err, s1) => (some err, s1)
  | (none, s1) => RPush s1 (realmClientsKey mn.nspace realmName) bytesRealmClients

/-- The method `RedisDataManager.addClientToRealm`. -/
def addClientToRealm (mn : RedisDataManager) (s : Redis) (realmName : String)
    (client : Client) : Option GoError × Redis :=
  let realmClient : ExtendedIdentifier := { ID := client.ID, Name := client.Name }
  let sliceRealmClient := [realmClient]
  match createRealmClients mn s realmName sliceRealmClient false with
  | (some err, s1) => (some (.wrap "createRealmClients failed" err), s1)
  | (none, s1) => (none, s1)

/-- The body of the removal loop of `deleteClientFromRealm` at the matching
index `i`: the last element is copied into slot `i` unless `i` is the last
index, then the slice is cut by one. -/
def swapRemove (realmClients : List ExtendedIdentifier) (i : Nat) : List ExtendedIdentifier :=
  let moved :=
    if i ≠ realmClients.length - 1 then
      match realmClients[realmClients.length - 1]? with
      | some last => realmClients.set i last
      | none => realmClients
    else realmClients
  moved.take (realmClients.length - 1)

/-- The removal loop of `deleteClientFromRealm`: the first index whose entry
has the name, and the slice after the swap-removal there; `none` when no entry
has the name (`isHasClient` stays false). -/
def removeByName (realmClients : List ExtendedIdentifier) (clientName : String) :
    Option (List ExtendedIdentifier) :=
  match realmClients.findIdx? (fun rc => rc.Name == clientName) with
  | some i => some (swapRemove realmClients i)
  | none => none

/-- The method `RedisDataManager.deleteClientFromRealm`. -/
def deleteClientFromRealm (mn : RedisDataManager) (s : Redis) (realmName clientName : String) :
    Option GoError × Redis :=
  match getRealmClients mn s realmName with
  | (.error err, s1) => (some (.wrap "getRealmClients failed" err), s1)
  | (.ok realmClients, s1) =>
    match removeByName realmClients clientName with
    | none => (some (.sentinel .ErrNotFound), s1)
    | some remaining =>
      match createRealmClients mn s1 realmName remaining true with
      | (some err, s2) => (some (.wrap "createRealmClients failed" err), s2)
      | (none, s2) => (none, s2)

/-- The method `RedisDataManager.CreateClient`.  `json.Marshal` of a
`data.Client` cannot fail, so that error branch is not reachable. -/
def CreateClient (mn : RedisDataManager) (s : Redis) (realmName : String) (clientNew : Client) :
    Option GoError × Redis :=
  match GetClient mn s realmName clientNew.Name with
  | (.ok _, s1) => (some (.sentinel .ErrExists), s1)
  | (.error err, s1) =>
    if !err.Is .ErrNotFound then (some (.wrap "GetClient failed" err), s1)
    else
      match GetRealm mn s1 realmName with
      | (.error err, s2) => (some (.wrap "GetRealm failed" err), s2)
      | (.ok _, s2) =>
        let clientBytes := Doc.client clientNew
        match createClientRedis mn s2 realmName clientNew.Name clientBytes with
        | (some err, s3) => (some (.wrap "createClientRedis failed" err), s3)
        | (none, s3) =>
          match addClientToRealm mn s3 realmName clientNew with
          | (some err, s4) => (some (.wrap "addClientToRealm failed" err), s4)
          | (none, s4) => (none, s4)

/-- The method `RedisDataManager.DeleteClient`. -/
def DeleteClient (mn : RedisDataManager) (s : Redis) (realmName clientName : String) :
    Option GoError × Redis :=
  match deleteClientRedis mn s realmName clientName with
  | (some err, s1) => (some (.wrap "deleteClientRedis failed" err), s1)
  | (none, s1) =>
    match deleteClientFromRealm mn s1 realmName clientName with
    | (some err, s2) =>
      if err.Is .ErrNotFound || err.Is .ErrZeroLength then (none, s2)
      else (some (.wrap "deleteClientFromRealm failed" err), s2)
    | (none, s2) => (none, s2)

/-- The method `RedisDataManager.UpdateClient`.  `json.Marshal` of a
`data.Client` cannot fail, so that error branch is not reachable. -/
def UpdateClient (mn : RedisDataManager) (s : Redis) (realmName clientName : String)
    (clientNew : Client) : Option GoError × Redis :=
  match GetClient mn s realmName clientName with
  | (.error err, s1) => (some (.wrap "GetClient failed" err), s1)
  | (.ok oldClient, s1) =>
    let moved : Option GoError × Redis :=
      if clientNew.ID ≠ oldClient.ID ∨ clientNew.Name ≠ oldClient.Name then
        match DeleteClient mn s1 realmName oldClient.Name with
        | (some err, s2) => (some (.wrap "DeleteClient failed" err), s2)
        | (none, s2) =>
          match addClientToRealm mn s2 realmName clientNew with
          | (some err, s3) => (some (.wrap "addClientToRealm failed" err), s3)
          | (none, s3) => (none, s3)
      else (none, s1)
    match moved with
    | (some err, s2) => (some err, s2)
    | (none, s2) =>
      let clientBytes := Doc.client clientNew
      match createClientRedis mn s2 realmName clientNew.Name clientBytes with
      | (some err, s3) => (some (.wrap "createClientRedis failed" err), s3)
      | (none, s3) => (none, s3)

/-- The membership list a realm's client list key holds, when it reads and
decodes: empty for an absent key. -/
def membership (mn : RedisDataManager) (s : Redis) (realmName : String) :
    Option (List ExtendedIdentifier) :=
  match s.kv (realmClientsKey mn.nspace realmName) with
  | none => some []
  | some (.str _) => none
  | some (.list slots) => decodeSlots decodeIdentifiers slots

/-- The client record stored under `(realmName, clientName)`, when the key
holds one. -/
def storedClient (mn : RedisDataManager) (s : Redis) (realmName clientName : String) :
    Option Client :=
  match s.kv (clientKey mn.nspace realmName clientName) with
  | some (.str (.client c)) => some c
  | _ => none

/-- The slots of the list value a key holds; none for any other key. -/
def listSlots (s : Redis) (key : String) : List Doc :=
  match s.kv key with
  | some (.list slots) => slots
  | _ => []

/-- Whether the key holds a plain string value (a list request on it is refused). -/
def Redis.holdsString (s : Redis) (key : String) : Bool :=
  match s.kv key with
  | some (.str _) => true
  | _ => false

/-- Whether the key holds a list value (a string request on it is refused). -/
def Redis.holdsList (s : Redis) (key : String) : Bool :=
  match s.kv key with
  | some (.list _) => true
  | _ => false

/-- The sentinel at the bottom of a wrapped error. -/
def GoError.root : GoError → Sentinel
  | .sentinel e => e
  | .wrap _ inner => inner.root

/-- A manager on the namespace `ferrum`. -/
def sampleManager : RedisDataManager := { nspace := "ferrum" }

/-- The realm record of the spec's scenario. -/
def acme : Realm :=
  { Name := "acme", Clients := [], Users := [], TokenExpiration := 3600,
    RefreshTokenExpiration := 1800 }

/-- A public client named `app1`. -/
def app1 : Client :=
  { Typ := .Public, ID := 1, Name := "app1", Auth := { Typ := .ClientIdAndSecrets, Value := "s1" } }

/-- A public client named `app2`. -/
def app2 : Client :=
  { Typ := .Public, ID := 2, Name := "app2", Auth := { Typ := .ClientIdAndSecrets, Value := "s2" } }

/-- A store holding nothing. -/
def emptyStore : Redis := { kv := fun _ => none, faults := [] }

/-- A store holding the realm `acme` and nothing else. -/
def acmeStore : Redis :=
  { kv := fun k => if k = realmKey "ferrum" "acme" then some (.str (.realm acme)) else none,
    faults := [] }

/-- The store after `app1` was created in `acme`. -/
def acmeOneClient : Redis :=
  (CreateClient sampleManager acmeStore "acme" app1).2

/-- The store after `app1` and `app2` were created in `acme`. -/
def acmeTwoClients : Redis :=
  (CreateClient sampleManager (CreateClient sampleManager acmeStore "acme" app1).2 "acme" app2).2

/-- The realm `acme` with one membership entry `app1` whose client record is
missing. -/
def acmeOrphan : Redis :=
  { kv := fun k =>
      if k = realmKey "ferrum" "acme" then some (.str (.realm acme))
      else if k = realmClientsKey "ferrum" "acme" then
        some (.list [.identifiers [{ ID := 7, Name := "app1" }]])
      else none,
    faults := [] }

/-- A store holding the record of `app1` under `acme` and no membership list. -/
def loneClientStore : Redis :=
  { kv := fun k =>
      if k = clientKey "ferrum" "acme" "app1" then some (.str (.client app1)) else none,
    faults := [] }

/-- A client named `app1` with another id than the orphan entry of `acmeOrphan`. -/
def app1Again : Client :=
  { Typ := .Public, ID := 9, Name := "app1", Auth := { Typ := .ClientIdAndSecrets, Value := "s9" } }

/-- A record whose `Name` field is `app9`. -/
def app9 : Client :=
  { Typ := .Public, ID := 1, Name := "app9", Auth := { Typ := .ClientIdAndSecrets, Value := "s1" } }

/-- The record `app9` made confidential: same id, same name. -/
def app9Confidential : Client :=
  { Typ := .Confidential, ID := 1, Name := "app9",
    Auth := { Typ := .ClientIdAndSecrets, Value := "s1" } }

/-- A store in which the key of `(acme, app1)` holds a record whose `Name`
field is `app9`, next to the realm record. -/
def misfiledStore : Redis :=
  { kv := fun k =>
      if k = realmKey "ferrum" "acme" then some (.str (.realm acme))
      else if k = clientKey "ferrum" "acme" "app1" then some (.str (.client app9))
      else none,
    faults := [] }

/-- The client `app1` made confidential: same id, same name. -/
def app1Confidential : Client :=
  { Typ := .Confidential, ID := 1, Name := "app1",
    Auth := { Typ := .ClientIdAndSecrets, Value := "s1" } }

/-- The client `app1` renamed to `app3`. -/
def app1Renamed : Client :=
  { Typ := .Public, ID := 1, Name := "app3", Auth := { Typ := .ClientIdAndSecrets, Value := "s1" } }

/-- The correspondence of client records and membership entries within a
realm: the membership list reads, no two entries share a name, every entry
names a stored client record, and every stored client record has exactly one
entry carrying its id and name. -/
def Consistent (mn : RedisDataManager) (s : Redis) (realmName : String) : Prop :=
  ∃ l, membership mn s realmName = some l ∧
    (l.map (fun e => e.Name)).Nodup ∧
    (∀ e ∈ l, (storedClient mn s realmName e.Name).isSome = true) ∧
    (∀ clientName c, storedClient mn s realmName clientName = some c →
      l.count { ID := c.ID, Name := c.Name } = 1)

/-- The client `app1` renamed to the name of `app2`. -/
def app1AsApp2 : Client :=
  { Typ := .Public, ID := 1, Name := "app2", Auth := { Typ := .ClientIdAndSecrets, Value := "s1" } }

/-! ## Token signer (`jwt_generator_service.go`) -/

/-- One byte. A Go `string` or `[]byte` is a list of bytes. -/
abbrev Byte := Fin 256

/-- The alphabet of `base64.URLEncoding`. -/
def encodeURL : List Char :=
  "ABCDEFGHIJKLMNOPQRSTUVWXYZabcdefghijklmnopqrstuvwxyz0123456789-_".toList

/-- The character of a six-bit value. -/
def sextetChar (n : Nat) : Char :=
  encodeURL.getD n 'A'

/-- The six-bit value of a character of the alphabet. -/
def sextetValue (c : Char) : Option Nat :=
  encodeURL.indexOf? c

/-- The call `base64.RawURLEncoding.EncodeToString`: three bytes give four
characters; a rest of one or two bytes gives two or three, without padding. -/
def EncodeToString : List Byte → List Char
  | b0 :: b1 :: b2 :: rest =>
    sextetChar (b0.val / 4) :: sextetChar (b0.val % 4 * 16 + b1.val / 16) ::
      sextetChar (b1.val % 16 * 4 + b2.val / 64) :: sextetChar (b2.val % 64) ::
      EncodeToString rest
  | [b0, b1] =>
    [sextetChar (b0.val / 4), sextetChar (b0.val % 4 * 16 + b1.val / 16),
      sextetChar (b1.val % 16 * 4)]
  | [b0] => [sextetChar (b0.val / 4), sextetChar (b0.val % 4 * 16)]
  | [] => []

/-- The byte a decoded value is cut to. -/
def toByte (n : Nat) : Byte :=
  ⟨n % 256, Nat.mod_lt n (by decide)⟩

/-- The call `base64.RawURLEncoding.DecodeString` on a text without line
breaks: four characters give three bytes; a rest of two or three characters
gives one or two bytes; a rest of one character, or a character outside the
alphabet, is an error (`none`). -/
def DecodeString : List Char → Option (List Byte)
  | c0 :: c1 :: c2 :: c3 :: rest =>
    match sextetValue c0, sextetValue c1, sextetValue c2, sextetValue c3, DecodeString rest with
    | some v0, some v1, some v2, some v3, some more =>
      some (toByte (v0 * 4 + v1 / 16) :: toByte (v1 % 16 * 16 + v2 / 4) ::
        toByte (v2 % 4 * 64 + v3) :: more)
    | _, _, _, _, _ => none
  | [c0, c1, c2] =>
    match sextetValue c0, sextetValue c1, sextetValue c2 with
    | some v0, some v1, some v2 =>
      some [toByte (v0 * 4 + v1 / 16), toByte (v1 % 16 * 16 + v2 / 4)]
    | _, _, _ => none
  | [c0, c1] =>
    match sextetValue c0, sextetValue c1 with
    | some v0, some v1 => some [toByte (v0 * 4 + v1 / 16)]
    | _, _ => none
  | [_] => none
  | [] => some []

/-- The call `strings.Join(parts, sep)`. -/
def stringsJoin (parts : List (List Char)) (sep : List Char) : List Char :=
  sep.intercalate parts

/-- The conversion `[]byte(s)` of a text of ASCII characters. -/
def bytesOfText (s : List Char) : List Byte :=
  s.map (fun c => toByte c.toNat)

/-- A signing key passed as `interface{}`: a `[]byte`, or a value of another type. -/
inductive SignKey where
  | bytes (key : List Byte)
  | other
deriving DecidableEq, Repr

/-- The errors of the token signer: a header that does not marshal, and the
`jwt.ErrInvalidKeyType` of a key that is not a `[]byte`. -/
inductive JwtError where
  | marshal
  | invalidKeyType
deriving DecidableEq, Repr

/-- The header of a `jwt.Token`: the entries of its map, by key. -/
abbrev Header := List (String × String)

/-- The library code the signer calls: `json.Marshal` of a token header (fails
on a header it cannot encode) and the HMAC-SHA256 of a message under a key. -/
structure Libraries where
  jsonMarshal : Header → Except JwtError (List Byte)
  hmacSHA256 : List Byte → List Byte → List Byte

/-- A `jwt.SigningMethod`: its `Alg()` and its `Sign`. -/
structure SigningMethod where
  Alg : String
  Sign : List Char → SignKey → Except JwtError (List Char)

/-- The record `jwt.Token`, as far as the signer reads it. -/
structure Token where
  Header : Header
  Method : SigningMethod

/-- The method `jwt.SigningMethodHS256`: `Sign` accepts a `[]byte` key only and
returns the base64url text of the MAC of the signing string. -/
def SigningMethodHS256 (libs : Libraries) : SigningMethod :=
  { Alg := "HS256",
    Sign := fun signingString key =>
      match key with
      | .bytes keyBytes =>
        .ok (EncodeToString (libs.hmacSHA256 keyBytes (bytesOfText signingString)))
      | .other => .error .invalidKeyType }

/-- The constructor `jwt.New(method)`. -/
def jwtNew (method : SigningMethod) : Token :=
  { Header := [("typ", "JWT"), ("alg", method.Alg)], Method := method }

/-- The record `data.AccessTokenData`, as far as the signer reads it: the
claims, serialised beforehand. -/
structure AccessTokenData where
  ResultJsonStr : List Byte

/-- The record `JwtGenerator`. -/
structure JwtGenerator where
  SignKey : List Byte

/-- The method `JwtGenerator.makeSignedToken`. -/
def makeSignedToken (libs : Libraries) (token : Token) (tokenData : AccessTokenData)
    (signKey : SignKey) : Except JwtError (List Char) :=
  match libs.jsonMarshal token.Header with
  | .error err => .error err
  | .ok jsonValue =>
    let header := EncodeToString jsonValue
    let claim := EncodeToString tokenData.ResultJsonStr
    let unsignedToken := stringsJoin [header, claim] ['.']
    match token.Method.Sign unsignedToken signKey with
    | .error err => .error err
    | .ok sig => .ok (stringsJoin [unsignedToken, sig] ['.'])

/-- The method `JwtGenerator.generateJwtAccessToken`: the error of
`makeSignedToken` is logged and the token string, empty in that case, is
returned. -/
def generateJwtAccessToken (libs : Libraries) (generator : JwtGenerator)
    (tokenData : AccessTokenData) : List Char :=
  let token := jwtNew (SigningMethodHS256 libs)
  match makeSignedToken libs token tokenData (.bytes generator.SignKey) with
  | .error _ => []
  | .ok signedToken => signedToken

/-- The text of the JSON object with `alg` set to `HS256` and `typ` to `JWT`. -/
def headerJson : List Char :=
  "\x7b\"alg\":\"HS256\",\"typ\":\"JWT\"\x7d".toList

/-- The text of the JSON object with `sub` set to `alice`. -/
def claimsJson : List Char :=
  "\x7b\"sub\":\"alice\"\x7d".toList

/-- Library stand-ins for running the signer on an example: the header always
marshals to `headerJson`, and the MAC is replaced by the key followed by the
message. -/
def sampleLibraries : Libraries :=
  { jsonMarshal := fun _ => .ok (bytesOfText headerJson),
    hmacSHA256 := fun key message => key ++ message }

/-- A generator with a three-byte key. -/
def sampleGenerator : JwtGenerator :=
  { SignKey := [toByte 107, toByte 101, toByte 121] }

/-- Token data whose claims text is `claimsJson`. -/
def sampleTokenData : AccessTokenData :=
  { ResultJsonStr := bytesOfText claimsJson }

/-- Library stand-ins whose `json.Marshal` refuses every header. -/
def failingLibraries : Libraries :=
  { jsonMarshal := fun _ => .error .marshal,
    hmacSHA256 := fun key message => key ++ message }

/-- The realm `acme` whose list key holds a plain string: an append to the
membership list is refused. -/
def acmeBlockedList : Redis :=
  { kv := fun k =>
      if k = realmKey "ferrum" "acme" then some (.str (.realm acme))
      else if k = realmClientsKey "ferrum" "acme" then some (.str (.raw "x"))
      else none,
    faults := [] }

/-- The realm `acme` on a connection whose fourth request fails in transport. -/
def acmeFourthFails : Redis :=
  { kv := acmeStore.kv, faults := [false, false, false, true] }

/-- The record `data.UserSession`, as far as the claims builders read it; times
are kept as seconds. -/
structure UserSession where
  Id : UUID
  UserId : UUID
  Started : Int
  Expired : Int
deriving DecidableEq, Repr

/-- The record `data.JwtCommonInfo`; the field `Type` is spelled `Typ`. -/
structure JwtCommonInfo where
  Issuer : String
  Typ : String
  Audience : String
  Scope : String
  JwtId : UUID
  IssuedAt : Int
  ExpiredAt : Int
  Subject : UUID
  SessionId : UUID
  SessionState : UUID
deriving DecidableEq, Repr

/-- The method `JwtGenerator.prepareAccessToken`.  The package `data` is not in
the sources: `data.CreateAccessToken` is a parameter, and so is the identifier
`uuid.New()` draws. -/
def prepareAccessToken {User α : Type} (CreateAccessToken : JwtCommonInfo → User → α)
    (newId : UUID) (realmBaseUrl tokenType scope : String) (sessionData : UserSession)
    (userData : User) : α :=
  let issuer := realmBaseUrl
  let jwtCommon : JwtCommonInfo :=
    { Issuer := issuer, Typ := tokenType, Audience := "account", Scope := scope, JwtId := newId,
      IssuedAt := sessionData.Started, ExpiredAt := sessionData.Expired,
      Subject := sessionData.UserId, SessionId := sessionData.Id,
      SessionState := sessionData.Id }
  let accessToken := CreateAccessToken jwtCommon userData
  accessToken

/-- The method `JwtGenerator.prepareRefreshToken`, with `data.CreateRefreshToken`
and the identifier `uuid.New()` draws as parameters. -/
def prepareRefreshToken {β : Type} (CreateRefreshToken : JwtCommonInfo → β)
    (newId : UUID) (realmBaseUrl tokenType scope : String) (sessionData : UserSession) : β :=
  let issuer := realmBaseUrl
  let jwtCommon : JwtCommonInfo :=
    { Issuer := issuer, Typ := tokenType, Audience := issuer, Scope := scope, JwtId := newId,
      IssuedAt := sessionData.Started, ExpiredAt := sessionData.Expired,
      Subject := sessionData.UserId, SessionId := sessionData.Id,
      SessionState := sessionData.Id }
  let accessToken := CreateRefreshToken jwtCommon
  accessToken

/-- The method `JwtGenerator.GenerateJwtAccessToken`. -/
def GenerateJwtAccessToken {User : Type} (libs : Libraries)
    (CreateAccessToken : JwtCommonInfo → User → AccessTokenData) (newId : UUID)
    (generator : JwtGenerator) (realmBaseUrl tokenType scope : String)
    (sessionData : UserSession) (userData : User) : List Char :=
  let accessToken :=
    prepareAccessToken CreateAccessToken newId realmBaseUrl tokenType scope sessionData userData
  generateJwtAccessToken libs generator accessToken

/-- A session of the user `42`. -/
def sampleSession : UserSession :=
  { Id := 5, UserId := 42, Started := 1000, Expired := 4600 }

/-- A stand-in for `data.CreateAccessToken` for running the issuer on an
example: the claims text names the issuer and the user. -/
def sampleCreateAccessToken (common : JwtCommonInfo) (userData : String) : AccessTokenData :=
  { ResultJsonStr := bytesOfText
      ("\x7b\"iss\":\"" ++ common.Issuer ++ "\",\"name\":\"" ++ userData ++ "\"\x7d").toList }

/-- A public client named `app3`. -/
def app3 : Client :=
  { Typ := .Public, ID := 3, Name := "app3", Auth := { Typ := .ClientIdAndSecrets, Value := "s3" } }

/-- The store after `app1`, `app2` and `app3` were created in `acme`. -/
def acmeThreeClients : Redis :=
  (CreateClient sampleManager acmeTwoClients "acme" app3).2

/-- Modelled from the spec: the constant `userKeyTemplate` of the namespaced key
schema is not in the sources; the spec gives `fe_user_{ns}_{realmName}_{userName}`. -/
def userKey (ns realmName userName : String) : String :=
  "fe_user_" ++ ns ++ "_" ++ realmName ++ "_" ++ userName

/-- What a store key is built for: the entity kind with the namespace, the realm
name and, for a client or a user, the entity name. -/
inductive StoreKey where
  | realm (ns realmName : String)
  | realmClients (ns realmName : String)
  | client (ns realmName clientName : String)
  | user (ns realmName userName : String)
deriving DecidableEq, Repr

/-- The key the templates build. -/
def StoreKey.text : StoreKey → String
  | .realm ns r => realmKey ns r
  | .realmClients ns r => realmClientsKey ns r
  | .client ns r c => clientKey ns r c
  | .user ns r u => userKey ns r u

/-- Whether the text is free of the separator `_` of the templates. -/
def noSeparator (text : String) : Bool :=
  !text.data.contains '_'

/-- Whether the namespace and the realm name a key is built from are free of
the separator `_`; the name of the client or user is not looked at. -/
def StoreKey.plain : StoreKey → Bool
  | .realm ns r => noSeparator ns && noSeparator r
  | .realmClients ns r => noSeparator ns && noSeparator r
  | .client ns r _ => noSeparator ns && noSeparator r
  | .user ns r _ => noSeparator ns && noSeparator r

/-! ## The package `managers` (`redis_data_manager.go`) -/

/-- The zero value of `data.Realm`, what `var obj T` holds before decoding. -/
def Realm.zero : Realm :=
  { Name := "", Clients := [], Users := [], TokenExpiration := 0, RefreshTokenExpiration := 0 }

/-- The call `json.Unmarshal(text, &obj)` into an `interface{}`: every JSON
document decodes without error; a text that is not JSON is refused (the
result `true`) and `obj` is left as it was. -/
def unmarshalAny : Doc → Option Doc → Bool × Option Doc
  | .raw _, obj => (true, obj)
  | d, _ => (false, some d)

/-- The constant `realmKeyTemplate` of the package `managers`, formatted. -/
def managers.realmKey (realmName : String) : String :=
  "fe_realm_" ++ realmName

/-- The constant `userKeyTemplate` of the package `managers`, formatted. -/
def managers.userKey (userName : String) : String :=
  "fe_user_" ++ userName

/-- The function `getObjectFromRedis` of the package `managers`, with one
result: `nil` when the `Get` request fails (transport failure, absent key, key
holding a list); otherwise `json.Unmarshal(realmJson, &obj)` runs on `obj`,
which starts as the zero value of its type, its error is logged, and `&obj` is
returned whether or not there was an error.  The call `json.Unmarshal` is the
parameter `unmarshal`: given the text and the object it returns whether it
failed and the object as it leaves it. -/
def managers.getObjectFromRedis {α : Type} (unmarshal : Doc → α → Bool × α) (zero : α)
    (s : Redis) (objKey : String) : Option α × Redis :=
  match s.roundTrip with
  | (true, s1) => (none, s1)
  | (false, s1) =>
    match s1.kv objKey with
    | none => (none, s1)
    | some (.list _) => (none, s1)
    | some (.str realmJson) =>
      let obj := zero
      match unmarshal realmJson obj with
      | (_, obj) => (some obj, s1)

/-- The method `RedisDataManager.GetRealm` of the package `managers`.  What
`json.Unmarshal` leaves in a `data.Realm` depends on the field tags of that
record, which are not in the sources: the call is the parameter `unmarshal`. -/
def managers.GetRealm (unmarshal : Doc → Realm → Bool × Realm) (s : Redis)
    (realmName : String) : Option Realm × Redis :=
  let realmKey := managers.realmKey realmName
  let realm := managers.getObjectFromRedis unmarshal Realm.zero s realmKey
  realm

/-- The method `RedisDataManager.GetUser` of the package `managers`;
`data.CreateUser` is not in the sources and is a parameter.  The argument
`realm` is not read. -/
def managers.GetUser {User : Type} (CreateUser : Option (Option Doc) → User) (s : Redis)
    (realm : Realm) (userName : String) : Option User × Redis :=
  let _ := realm
  let userKey := managers.userKey userName
  match managers.getObjectFromRedis unmarshalAny none s userKey with
  | (rawUser, s1) =>
    let user := CreateUser rawUser
    (some user, s1)

/-- A store whose key of the realm `acme` holds the text `x`, which is not
JSON. -/
def malformedRealmStore : Redis :=
  { kv := fun k => if k = managers.realmKey "acme" then some (.str (.raw "x")) else none,
    faults := [] }

/-! ## Realm operations -/

/-- The key space with every listed key bound to its entry, in order. -/
def Redis.putAll (s : Redis) (entries : List (String × Entry)) : Redis :=
  entries.foldl (fun st e => st.put e.1 e.2) s

/-- The key space with every listed key removed. -/
def Redis.removeAll (s : Redis) (keys : List String) : Redis :=
  keys.foldl (fun st k => st.remove k) s

/-- The membership entry of a client, as `addClientToRealm` builds it. -/
def Client.identifier (client : Client) : ExtendedIdentifier :=
  { ID := client.ID, Name := client.Name }

/-- Modelled from the spec: the code that writes the client records of a new
realm is not in the sources.  Spec 4.3: "realm creation seeds embedded
client/user lists supplied at creation time (bulk-insert, not incremental)";
every client is written under its client key with `createClientRedis`, the
first failure stops the loop. -/
def createRealmClientRecords (mn : RedisDataManager) (realmName : String) :
    List Client → Redis → Option GoError × Redis
  | [], s => (none, s)
  | client :: rest, s =>
    match createClientRedis mn s realmName client.Name (.client client) with
    | (some err, s1) => (some (.wrap "createClientRedis failed" err), s1)
    | (none, s1) => createRealmClientRecords mn realmName rest s1

/-- Modelled from the spec: the code that writes the user documents of a new
realm is not in the sources.  Spec 4.2 and 4.3: every user document supplied at
creation time is written under its user key with the `set` of spec 4.1;
`userName` gives the user name of a document (the package `data` is not in the
sources). -/
def createRealmUserRecords (mn : RedisDataManager) (userName : String → String)
    (realmName : String) : List String → Redis → Option GoError × Redis
  | [], s => (none, s)
  | user :: rest, s =>
    match setString s (userKey mn.nspace realmName (userName user)) (.user user) with
    | (some err, s1) => (some (.wrap "setString failed" err), s1)
    | (none, s1) => createRealmUserRecords mn userName realmName rest s1

/-- Modelled from the spec: `CreateRealm` is not in the sources.  Spec 4.3:
"realm creation seeds embedded client/user lists supplied at creation time
(bulk-insert, not incremental)", with `AlreadyExists` for a create collision.
The realm is looked up first, as `CreateClient` looks the client up; then the
client records are written, the membership list is written in one
`createRealmClients` with the deletion of what was there, the user documents
are written, and the realm document, which `GetRealm` reads back by a direct
lookup, is written under the realm key. -/
def CreateRealm (mn : RedisDataManager) (userName : String → String) (s : Redis)
    (newRealm : Realm) : Option GoError × Redis :=
  match GetRealm mn s newRealm.Name with
  | (.ok _, s1) => (some (.sentinel .ErrExists), s1)
  | (.error err, s1) =>
    if !err.Is .ErrNotFound then (some (.wrap "GetRealm failed" err), s1)
    else
      match createRealmClientRecords mn newRealm.Name newRealm.Clients s1 with
      | (some err, s2) => (some err, s2)
      | (none, s2) =>
        match createRealmClients mn s2 newRealm.Name
          (newRealm.Clients.map Client.identifier) true with
        | (some err, s3) => (some (.wrap "createRealmClients failed" err), s3)
        | (none, s3) =>
          match createRealmUserRecords mn userName newRealm.Name newRealm.Users s3 with
          | (some err, s4) => (some err, s4)
          | (none, s4) =>
            match setString s4 (realmKey mn.nspace newRealm.Name) (.realm newRealm) with
            | (some err, s5) => (some (.wrap "setString failed" err), s5)
            | (none, s5) => (none, s5)

/-- Modelled from the spec: `GetUsers` is not in the sources, and the spec only
names it (4.3, "realm-level lifecycle").  The key schema of spec 4.2 has no key
for the users of a realm, so the user documents are those of the realm
document, read by `GetRealm`. -/
def GetUsers (mn : RedisDataManager) (s : Redis) (realmName : String) :
    Except GoError (List String) × Redis :=
  match GetRealm mn s realmName with
  | (.error err, s1) => (.error (.wrap "GetRealm failed" err), s1)
  | (.ok realm, s1) => (.ok realm.Users, s1)

/-- Modelled from the spec: the code that deletes the client records of a realm
is not in the sources; every record is deleted with `deleteClientRedis`, the
first failure stops the loop. -/
def deleteRealmClientRecords (mn : RedisDataManager) (realmName : String) :
    List Client → Redis → Option GoError × Redis
  | [], s => (none, s)
  | client :: rest, s =>
    match deleteClientRedis mn s realmName client.Name with
    | (some err, s1) => (some (.wrap "deleteClientRedis failed" err), s1)
    | (none, s1) => deleteRealmClientRecords mn realmName rest s1

/-- Modelled from the spec: the code that deletes the user documents of a realm
is not in the sources; every user key is deleted with the `delete` of spec 4.1,
the first failure stops the loop. -/
def deleteRealmUserRecords (mn : RedisDataManager) (userName : String → String)
    (realmName : String) : List String → Redis → Option GoError × Redis
  | [], s => (none, s)
  | user :: rest, s =>
    match delKey s (userKey mn.nspace realmName (userName user)) with
    | (some err, s1) => (some (.wrap "delKey failed" err), s1)
    | (none, s1) => deleteRealmUserRecords mn userName realmName rest s1

/-- Modelled from the spec: `DeleteRealm` is not in the sources, and the spec
only names it (4.3, "realm-level lifecycle") and says that `GetRealm` is
`NotFound` afterwards (8, scenario).  The realm document is read, what the
realm owns (spec 3: its client records, its membership list, its user
documents) is deleted, and then the realm document itself; an absent
membership list is accepted, as `createRealmClients` accepts it. -/
def DeleteRealm (mn : RedisDataManager) (userName : String → String) (s : Redis)
    (realmName : String) : Option GoError × Redis :=
  match GetRealm mn s realmName with
  | (.error err, s1) => (some (.wrap "GetRealm failed" err), s1)
  | (.ok realm, s1) =>
    match deleteRealmClientRecords mn realmName realm.Clients s1 with
    | (some err, s2) => (some err, s2)
    | (none, s2) =>
      let listGone : Option GoError × Redis :=
        match deleteRealmClientsRedis mn s2 realmName with
        | (some err, s3) =>
          if !err.Is .ErrNotExists then (some (.wrap "deleteRealmClientsRedis failed" err), s3)
          else (none, s3)
        | (none, s3) => (none, s3)
      match listGone with
      | (some err, s3) => (some err, s3)
      | (none, s3) =>
        match deleteRealmUserRecords mn userName realmName realm.Users s3 with
        | (some err, s4) => (some err, s4)
        | (none, s4) =>
          match delKey s4 (realmKey mn.nspace realmName) with
          | (some err, s5) => (some (.wrap "delKey failed" err), s5)
          | (none, s5) => (none, s5)

/-- The user name of a sample document: the document itself. -/
def sampleUserName (document : String) : String := document

/-- The realm `acme` without clients and with one user. -/
def acmeNoClients : Realm :=
  { Name := "acme", Clients := [], Users := ["alice"], TokenExpiration := 3600,
    RefreshTokenExpiration := 1800 }

/-- The realm `acme` with the clients `app1` and `app2` and the user `alice`. -/
def acmeFull : Realm :=
  { Name := "acme", Clients := [app1, app2], Users := ["alice"], TokenExpiration := 3600,
    RefreshTokenExpiration := 1800 }

/-- A store holding the realm `acme`, its membership list with the entry of
`app2`, the record of `app2`, and under the key of `(acme, app1)` a text that
is not a client record. -/
def acmeUnreadable : Redis :=
  { kv := fun k =>
      if k = realmKey "ferrum" "acme" then some (.str (.realm acme))
      else if k = realmClientsKey "ferrum" "acme" then
        some (.list [.identifiers [{ ID := 2, Name := "app2" }]])
      else if k = clientKey "ferrum" "acme" "app2" then some (.str (.client app2))
      else if k = clientKey "ferrum" "acme" "app1" then some (.str (.raw "x"))
      else none,
    faults := [] }

/-- The store after `app1` of `acmeTwoClients` was renamed to `app2`: the
membership list holds two entries named `app2`. -/
def acmeTwins : Redis :=
  (UpdateClient sampleManager acmeTwoClients "acme" "app1" app1AsApp2).2

/-- Whether the request that comes after `i` others fails in transport. -/
def Redis.failsAt (s : Redis) (i : Nat) : Bool :=
  (s.faults.drop i).head? == some true

/-! ## Properties of the store operations -/

theorem roundTrip_cases (s : Redis) :
    (∃ s1, s.roundTrip = (true, s1) ∧ s1.kv = s.kv) ∨
    (∃ s1, s.roundTrip = (false, s1) ∧ s1.kv = s.kv) := by
  obtain ⟨kv, faults⟩ := s
  cases faults with
  | nil => exact Or.inr ⟨_, rfl, rfl⟩
  | cons f rest =>
    cases f
    · exact Or.inr ⟨_, rfl, rfl⟩
    · exact Or.inl ⟨_, rfl, rfl⟩

theorem roundTrip_nil (s : Redis) (h : s.faults = []) : s.roundTrip = (false, s) := by
  unfold Redis.roundTrip
  rw [h]

/-! ### getObjectFromRedis -/

theorem getObjectFromRedis_kv {α : Type} (decode : Doc → Option α) (s : Redis) (key : String) :
    (getObjectFromRedis decode s key).2.kv = s.kv := by
  rcases roundTrip_cases s with ⟨s1, hrt, hkv⟩ | ⟨s1, hrt, hkv⟩
  · simp only [getObjectFromRedis, hrt, hkv]
  · simp only [getObjectFromRedis, hrt]
    split
    · exact hkv
    · exact hkv
    · split <;> exact hkv

theorem getObjectFromRedis_ok {α : Type} (decode : Doc → Option α) (s : Redis) (key : String)
    (v : α) (h : (getObjectFromRedis decode s key).1 = .ok v) :
    ∃ d, s.kv key = some (.str d) ∧ decode d = some v := by
  rcases roundTrip_cases s with ⟨s1, hrt, hkv⟩ | ⟨s1, hrt, hkv⟩
  · simp [getObjectFromRedis, hrt] at h
  · simp only [getObjectFromRedis, hrt, hkv] at h
    cases hk : s.kv key with
    | none => simp [hk] at h
    | some e =>
      cases e with
      | list l => simp [hk] at h
      | str d =>
        cases hd : decode d with
        | none => simp [hk, hd] at h
        | some w =>
          simp [hk, hd] at h
          exact ⟨d, rfl, by rw [hd, h]⟩

theorem getObjectFromRedis_notFound {α : Type} (decode : Doc → Option α) (s : Redis)
    (key : String) (e : GoError) (h : (getObjectFromRedis decode s key).1 = .error e)
    (hnf : e.Is .ErrNotFound = true) :
    s.kv key = none ∨ ∃ d, s.kv key = some (.str d) ∧ decode d = none := by
  rcases roundTrip_cases s with ⟨s1, hrt, hkv⟩ | ⟨s1, hrt, hkv⟩
  · simp [getObjectFromRedis, hrt] at h
    subst h
    simp [GoError.Is] at hnf
  · simp only [getObjectFromRedis, hrt, hkv] at h
    cases hk : s.kv key with
    | none => exact Or.inl rfl
    | some e' =>
      cases e' with
      | list l =>
        simp [hk] at h
        subst h
        simp [GoError.Is] at hnf
      | str d =>
        cases hd : decode d with
        | none => exact Or.inr ⟨d, rfl, hd⟩
        | some w => simp [hk, hd] at h

theorem getObjectFromRedis_nil {α : Type} (decode : Doc → Option α) (s : Redis) (key : String)
    (h : s.faults = []) :
    getObjectFromRedis decode s key =
      (match s.kv key with
        | none => .error (.sentinel .ErrNotFound)
        | some (.list _) => .error (.sentinel .WrongType)
        | some (.str d) =>
          match decode d with
          | some obj => .ok obj
          | none => .error (.wrap "json.Unmarshal failed" (.sentinel .ErrNotFound)), s) := by
  simp only [getObjectFromRedis, roundTrip_nil s h]
  cases s.kv key with
  | none => rfl
  | some e =>
    cases e with
    | list l => rfl
    | str d => simp only; cases decode d <;> rfl

/-! ### getObjectsListFromRedis -/

theorem getObjectsListFromRedis_kv {α : Type} (decode : Doc → Option (List α)) (s : Redis)
    (key : String) : (getObjectsListFromRedis decode s key).2.kv = s.kv := by
  rcases roundTrip_cases s with ⟨s1, hrt, hkv⟩ | ⟨s1, hrt, hkv⟩
  · simp only [getObjectsListFromRedis, hrt, hkv]
  · simp only [getObjectsListFromRedis, hrt]
    split
    · exact hkv
    · exact hkv
    · split <;> exact hkv

theorem getObjectsListFromRedis_nil {α : Type} (decode : Doc → Option (List α)) (s : Redis)
    (key : String) (h : s.faults = []) :
    getObjectsListFromRedis decode s key =
      (match s.kv key with
        | none => .ok []
        | some (.str _) => .error (.sentinel .WrongType)
        | some (.list slots) =>
          match decodeSlots decode slots with
          | some items => .ok items
          | none => .error (.wrap "json.Unmarshal failed" (.sentinel .ErrNotFound)), s) := by
  simp only [getObjectsListFromRedis, roundTrip_nil s h]
  cases s.kv key with
  | none => rfl
  | some e =>
    cases e with
    | str d => rfl
    | list l => simp only; cases decodeSlots decode l <;> rfl

theorem getObjectsListFromRedis_ok {α : Type} (decode : Doc → Option (List α)) (s : Redis)
    (key : String) (l : List α) (h : (getObjectsListFromRedis decode s key).1 = .ok l) :
    (s.kv key = none ∧ l = []) ∨
    ∃ slots, s.kv key = some (.list slots) ∧ decodeSlots decode slots = some l := by
  rcases roundTrip_cases s with ⟨s1, hrt, hkv⟩ | ⟨s1, hrt, hkv⟩
  · simp [getObjectsListFromRedis, hrt] at h
  · simp only [getObjectsListFromRedis, hrt, hkv] at h
    cases hk : s.kv key with
    | none => simp [hk] at h; exact Or.inl ⟨rfl, h⟩
    | some e =>
      cases e with
      | str d => simp [hk] at h
      | list slots =>
        cases hd : decodeSlots decode slots with
        | none => simp [hk, hd] at h
        | some w =>
          simp [hk, hd] at h
          exact Or.inr ⟨slots, rfl, by rw [hd, h]⟩

/-! ### setString -/

theorem setString_nil (s : Redis) (key : String) (d : Doc) (h : s.faults = []) :
    setString s key d = (none, s.put key (.str d)) := by
  simp only [setString, roundTrip_nil s h]

theorem setString_ok (s : Redis) (key : String) (d : Doc) (h : (setString s key d).1 = none) :
    ∀ k, (setString s key d).2.kv k = if k = key then some (.str d) else s.kv k := by
  rcases roundTrip_cases s with ⟨s1, hrt, hkv⟩ | ⟨s1, hrt, hkv⟩
  · simp [setString, hrt] at h
  · intro k
    simp only [setString, hrt, Redis.put, hkv]

theorem setString_err (s : Redis) (key : String) (d : Doc) (e : GoError)
    (h : (setString s key d).1 = some e) :
    (setString s key d).2.kv = s.kv ∧ e = .sentinel .StoreUnavailable := by
  rcases roundTrip_cases s with ⟨s1, hrt, hkv⟩ | ⟨s1, hrt, hkv⟩
  · simp only [setString, hrt, Option.some.injEq] at h ⊢
    exact ⟨hkv, h.symm⟩
  · simp [setString, hrt] at h

/-! ### delKey -/

theorem delKey_nil (s : Redis) (key : String) (h : s.faults = []) :
    delKey s key =
      match s.kv key with
      | none => (some (.sentinel .ErrNotExists), s)
      | some _ => (none, s.remove key) := by
  cases hk : s.kv key <;> simp [delKey, roundTrip_nil s h, hk]

theorem delKey_ok (s : Redis) (key : String) (h : (delKey s key).1 = none) :
    s.kv key ≠ none ∧ ∀ k, (delKey s key).2.kv k = if k = key then none else s.kv k := by
  rcases roundTrip_cases s with ⟨s1, hrt, hkv⟩ | ⟨s1, hrt, hkv⟩
  · simp [delKey, hrt] at h
  · simp only [delKey, hrt, hkv] at h ⊢
    cases hk : s.kv key with
    | none => simp [hk] at h
    | some e => simp [hk, Redis.remove, hkv]

theorem delKey_err (s : Redis) (key : String) (e : GoError) (h : (delKey s key).1 = some e) :
    (delKey s key).2.kv = s.kv ∧
    (e = .sentinel .StoreUnavailable ∨ (e = .sentinel .ErrNotExists ∧ s.kv key = none)) := by
  rcases roundTrip_cases s with ⟨s1, hrt, hkv⟩ | ⟨s1, hrt, hkv⟩
  · simp only [delKey, hrt, Option.some.injEq] at h ⊢
    exact ⟨hkv, Or.inl h.symm⟩
  · simp only [delKey, hrt, hkv] at h ⊢
    cases hk : s.kv key with
    | none =>
      simp [hk] at h ⊢
      exact ⟨hkv, Or.inr h.symm⟩
    | some e => simp [hk] at h

/-! ### RPush -/

theorem RPush_nil (s : Redis) (key : String) (d : Doc) (h : s.faults = []) :
    RPush s key d =
      match s.kv key with
      | none => (none, s.put key (.list [d]))
      | some (.list slots) => (none, s.put key (.list (slots ++ [d])))
      | some (.str _) => (some (.sentinel .WrongType), s) := by
  cases hk : s.kv key with
  | none => simp [RPush, roundTrip_nil s h, hk]
  | some e => cases e <;> simp [RPush, roundTrip_nil s h, hk]

theorem RPush_ok (s : Redis) (key : String) (d : Doc) (h : (RPush s key d).1 = none) :
    (∀ d', s.kv key ≠ some (.str d')) ∧
    ∀ k, (RPush s key d).2.kv k =
      if k = key then some (.list (listSlots s key ++ [d])) else s.kv k := by
  rcases roundTrip_cases s with ⟨s1, hrt, hkv⟩ | ⟨s1, hrt, hkv⟩
  · simp [RPush, hrt] at h
  · simp only [RPush, hrt, hkv] at h ⊢
    cases hk : s.kv key with
    | none => simp [hk, Redis.put, hkv, listSlots]
    | some e =>
      cases e with
      | str d' => simp [hk] at h
      | list slots => simp [hk, Redis.put, hkv, listSlots]

theorem RPush_err (s : Redis) (key : String) (d : Doc) (e : GoError)
    (h : (RPush s key d).1 = some e) :
    (RPush s key d).2.kv = s.kv ∧
    (e = .sentinel .StoreUnavailable ∨ e = .sentinel .WrongType) := by
  rcases roundTrip_cases s with ⟨s1, hrt, hkv⟩ | ⟨s1, hrt, hkv⟩
  · simp only [RPush, hrt, Option.some.injEq] at h ⊢
    exact ⟨hkv, Or.inl h.symm⟩
  · simp only [RPush, hrt, hkv] at h ⊢
    cases hk : s.kv key with
    | none => simp [hk] at h
    | some e' =>
      cases e' with
      | str d' =>
        simp [hk] at h ⊢
        exact ⟨hkv, Or.inr h.symm⟩
      | list slots => simp [hk] at h

/-! ## Keys -/

theorem clientKey_inj (ns r a b : String) (h : clientKey ns r a = clientKey ns r b) : a = b := by
  unfold clientKey at h
  have := congrArg String.data h
  simp only [String.data_append, List.append_assoc] at this
  exact String.ext (List.append_cancel_left (List.append_cancel_left
    (List.append_cancel_left (List.append_cancel_left (List.append_cancel_left this)))))

theorem clientKey_ne_realmClientsKey (ns r a ns2 r2 : String) :
    clientKey ns r a ≠ realmClientsKey ns2 r2 := by
  intro h
  unfold clientKey realmClientsKey at h
  have := congrArg String.data h
  simp [String.data_append] at this

theorem realmClientsKey_ne_clientKey (ns r a ns2 r2 : String) :
    realmClientsKey ns2 r2 ≠ clientKey ns r a :=
  fun h => clientKey_ne_realmClientsKey ns r a ns2 r2 h.symm

theorem clientKey_ne_realmKey (ns r a ns2 r2 : String) : clientKey ns r a ≠ realmKey ns2 r2 := by
  intro h
  unfold clientKey realmKey at h
  have := congrArg String.data h
  simp [String.data_append] at this

theorem realmKey_ne_clientKey (ns r a ns2 r2 : String) : realmKey ns2 r2 ≠ clientKey ns r a :=
  fun h => clientKey_ne_realmKey ns r a ns2 r2 h.symm

theorem realmKey_ne_realmClientsKey (ns r : String) : realmKey ns r ≠ realmClientsKey ns r := by
  intro h
  unfold realmKey realmClientsKey at h
  have := congrArg String.length h
  simp only [String.length_append] at this
  have h8 : "_clients".length = 8 := by decide
  omega

/-! ## Errors -/

theorem GoError.Is_eq_root (e : GoError) (t : Sentinel) : e.Is t = decide (e.root = t) := by
  induction e with
  | sentinel x => rfl
  | wrap ctx inner ih => simpa [GoError.Is, GoError.root] using ih

theorem GoError.Is_iff_root (e : GoError) (t : Sentinel) : e.Is t = true ↔ e.root = t := by
  rw [GoError.Is_eq_root]; simp

/-! ## Decoding -/

theorem decodeSlots_append_single {α : Type} (decode : Doc → Option (List α)) (slots : List Doc)
    (d : Doc) (l : List α) (hd : decode d = some l) :
    decodeSlots decode (slots ++ [d]) =
      (decodeSlots decode slots).map (fun items => items ++ l) := by
  induction slots with
  | nil => simp [decodeSlots, hd]
  | cons x xs ih =>
    have hstep : decodeSlots decode (x :: (xs ++ [d])) =
        match decode x, decodeSlots decode (xs ++ [d]) with
        | some portion, some more => some (portion ++ more)
        | _, _ => none := rfl
    have hstep2 : decodeSlots decode (x :: xs) =
        match decode x, decodeSlots decode xs with
        | some portion, some more => some (portion ++ more)
        | _, _ => none := rfl
    rw [List.cons_append, hstep, hstep2, ih]
    cases decode x <;> cases decodeSlots decode xs <;> simp

theorem membership_congr (mn : RedisDataManager) (s t : Redis) (realmName : String)
    (h : t.kv (realmClientsKey mn.nspace realmName) = s.kv (realmClientsKey mn.nspace realmName)) :
    membership mn t realmName = membership mn s realmName := by
  unfold membership
  rw [h]

theorem storedClient_congr (mn : RedisDataManager) (s t : Redis) (realmName clientName : String)
    (h : t.kv (clientKey mn.nspace realmName clientName)
      = s.kv (clientKey mn.nspace realmName clientName)) :
    storedClient mn t realmName clientName = storedClient mn s realmName clientName := by
  unfold storedClient
  rw [h]

/-! ## Lookups -/

theorem GetRealm_kv (mn : RedisDataManager) (s : Redis) (realmName : String) :
    (GetRealm mn s realmName).2.kv = s.kv := by
  have h := getObjectFromRedis_kv decodeRealm s (realmKey mn.nspace realmName)
  unfold GetRealm
  rcases hg : getObjectFromRedis decodeRealm s (realmKey mn.nspace realmName) with ⟨(err | v), s1⟩ <;>
    (rw [hg] at h; exact h)

theorem GetRealm_ok (mn : RedisDataManager) (s : Redis) (realmName : String) (realm : Realm)
    (h : (GetRealm mn s realmName).1 = .ok realm) :
    s.kv (realmKey mn.nspace realmName) = some (.str (.realm realm)) := by
  unfold GetRealm at h
  rcases hg : getObjectFromRedis decodeRealm s (realmKey mn.nspace realmName) with ⟨(err | v), s1⟩
  · rw [hg] at h; simp at h
  · rw [hg] at h
    simp only [Except.ok.injEq] at h
    subst h
    obtain ⟨d, hd, hdec⟩ := getObjectFromRedis_ok decodeRealm s _ v (by rw [hg])
    cases d <;> simp [decodeRealm] at hdec
    subst hdec
    exact hd

theorem GetRealm_of_stored (mn : RedisDataManager) (s : Redis) (realmName : String)
    (realm : Realm) (hf : s.faults = [])
    (h : s.kv (realmKey mn.nspace realmName) = some (.str (.realm realm))) :
    GetRealm mn s realmName = (.ok realm, s) := by
  simp [GetRealm, getObjectFromRedis_nil _ s _ hf, h, decodeRealm]

theorem GetRealm_of_absent (mn : RedisDataManager) (s : Redis) (realmName : String)
    (hf : s.faults = []) (h : s.kv (realmKey mn.nspace realmName) = none) :
    GetRealm mn s realmName =
      (.error (.wrap "getObjectFromRedis failed" (.sentinel .ErrNotFound)), s) := by
  simp [GetRealm, getObjectFromRedis_nil _ s _ hf, h]

theorem GetClient_kv (mn : RedisDataManager) (s : Redis) (realmName clientName : String) :
    (GetClient mn s realmName clientName).2.kv = s.kv := by
  have h := getObjectFromRedis_kv decodeClient s (clientKey mn.nspace realmName clientName)
  rcases hg : getObjectFromRedis decodeClient s (clientKey mn.nspace realmName clientName)
    with ⟨(err | v), s1⟩ <;> (rw [hg] at h; simp only [GetClient, hg]; exact h)

theorem GetClient_ok (mn : RedisDataManager) (s : Redis) (realmName clientName : String)
    (c : Client) (h : (GetClient mn s realmName clientName).1 = .ok c) :
    s.kv (clientKey mn.nspace realmName clientName) = some (.str (.client c)) := by
  rcases hg : getObjectFromRedis decodeClient s (clientKey mn.nspace realmName clientName)
    with ⟨(err | v), s1⟩
  · simp [GetClient, hg] at h
  · simp only [GetClient, hg, Except.ok.injEq] at h
    subst h
    obtain ⟨d, hd, hdec⟩ := getObjectFromRedis_ok decodeClient s _ v (by rw [hg])
    cases d <;> simp [decodeClient] at hdec
    subst hdec
    exact hd

theorem GetClient_of_stored (mn : RedisDataManager) (s : Redis) (realmName clientName : String)
    (c : Client) (hf : s.faults = [])
    (h : s.kv (clientKey mn.nspace realmName clientName) = some (.str (.client c))) :
    GetClient mn s realmName clientName = (.ok c, s) := by
  simp [GetClient, getObjectFromRedis_nil _ s _ hf, h, decodeClient]

theorem GetClient_of_absent (mn : RedisDataManager) (s : Redis) (realmName clientName : String)
    (hf : s.faults = []) (h : s.kv (clientKey mn.nspace realmName clientName) = none) :
    GetClient mn s realmName clientName =
      (.error (.wrap "getObjectFromRedis failed" (.sentinel .ErrNotFound)), s) := by
  simp [GetClient, getObjectFromRedis_nil _ s _ hf, h]

theorem getRealmClients_kv (mn : RedisDataManager) (s : Redis) (realmName : String) :
    (getRealmClients mn s realmName).2.kv = s.kv := by
  have h := getObjectsListFromRedis_kv decodeIdentifiers s (realmClientsKey mn.nspace realmName)
  rcases hg : getObjectsListFromRedis decodeIdentifiers s (realmClientsKey mn.nspace realmName)
    with ⟨(err | v), s1⟩
  · rw [hg] at h; simp only [getRealmClients, hg]; exact h
  · rw [hg] at h
    simp only [getRealmClients, hg]
    split <;> exact h

theorem getRealmClients_ok (mn : RedisDataManager) (s : Redis) (realmName : String)
    (l : List ExtendedIdentifier) (h : (getRealmClients mn s realmName).1 = .ok l) :
    membership mn s realmName = some l ∧ l ≠ [] := by
  rcases hg : getObjectsListFromRedis decodeIdentifiers s (realmClientsKey mn.nspace realmName)
    with ⟨(err | v), s1⟩
  · simp [getRealmClients, hg] at h
  · simp only [getRealmClients, hg] at h
    by_cases hlen : v.length = 0
    · simp [hlen] at h
    · simp only [hlen, if_false, Except.ok.injEq] at h
      subst h
      refine ⟨?_, fun hnil => hlen (by simp [hnil])⟩
      rcases getObjectsListFromRedis_ok decodeIdentifiers s _ v (by rw [hg]) with
        ⟨_, hv⟩ | ⟨slots, hk, hdec⟩
      · exact absurd (by simp [hv]) hlen
      · simp [membership, hk, hdec]

theorem getRealmClients_of_membership (mn : RedisDataManager) (s : Redis) (realmName : String)
    (l : List ExtendedIdentifier) (hf : s.faults = [])
    (h : membership mn s realmName = some l) :
    getRealmClients mn s realmName =
      (if l.length = 0 then .error (.sentinel .ErrZeroLength) else .ok l, s) := by
  unfold membership at h
  simp only [getRealmClients, getObjectsListFromRedis_nil _ s _ hf]
  cases hk : s.kv (realmClientsKey mn.nspace realmName) with
  | none =>
    rw [hk] at h
    simp only [Option.some.injEq] at h
    subst h
    simp
  | some e =>
    cases e with
    | str d => rw [hk] at h; simp at h
    | list slots =>
      rw [hk] at h
      simp only at h
      simp only [h]
      split <;> simp_all

/-! ## Single writes -/

theorem createClientRedis_nil (mn : RedisDataManager) (s : Redis) (realmName clientName : String)
    (d : Doc) (hf : s.faults = []) :
    createClientRedis mn s realmName clientName d =
      (none, s.put (clientKey mn.nspace realmName clientName) (.str d)) := by
  simp only [createClientRedis, setString_nil s _ d hf]

theorem createClientRedis_ok (mn : RedisDataManager) (s : Redis) (realmName clientName : String)
    (d : Doc) (h : (createClientRedis mn s realmName clientName d).1 = none) :
    ∀ k, (createClientRedis mn s realmName clientName d).2.kv k =
      if k = clientKey mn.nspace realmName clientName then some (.str d) else s.kv k := by
  rcases hg : setString s (clientKey mn.nspace realmName clientName) d with ⟨(_ | err), s1⟩
  · have hk := setString_ok s _ d (by rw [hg])
    rw [hg] at hk
    simpa only [createClientRedis, hg] using hk
  · simp [createClientRedis, hg] at h

theorem createClientRedis_err (mn : RedisDataManager) (s : Redis) (realmName clientName : String)
    (d : Doc) (e : GoError) (h : (createClientRedis mn s realmName clientName d).1 = some e) :
    (createClientRedis mn s realmName clientName d).2.kv = s.kv := by
  rcases hg : setString s (clientKey mn.nspace realmName clientName) d with ⟨(_ | err), s1⟩
  · simp [createClientRedis, hg] at h
  · have hk := (setString_err s _ d err (by rw [hg])).1
    rw [hg] at hk
    simpa only [createClientRedis, hg] using hk

theorem deleteClientRedis_nil (mn : RedisDataManager) (s : Redis) (realmName clientName : String)
    (hf : s.faults = []) :
    deleteClientRedis mn s realmName clientName =
      match s.kv (clientKey mn.nspace realmName clientName) with
      | none => (some (.wrap "delKey failed" (.sentinel .ErrNotExists)), s)
      | some _ => (none, s.remove (clientKey mn.nspace realmName clientName)) := by
  cases hk : s.kv (clientKey mn.nspace realmName clientName) <;>
    simp [deleteClientRedis, delKey_nil s _ hf, hk]

theorem deleteClientRedis_ok (mn : RedisDataManager) (s : Redis) (realmName clientName : String)
    (h : (deleteClientRedis mn s realmName clientName).1 = none) :
    s.kv (clientKey mn.nspace realmName clientName) ≠ none ∧
    ∀ k, (deleteClientRedis mn s realmName clientName).2.kv k =
      if k = clientKey mn.nspace realmName clientName then none else s.kv k := by
  rcases hg : delKey s (clientKey mn.nspace realmName clientName) with ⟨(_ | err), s1⟩
  · have hk := delKey_ok s _ (by rw [hg])
    rw [hg] at hk
    simpa only [deleteClientRedis, hg] using hk
  · simp [deleteClientRedis, hg] at h

theorem deleteClientRedis_err (mn : RedisDataManager) (s : Redis) (realmName clientName : String)
    (e : GoError) (h : (deleteClientRedis mn s realmName clientName).1 = some e) :
    (deleteClientRedis mn s realmName clientName).2.kv = s.kv := by
  rcases hg : delKey s (clientKey mn.nspace realmName clientName) with ⟨(_ | err), s1⟩
  · simp [deleteClientRedis, hg] at h
  · have hk := (delKey_err s _ err (by rw [hg])).1
    rw [hg] at hk
    simpa only [deleteClientRedis, hg] using hk

/-! ## The membership list -/

theorem addClientToRealm_nil (mn : RedisDataManager) (s : Redis) (realmName : String)
    (client : Client) (hf : s.faults = []) :
    addClientToRealm mn s realmName client =
      match s.kv (realmClientsKey mn.nspace realmName) with
      | some (.str _) =>
        (some (.wrap "createRealmClients failed" (.sentinel .WrongType)), s)
      | _ => (none, s.put (realmClientsKey mn.nspace realmName)
          (.list (listSlots s (realmClientsKey mn.nspace realmName)
            ++ [.identifiers [{ ID := client.ID, Name := client.Name }]]))) := by
  cases hk : s.kv (realmClientsKey mn.nspace realmName) with
  | none => simp [addClientToRealm, createRealmClients, RPush_nil s _ _ hf, hk, listSlots]
  | some e =>
    cases e <;> simp [addClientToRealm, createRealmClients, RPush_nil s _ _ hf, hk, listSlots]

theorem addClientToRealm_ok (mn : RedisDataManager) (s : Redis) (realmName : String)
    (client : Client) (h : (addClientToRealm mn s realmName client).1 = none) :
    (∀ d, s.kv (realmClientsKey mn.nspace realmName) ≠ some (.str d)) ∧
    ∀ k, (addClientToRealm mn s realmName client).2.kv k =
      if k = realmClientsKey mn.nspace realmName then
        some (.list (listSlots s (realmClientsKey mn.nspace realmName)
          ++ [.identifiers [{ ID := client.ID, Name := client.Name }]]))
      else s.kv k := by
  rcases hg : RPush s (realmClientsKey mn.nspace realmName)
    (.identifiers [{ ID := client.ID, Name := client.Name }]) with ⟨(_ | err), s1⟩
  · have hk := RPush_ok s _ _ (by rw [hg])
    rw [hg] at hk
    simpa only [addClientToRealm, createRealmClients, Bool.false_eq_true, ↓reduceIte, hg] using hk
  · simp [addClientToRealm, createRealmClients, hg] at h

theorem addClientToRealm_err (mn : RedisDataManager) (s : Redis) (realmName : String)
    (client : Client) (e : GoError) (h : (addClientToRealm mn s realmName client).1 = some e) :
    (addClientToRealm mn s realmName client).2.kv = s.kv ∧
    (e.root = .StoreUnavailable ∨ e.root = .WrongType) := by
  rcases hg : RPush s (realmClientsKey mn.nspace realmName)
    (.identifiers [{ ID := client.ID, Name := client.Name }]) with ⟨(_ | err), s1⟩
  · simp [addClientToRealm, createRealmClients, hg] at h
  · have hk := RPush_err s _ _ err (by rw [hg])
    rw [hg] at hk
    simp only [addClientToRealm, createRealmClients, hg, Bool.false_eq_true, ↓reduceIte,
      Option.some.injEq] at h ⊢
    subst h
    refine ⟨hk.1, ?_⟩
    rcases hk.2 with h1 | h1 <;> simp [h1, GoError.root]

theorem addClientToRealm_frame (mn : RedisDataManager) (s : Redis) (realmName : String)
    (client : Client) (k : String) (hk : k ≠ realmClientsKey mn.nspace realmName) :
    (addClientToRealm mn s realmName client).2.kv k = s.kv k := by
  cases hr : (addClientToRealm mn s realmName client).1 with
  | none => rw [(addClientToRealm_ok mn s realmName client hr).2 k, if_neg hk]
  | some e => rw [(addClientToRealm_err mn s realmName client e hr).1]

/-- What `createRealmClients` with `isAllPreDelete` leaves: on success the key
holds the one slot written; an error is a transport failure, and no other key
changes. -/
theorem createRealmClients_rewrite (mn : RedisDataManager) (s : Redis) (realmName : String)
    (l : List ExtendedIdentifier) :
    ((createRealmClients mn s realmName l true).1 = none →
      ∀ k, (createRealmClients mn s realmName l true).2.kv k =
        if k = realmClientsKey mn.nspace realmName then some (.list [.identifiers l])
        else s.kv k) ∧
    (∀ e, (createRealmClients mn s realmName l true).1 = some e →
      e.root = .StoreUnavailable) ∧
    (∀ k, k ≠ realmClientsKey mn.nspace realmName →
      (createRealmClients mn s realmName l true).2.kv k = s.kv k) := by
  rcases hg : delKey s (realmClientsKey mn.nspace realmName) with ⟨(_ | err), s1⟩
  · -- the list was there and is deleted
    have hk := delKey_ok s _ (by rw [hg])
    rw [hg] at hk
    simp only at hk
    have hnone : s1.kv (realmClientsKey mn.nspace realmName) = none := by
      rw [hk.2]; simp
    rcases hp : RPush s1 (realmClientsKey mn.nspace realmName) (.identifiers l)
      with ⟨(_ | err2), s2⟩
    · have hp2 := (RPush_ok s1 _ _ (by rw [hp])).2
      rw [hp] at hp2
      simp only at hp2
      simp only [createRealmClients, deleteRealmClientsRedis, hg, ↓reduceIte, hp]
      refine ⟨fun _ k => ?_, fun e he => by simp at he, fun k hne => ?_⟩
      · rw [hp2 k]
        by_cases hkk : k = realmClientsKey mn.nspace realmName
        · simp [hkk, listSlots, hnone]
        · simp [hkk, hk.2 k]
      · rw [hp2 k, if_neg hne, hk.2 k, if_neg hne]
    · have hp2 := RPush_err s1 _ _ err2 (by rw [hp])
      rw [hp] at hp2
      simp only at hp2
      simp only [createRealmClients, deleteRealmClientsRedis, hg, ↓reduceIte, hp]
      refine ⟨fun h => by simp at h, fun e he => ?_, fun k hne => ?_⟩
      · simp only [Option.some.injEq] at he
        subst he
        rcases hp2.2 with h1 | h1
        · simp [h1, GoError.root]
        · exfalso
          rcases roundTrip_cases s1 with ⟨s1', hrt, hkv⟩ | ⟨s1', hrt, hkv⟩
          · simp [RPush, hrt] at hp
            rw [h1] at hp
            simp at hp
          · simp [RPush, hrt, hkv, hnone] at hp
      · rw [hp2.1, hk.2 k, if_neg hne]
  · have hk := delKey_err s _ err (by rw [hg])
    rw [hg] at hk
    simp only at hk
    rcases hk.2 with h1 | ⟨h1, habs⟩
    · subst h1
      simp only [createRealmClients, deleteRealmClientsRedis, hg, ↓reduceIte]
      refine ⟨fun h => by simp [GoError.Is] at h, fun e he => ?_, fun k _ => ?_⟩
      · simp [GoError.Is] at he
        subst he
        simp [GoError.root]
      · simp [GoError.Is, hk.1]
    · subst h1
      have hnone : s1.kv (realmClientsKey mn.nspace realmName) = none := by
        rw [hk.1]; exact habs
      rcases hp : RPush s1 (realmClientsKey mn.nspace realmName) (.identifiers l)
        with ⟨(_ | err2), s2⟩
      · have hp2 := (RPush_ok s1 _ _ (by rw [hp])).2
        rw [hp] at hp2
        simp only at hp2
        simp only [createRealmClients, deleteRealmClientsRedis, hg, ↓reduceIte, GoError.Is]
        simp only [decide_True, Bool.not_true, Bool.false_eq_true, ↓reduceIte, hp]
        refine ⟨fun _ k => ?_, fun e he => by simp at he, fun k hne => ?_⟩
        · rw [hp2 k]
          by_cases hkk : k = realmClientsKey mn.nspace realmName
          · simp [hkk, listSlots, hnone]
          · simp [hkk, hk.1]
        · rw [hp2 k, if_neg hne, hk.1]
      · have hp2 := RPush_err s1 _ _ err2 (by rw [hp])
        rw [hp] at hp2
        simp only at hp2
        simp only [createRealmClients, deleteRealmClientsRedis, hg, ↓reduceIte, GoError.Is]
        simp only [decide_True, Bool.not_true, Bool.false_eq_true, ↓reduceIte, hp]
        refine ⟨fun h => by simp at h, fun e he => ?_, fun k hne => ?_⟩
        · simp only [Option.some.injEq] at he
          subst he
          rcases hp2.2 with h1 | h1
          · simp [h1, GoError.root]
          · exfalso
            rcases roundTrip_cases s1 with ⟨s1', hrt, hkv⟩ | ⟨s1', hrt, hkv⟩
            · simp [RPush, hrt] at hp
              rw [h1] at hp
              simp at hp
            · simp [RPush, hrt, hkv, hnone] at hp
        · rw [hp2.1, hk.1]

theorem createRealmClients_rewrite_nil (mn : RedisDataManager) (s : Redis) (realmName : String)
    (l : List ExtendedIdentifier) (hf : s.faults = []) :
    createRealmClients mn s realmName l true =
      (none, (match s.kv (realmClientsKey mn.nspace realmName) with
        | none => s
        | some _ => s.remove (realmClientsKey mn.nspace realmName)).put
          (realmClientsKey mn.nspace realmName) (.list [.identifiers l])) := by
  cases hk : s.kv (realmClientsKey mn.nspace realmName) with
  | none =>
    simp [createRealmClients, deleteRealmClientsRedis, delKey_nil s _ hf, hk, GoError.Is,
      RPush_nil s _ _ hf]
  | some e =>
    have hf2 : (s.remove (realmClientsKey mn.nspace realmName)).faults = [] := hf
    simp only [createRealmClients, deleteRealmClientsRedis, delKey_nil s _ hf, hk, ↓reduceIte]
    rw [RPush_nil _ _ _ hf2]
    simp [Redis.remove]

theorem getObjectsListFromRedis_err {α : Type} (decode : Doc → Option (List α)) (s : Redis)
    (key : String) (e : GoError) (h : (getObjectsListFromRedis decode s key).1 = .error e) :
    e.root = .StoreUnavailable ∨ e.root = .WrongType ∨
    (e.root = .ErrNotFound ∧ ∃ slots, s.kv key = some (.list slots) ∧
      decodeSlots decode slots = none) := by
  rcases roundTrip_cases s with ⟨s1, hrt, hkv⟩ | ⟨s1, hrt, hkv⟩
  · simp [getObjectsListFromRedis, hrt] at h
    subst h
    exact Or.inl rfl
  · simp only [getObjectsListFromRedis, hrt, hkv] at h
    cases hk : s.kv key with
    | none => simp [hk] at h
    | some e' =>
      cases e' with
      | str d =>
        simp [hk] at h
        subst h
        exact Or.inr (Or.inl rfl)
      | list slots =>
        cases hd : decodeSlots decode slots with
        | none =>
          simp [hk, hd] at h
          subst h
          exact Or.inr (Or.inr ⟨rfl, slots, rfl, hd⟩)
        | some w => simp [hk, hd] at h

theorem getRealmClients_err (mn : RedisDataManager) (s : Redis) (realmName : String)
    (e : GoError) (h : (getRealmClients mn s realmName).1 = .error e) :
    e.root = .StoreUnavailable ∨ e.root = .WrongType ∨
    (e.root = .ErrNotFound ∧ membership mn s realmName = none) ∨
    (e.root = .ErrZeroLength ∧ membership mn s realmName = some []) := by
  rcases hg : getObjectsListFromRedis decodeIdentifiers s (realmClientsKey mn.nspace realmName)
    with ⟨(err | v), s1⟩
  · simp only [getRealmClients, hg, Except.error.injEq] at h
    subst h
    rcases getObjectsListFromRedis_err decodeIdentifiers s _ err (by rw [hg]) with
      h1 | h1 | ⟨h1, slots, hk, hdec⟩
    · exact Or.inl h1
    · exact Or.inr (Or.inl h1)
    · exact Or.inr (Or.inr (Or.inl ⟨h1, by simp [membership, hk, hdec]⟩))
  · simp only [getRealmClients, hg] at h
    by_cases hlen : v.length = 0
    · simp only [hlen, if_true, Except.error.injEq] at h
      subst h
      refine Or.inr (Or.inr (Or.inr ⟨rfl, ?_⟩))
      have hv : v = [] := List.length_eq_zero.mp hlen
      subst hv
      rcases getObjectsListFromRedis_ok decodeIdentifiers s _ [] (by rw [hg]) with
        ⟨hk, _⟩ | ⟨slots, hk, hdec⟩
      · simp [membership, hk]
      · simp [membership, hk, hdec]
    · simp [hlen] at h

theorem removeByName_nil (clientName : String) : removeByName [] clientName = none := rfl

/-- What `deleteClientFromRealm` leaves.  On success the list key holds one
slot with the entries left by the swap-removal; an error that wraps NotFound or
ZeroLength leaves the store as it was; no other key ever changes. -/
theorem deleteClientFromRealm_spec (mn : RedisDataManager) (s : Redis)
    (realmName clientName : String) :
    ((deleteClientFromRealm mn s realmName clientName).1 = none →
      ∃ l rest, membership mn s realmName = some l ∧ l ≠ [] ∧
        removeByName l clientName = some rest ∧
        ∀ k, (deleteClientFromRealm mn s realmName clientName).2.kv k =
          if k = realmClientsKey mn.nspace realmName then some (.list [.identifiers rest])
          else s.kv k) ∧
    (∀ e, (deleteClientFromRealm mn s realmName clientName).1 = some e →
      (e.root = .ErrNotFound ∨ e.root = .ErrZeroLength) →
      (deleteClientFromRealm mn s realmName clientName).2.kv = s.kv ∧
      ∀ l, membership mn s realmName = some l → removeByName l clientName = none) ∧
    (∀ k, k ≠ realmClientsKey mn.nspace realmName →
      (deleteClientFromRealm mn s realmName clientName).2.kv k = s.kv k) := by
  have hkv := getRealmClients_kv mn s realmName
  rcases hg : getRealmClients mn s realmName with ⟨(err | l), s1⟩
  · rw [hg] at hkv
    simp only at hkv
    have herr := getRealmClients_err mn s realmName err (by rw [hg])
    simp only [deleteClientFromRealm, hg]
    refine ⟨fun h => by simp at h, fun e he hroot => ⟨hkv, ?_⟩, fun k _ => by rw [hkv]⟩
    simp only [Option.some.injEq] at he
    subst he
    simp only [GoError.root] at hroot
    intro l hl
    rcases herr with h1 | h1 | ⟨_, h1⟩ | ⟨_, h1⟩
    · rw [h1] at hroot; simp at hroot
    · rw [h1] at hroot; simp at hroot
    · rw [h1] at hl; simp at hl
    · rw [h1] at hl
      simp only [Option.some.injEq] at hl
      subst hl
      rfl
  · rw [hg] at hkv
    simp only at hkv
    obtain ⟨hmem, hne⟩ := getRealmClients_ok mn s realmName l (by rw [hg])
    cases hrm : removeByName l clientName with
    | none =>
      simp only [deleteClientFromRealm, hg, hrm]
      refine ⟨fun h => by simp at h, fun e _ _ => ⟨hkv, fun l' hl' => ?_⟩,
        fun k _ => by rw [hkv]⟩
      rw [hmem] at hl'
      simp only [Option.some.injEq] at hl'
      subst hl'
      exact hrm
    | some rest =>
      obtain ⟨hok, herr, hframe⟩ := createRealmClients_rewrite mn s1 realmName rest
      rcases hc : createRealmClients mn s1 realmName rest true with ⟨(_ | err), s2⟩
      · rw [hc] at hok hframe
        simp only [deleteClientFromRealm, hg, hrm, hc]
        refine ⟨fun _ => ⟨l, rest, hmem, hne, hrm, fun k => ?_⟩, fun e he => by simp at he,
          fun k hk => ?_⟩
        · rw [hok rfl k, hkv]
        · rw [hframe k hk, hkv]
      · rw [hc] at herr hframe
        simp only [deleteClientFromRealm, hg, hrm, hc]
        refine ⟨fun h => by simp at h, fun e he hroot => ?_, fun k hk => ?_⟩
        · simp only [Option.some.injEq] at he
          subst he
          simp only [GoError.root] at hroot
          rw [herr err rfl] at hroot
          simp at hroot
        · rw [hframe k hk, hkv]

/-! ## DeleteClient, CreateClient, UpdateClient -/

theorem DeleteClient_frame (mn : RedisDataManager) (s : Redis) (realmName clientName : String)
    (k : String) (hk1 : k ≠ clientKey mn.nspace realmName clientName)
    (hk2 : k ≠ realmClientsKey mn.nspace realmName) :
    (DeleteClient mn s realmName clientName).2.kv k = s.kv k := by
  rcases hd : deleteClientRedis mn s realmName clientName with ⟨(_ | err), s1⟩
  · have h1 := (deleteClientRedis_ok mn s realmName clientName (by rw [hd])).2 k
    rw [hd, if_neg hk1] at h1
    simp only at h1
    have h2 := (deleteClientFromRealm_spec mn s1 realmName clientName).2.2 k hk2
    rcases hf : deleteClientFromRealm mn s1 realmName clientName with ⟨(_ | err), s2⟩
    · rw [hf] at h2
      simp only [DeleteClient, hd, hf]
      rw [h2, h1]
    · rw [hf] at h2
      simp only [DeleteClient, hd, hf]
      split <;> (simp only; rw [h2, h1])
  · have h1 := deleteClientRedis_err mn s realmName clientName err (by rw [hd])
    rw [hd] at h1
    simp only [DeleteClient, hd]
    rw [h1]

/-- A successful `DeleteClient`: the client key was bound and is now free, and
the membership list is either untouched (it had no entry of that name to
remove) or rewritten as one slot holding the swap-removal of the old list. -/
theorem DeleteClient_ok (mn : RedisDataManager) (s : Redis) (realmName clientName : String)
    (h : (DeleteClient mn s realmName clientName).1 = none) :
    s.kv (clientKey mn.nspace realmName clientName) ≠ none ∧
    (DeleteClient mn s realmName clientName).2.kv (clientKey mn.nspace realmName clientName)
      = none ∧
    (((DeleteClient mn s realmName clientName).2.kv (realmClientsKey mn.nspace realmName)
        = s.kv (realmClientsKey mn.nspace realmName) ∧
      ∀ l, membership mn s realmName = some l → removeByName l clientName = none) ∨
     (∃ l rest, membership mn s realmName = some l ∧ l ≠ [] ∧
        removeByName l clientName = some rest ∧
        (DeleteClient mn s realmName clientName).2.kv (realmClientsKey mn.nspace realmName)
          = some (.list [.identifiers rest]))) := by
  have hne := clientKey_ne_realmClientsKey mn.nspace realmName clientName mn.nspace realmName
  rcases hd : deleteClientRedis mn s realmName clientName with ⟨(_ | err), s1⟩
  · obtain ⟨hbound, h1⟩ := deleteClientRedis_ok mn s realmName clientName (by rw [hd])
    rw [hd] at h1
    simp only at h1
    have hlist : s1.kv (realmClientsKey mn.nspace realmName)
        = s.kv (realmClientsKey mn.nspace realmName) := by
      rw [h1, if_neg (Ne.symm hne)]
    have hmem := membership_congr mn s s1 realmName hlist
    obtain ⟨hok, htol, hframe⟩ := deleteClientFromRealm_spec mn s1 realmName clientName
    rcases hf : deleteClientFromRealm mn s1 realmName clientName with ⟨(_ | err), s2⟩
    · rw [hf] at hok hframe
      simp only at hok hframe
      obtain ⟨l, rest, hl, hlne, hrm, hkv⟩ := hok trivial
      simp only [DeleteClient, hd, hf]
      refine ⟨hbound, ?_, Or.inr ⟨l, rest, ?_, hlne, hrm, ?_⟩⟩
      · rw [hframe _ hne, h1]; simp
      · rw [← hmem]; exact hl
      · rw [hkv]; simp
    · rw [hf] at htol hframe
      simp only at htol hframe
      simp only [DeleteClient, hd, hf] at h ⊢
      by_cases htest : (err.Is .ErrNotFound || err.Is .ErrZeroLength) = true
      · simp only [htest, if_true]
        have hroot : err.root = .ErrNotFound ∨ err.root = .ErrZeroLength := by
          simpa [GoError.Is_eq_root] using htest
        obtain ⟨hkv, hnone⟩ := htol err rfl hroot
        refine ⟨hbound, ?_, Or.inl ⟨?_, fun l hl => hnone l (by rw [hmem]; exact hl)⟩⟩
        · rw [hkv, h1]; simp
        · rw [hkv, hlist]
      · simp [htest] at h
  · simp [DeleteClient, hd] at h

theorem CreateClient_frame (mn : RedisDataManager) (s : Redis) (realmName : String)
    (clientNew : Client) (k : String)
    (hk1 : k ≠ clientKey mn.nspace realmName clientNew.Name)
    (hk2 : k ≠ realmClientsKey mn.nspace realmName) :
    (CreateClient mn s realmName clientNew).2.kv k = s.kv k := by
  have hg1 := GetClient_kv mn s realmName clientNew.Name
  rcases hg : GetClient mn s realmName clientNew.Name with ⟨(err | v), s1⟩
  · rw [hg] at hg1
    simp only at hg1
    simp only [CreateClient, hg]
    split
    · simp only [hg1]
    · have hr1 := GetRealm_kv mn s1 realmName
      rcases hr : GetRealm mn s1 realmName with ⟨(err2 | realm), s2⟩
      · rw [hr] at hr1
        simp only at hr1
        simp only [hr1, hg1]
      · rw [hr] at hr1
        simp only at hr1
        simp only
        rcases hc : createClientRedis mn s2 realmName clientNew.Name (.client clientNew)
          with ⟨(_ | err3), s3⟩
        · have hc1 := createClientRedis_ok mn s2 realmName clientNew.Name _ (by rw [hc]) k
          rw [hc, if_neg hk1] at hc1
          simp only at hc1
          have ha := addClientToRealm_frame mn s3 realmName clientNew k hk2
          simp only
          rcases haa : addClientToRealm mn s3 realmName clientNew with ⟨(_ | err4), s4⟩ <;>
            (rw [haa] at ha; simp only at ha ⊢; rw [ha, hc1, hr1, hg1])
        · have hc1 := createClientRedis_err mn s2 realmName clientNew.Name _ err3 (by rw [hc])
          rw [hc] at hc1
          simp only at hc1 ⊢
          rw [hc1, hr1, hg1]
  · rw [hg] at hg1
    simp only at hg1
    simp only [CreateClient, hg, hg1]

/-- A successful `CreateClient`: the realm record was there, no client record
was stored under the name, the list key did not hold a plain string, and the
store afterwards differs in two keys: the client key holds the new record and
the list has one more slot, holding the one membership entry. -/
theorem CreateClient_ok (mn : RedisDataManager) (s : Redis) (realmName : String)
    (clientNew : Client) (h : (CreateClient mn s realmName clientNew).1 = none) :
    (∃ realm, s.kv (realmKey mn.nspace realmName) = some (.str (.realm realm))) ∧
    storedClient mn s realmName clientNew.Name = none ∧
    (∀ d, s.kv (realmClientsKey mn.nspace realmName) ≠ some (.str d)) ∧
    ∀ k, (CreateClient mn s realmName clientNew).2.kv k =
      if k = realmClientsKey mn.nspace realmName then
        some (.list (listSlots s (realmClientsKey mn.nspace realmName)
          ++ [.identifiers [{ ID := clientNew.ID, Name := clientNew.Name }]]))
      else if k = clientKey mn.nspace realmName clientNew.Name then
        some (.str (.client clientNew))
      else s.kv k := by
  have hne := clientKey_ne_realmClientsKey mn.nspace realmName clientNew.Name mn.nspace realmName
  have hg1 := GetClient_kv mn s realmName clientNew.Name
  rcases hg : GetClient mn s realmName clientNew.Name with ⟨(err | v), s1⟩
  · rw [hg] at hg1
    simp only at hg1
    simp only [CreateClient, hg] at h ⊢
    by_cases hnf : err.Is .ErrNotFound = true
    · simp only [hnf, Bool.not_true, Bool.false_eq_true, if_false] at h ⊢
      have hstored : storedClient mn s realmName clientNew.Name = none := by
        rcases hgo : getObjectFromRedis decodeClient s
          (clientKey mn.nspace realmName clientNew.Name) with ⟨(e0 | v0), s0⟩
        · simp only [GetClient, hgo, Prod.mk.injEq, Except.error.injEq] at hg
          have he0 : e0.Is .ErrNotFound = true := by
            rw [← hg.1] at hnf
            simpa [GoError.Is] using hnf
          rcases getObjectFromRedis_notFound decodeClient s _ e0 (by rw [hgo]) he0 with
            habs | ⟨d, hd, hdec⟩
          · simp [storedClient, habs]
          · cases d <;> simp [decodeClient] at hdec <;> simp [storedClient, hd]
        · simp [GetClient, hgo] at hg
      have hr1 := GetRealm_kv mn s1 realmName
      rcases hr : GetRealm mn s1 realmName with ⟨(err2 | realm), s2⟩
      · simp [hr] at h
      · have hrealm := GetRealm_ok mn s1 realmName realm (by rw [hr])
        rw [hg1] at hrealm
        rw [hr] at hr1
        simp only at hr1
        simp only [hr] at h ⊢
        rcases hc : createClientRedis mn s2 realmName clientNew.Name (.client clientNew)
          with ⟨(_ | err3), s3⟩
        · have hc1 := createClientRedis_ok mn s2 realmName clientNew.Name _ (by rw [hc])
          rw [hc] at hc1
          simp only at hc1
          simp only [hc] at h ⊢
          rcases haa : addClientToRealm mn s3 realmName clientNew with ⟨(_ | err4), s4⟩
          · obtain ⟨hns, ha⟩ := addClientToRealm_ok mn s3 realmName clientNew (by rw [haa])
            rw [haa] at ha
            simp only at ha ⊢
            have hl3 : s3.kv (realmClientsKey mn.nspace realmName)
                = s.kv (realmClientsKey mn.nspace realmName) := by
              rw [hc1, if_neg (Ne.symm hne), hr1, hg1]
            refine ⟨⟨realm, hrealm⟩, hstored, fun d hd => hns d (by rw [hl3]; exact hd),
              fun k => ?_⟩
            rw [ha k]
            by_cases hk : k = realmClientsKey mn.nspace realmName
            · simp only [hk, if_true, listSlots, hl3]
            · simp only [hk, if_false, hc1 k, hr1, hg1]
          · simp [haa] at h
        · simp [hc] at h
    · simp [hnf] at h
  · simp [CreateClient, hg] at h

/-- A successful `UpdateClient`: it found a record `old` under the name it was
given; when `clientNew` has the id and name of `old` the only write is the
record under `clientNew.Name`; otherwise `DeleteClient` of `old.Name` and
`addClientToRealm` of `clientNew` both succeeded before that write. -/
theorem UpdateClient_ok (mn : RedisDataManager) (s : Redis) (realmName clientName : String)
    (clientNew : Client) (h : (UpdateClient mn s realmName clientName clientNew).1 = none) :
    ∃ old, s.kv (clientKey mn.nspace realmName clientName) = some (.str (.client old)) ∧
      ((clientNew.ID = old.ID ∧ clientNew.Name = old.Name ∧
        ∀ k, (UpdateClient mn s realmName clientName clientNew).2.kv k =
          if k = clientKey mn.nspace realmName clientNew.Name then
            some (.str (.client clientNew))
          else s.kv k) ∨
       ((clientNew.ID ≠ old.ID ∨ clientNew.Name ≠ old.Name) ∧
        ∃ s1, s1.kv = s.kv ∧ (DeleteClient mn s1 realmName old.Name).1 = none ∧
          (addClientToRealm mn (DeleteClient mn s1 realmName old.Name).2 realmName
            clientNew).1 = none ∧
          ∀ k, (UpdateClient mn s realmName clientName clientNew).2.kv k =
            if k = clientKey mn.nspace realmName clientNew.Name then
              some (.str (.client clientNew))
            else (addClientToRealm mn (DeleteClient mn s1 realmName old.Name).2 realmName
              clientNew).2.kv k)) := by
  have hg1 := GetClient_kv mn s realmName clientName
  rcases hg : GetClient mn s realmName clientName with ⟨(err | old), s1⟩
  · simp [UpdateClient, hg] at h
  · have hold := GetClient_ok mn s realmName clientName old (by rw [hg])
    rw [hg] at hg1
    simp only at hg1
    refine ⟨old, hold, ?_⟩
    simp only [UpdateClient, hg] at h ⊢
    by_cases hsame : clientNew.ID ≠ old.ID ∨ clientNew.Name ≠ old.Name
    · simp only [hsame, if_true] at h ⊢
      refine Or.inr ⟨trivial, s1, hg1, ?_⟩
      rcases hd : DeleteClient mn s1 realmName old.Name with ⟨(_ | e1), s2⟩
      · simp only [hd] at h ⊢
        rcases ha : addClientToRealm mn s2 realmName clientNew with ⟨(_ | e2), s3⟩
        · simp only [ha] at h ⊢
          rcases hc : createClientRedis mn s3 realmName clientNew.Name (.client clientNew)
            with ⟨(_ | e3), s4⟩
          · have hc1 := createClientRedis_ok mn s3 realmName clientNew.Name _ (by rw [hc])
            rw [hc] at hc1
            simp only at hc1 ⊢
            exact ⟨trivial, trivial, hc1⟩
          · simp [hc] at h
        · simp [ha] at h
      · simp [hd] at h
    · simp only [hsame, if_false] at h ⊢
      have hsame2 : clientNew.ID = old.ID ∧ clientNew.Name = old.Name := by
        constructor
        · by_contra hx; exact hsame (Or.inl hx)
        · by_contra hx; exact hsame (Or.inr hx)
      refine Or.inl ⟨hsame2.1, hsame2.2, ?_⟩
      rcases hc : createClientRedis mn s1 realmName clientNew.Name (.client clientNew)
        with ⟨(_ | e3), s4⟩
      · have hc1 := createClientRedis_ok mn s1 realmName clientNew.Name _ (by rw [hc])
        rw [hc] at hc1
        simp only at hc1 ⊢
        intro k
        rw [hc1 k, hg1]
      · simp [hc] at h

theorem holdsString_false (s : Redis) (key : String) (h : s.holdsString key = false) :
    ∀ d, s.kv key ≠ some (.str d) := by
  intro d hd
  simp [Redis.holdsString, hd] at h

theorem holdsList_false (s : Redis) (key : String) (h : s.holdsList key = false) :
    ∀ slots, s.kv key ≠ some (.list slots) := by
  intro slots hd
  simp [Redis.holdsList, hd] at h

/-! ## The claims -/

theorem roundTrip_of_head (s : Redis) (h : s.faults.head? ≠ some true) :
    s.roundTrip = (false, { s with faults := s.faults.tail }) := by
  obtain ⟨kv, faults⟩ := s
  cases faults with
  | nil => rfl
  | cons f rest =>
    cases f with
    | true => simp at h
    | false => rfl

/-- C1: when a client record is already stored under `(realmName, clientNew.Name)`
and the lookup is not hit by a transport failure, `CreateClient` returns the
error `ErrExists` itself and leaves every key of the store as it was: no key is
written and the realm's membership list is unchanged. -/
theorem CreateClient_existing (mn : RedisDataManager) (s : Redis) (realmName : String)
    (clientNew stored : Client)
    (hstored : s.kv (clientKey mn.nspace realmName clientNew.Name)
      = some (.str (.client stored)))
    (hfault : s.faults.head? ≠ some true) :
    (CreateClient mn s realmName clientNew).1 = some (.sentinel .ErrExists) ∧
    (CreateClient mn s realmName clientNew).2.kv = s.kv ∧
    membership mn (CreateClient mn s realmName clientNew).2 realmName
      = membership mn s realmName := by
  have h1 : (CreateClient mn s realmName clientNew).1 = some (.sentinel .ErrExists) ∧
      (CreateClient mn s realmName clientNew).2.kv = s.kv := by
    simp [CreateClient, GetClient, getObjectFromRedis, roundTrip_of_head s hfault, hstored,
      decodeClient]
  exact ⟨h1.1, h1.2, membership_congr mn s _ realmName (by rw [h1.2])⟩

theorem CreateClient_existing_witness :
    (CreateClient sampleManager acmeTwoClients "acme" app2).1 = some (.sentinel .ErrExists) ∧
    (CreateClient sampleManager acmeTwoClients "acme" app2).2.kv = acmeTwoClients.kv ∧
    membership sampleManager (CreateClient sampleManager acmeTwoClients "acme" app2).2 "acme"
      = membership sampleManager acmeTwoClients "acme" :=
  CreateClient_existing sampleManager acmeTwoClients "acme" app2 app2 (by decide) (by decide)

/-- C3: when the realm record is stored, no client record is stored under
`(realmName, clientNew.Name)` and there is no store failure (no transport
failure pending, and the list key does not hold a plain string, which would make
the store refuse the append), `CreateClient` returns no error; afterwards
`GetClient` returns the client passed in, the list key holds its previous
slots followed by one new slot with the one entry `{clientNew.ID,
clientNew.Name}`, so the membership list is the previous one with that entry at
the tail, and no key other than the client key and the list key has changed. -/
theorem CreateClient_fresh (mn : RedisDataManager) (s : Redis) (realmName : String)
    (clientNew : Client) (realm : Realm)
    (hrealm : s.kv (realmKey mn.nspace realmName) = some (.str (.realm realm)))
    (hnone : s.kv (clientKey mn.nspace realmName clientNew.Name) = none)
    (hstring : s.holdsString (realmClientsKey mn.nspace realmName) = false)
    (hfault : s.faults = []) :
    (CreateClient mn s realmName clientNew).1 = none ∧
    (GetClient mn (CreateClient mn s realmName clientNew).2 realmName clientNew.Name).1
      = .ok clientNew ∧
    (CreateClient mn s realmName clientNew).2.kv (realmClientsKey mn.nspace realmName)
      = some (.list (listSlots s (realmClientsKey mn.nspace realmName)
          ++ [.identifiers [{ ID := clientNew.ID, Name := clientNew.Name }]])) ∧
    (∀ l, membership mn s realmName = some l →
      membership mn (CreateClient mn s realmName clientNew).2 realmName
        = some (l ++ [{ ID := clientNew.ID, Name := clientNew.Name }])) ∧
    (∀ k, k ≠ clientKey mn.nspace realmName clientNew.Name →
      k ≠ realmClientsKey mn.nspace realmName →
      (CreateClient mn s realmName clientNew).2.kv k = s.kv k) := by
  have hlist := holdsString_false s _ hstring
  have hne := clientKey_ne_realmClientsKey mn.nspace realmName clientNew.Name mn.nspace realmName
  have hg := GetClient_of_absent mn s realmName clientNew.Name hfault hnone
  have hr := GetRealm_of_stored mn s realmName realm hfault hrealm
  have hc := createClientRedis_nil mn s realmName clientNew.Name (.client clientNew) hfault
  have hf2 : (s.put (clientKey mn.nspace realmName clientNew.Name)
      (.str (.client clientNew))).faults = [] := hfault
  have ha := addClientToRealm_nil mn _ realmName clientNew hf2
  have hl2 : (s.put (clientKey mn.nspace realmName clientNew.Name)
      (.str (.client clientNew))).kv (realmClientsKey mn.nspace realmName)
      = s.kv (realmClientsKey mn.nspace realmName) := by
    simp [Redis.put, Ne.symm hne]
  have hrun : CreateClient mn s realmName clientNew =
      (none, (s.put (clientKey mn.nspace realmName clientNew.Name)
        (.str (.client clientNew))).put (realmClientsKey mn.nspace realmName)
        (.list (listSlots s (realmClientsKey mn.nspace realmName)
          ++ [.identifiers [{ ID := clientNew.ID, Name := clientNew.Name }]]))) := by
    simp only [CreateClient, hg, GoError.Is, decide_True, Bool.not_true, Bool.false_eq_true,
      ↓reduceIte, hr, hc, ha]
    cases hk : s.kv (realmClientsKey mn.nspace realmName) with
    | none => simp [hl2, hk, listSlots]
    | some e =>
      cases e with
      | str d => exact absurd hk (hlist d)
      | list slots => simp [hl2, hk, listSlots]
  have hok : (CreateClient mn s realmName clientNew).1 = none := by rw [hrun]
  have hfaults : (CreateClient mn s realmName clientNew).2.faults = [] := by
    rw [hrun]; exact hfault
  obtain ⟨_, _, _, hkv⟩ := CreateClient_ok mn s realmName clientNew hok
  refine ⟨hok, ?_, ?_, ?_, ?_⟩
  · rw [GetClient_of_stored mn _ realmName clientNew.Name clientNew hfaults
      (by rw [hkv]; simp [hne])]
  · rw [hkv]; simp
  · intro l hl
    unfold membership at hl ⊢
    rw [hkv]
    simp only [if_true]
    cases hk : s.kv (realmClientsKey mn.nspace realmName) with
    | none =>
      rw [hk] at hl
      simp only [Option.some.injEq] at hl
      subst hl
      simp [listSlots, hk, decodeSlots, decodeIdentifiers]
    | some e =>
      cases e with
      | str d => exact absurd hk (hlist d)
      | list slots =>
        rw [hk] at hl
        simp only at hl
        simp only [listSlots, hk]
        rw [decodeSlots_append_single decodeIdentifiers slots
          (.identifiers [{ ID := clientNew.ID, Name := clientNew.Name }])
          [{ ID := clientNew.ID, Name := clientNew.Name }] rfl, hl]
        rfl
  · intro k h1 h2
    rw [hkv]; simp [h1, h2]

theorem CreateClient_fresh_witness :
    (CreateClient sampleManager acmeStore "acme" app1).1 = none ∧
    (GetClient sampleManager (CreateClient sampleManager acmeStore "acme" app1).2 "acme"
      app1.Name).1 = .ok app1 ∧
    (CreateClient sampleManager acmeStore "acme" app1).2.kv (realmClientsKey "ferrum" "acme")
      = some (.list (listSlots acmeStore (realmClientsKey "ferrum" "acme")
          ++ [.identifiers [{ ID := app1.ID, Name := app1.Name }]])) ∧
    (∀ l, membership sampleManager acmeStore "acme" = some l →
      membership sampleManager (CreateClient sampleManager acmeStore "acme" app1).2 "acme"
        = some (l ++ [{ ID := app1.ID, Name := app1.Name }])) ∧
    (∀ k, k ≠ clientKey "ferrum" "acme" app1.Name →
      k ≠ realmClientsKey "ferrum" "acme" →
      (CreateClient sampleManager acmeStore "acme" app1).2.kv k = acmeStore.kv k) :=
  CreateClient_fresh sampleManager acmeStore "acme" app1 acme (by decide) (by decide)
    (by decide) rfl

/-- C9: when neither a client record under `(realmName, clientNew.Name)` nor
the realm record is stored (and no transport failure is pending),
`CreateClient` returns an error that wraps `ErrNotFound` and writes nothing:
every key, the client key and the membership list among them, is as before. -/
theorem CreateClient_without_realm (mn : RedisDataManager) (s : Redis) (realmName : String)
    (clientNew : Client)
    (hnone : s.kv (clientKey mn.nspace realmName clientNew.Name) = none)
    (hrealm : s.kv (realmKey mn.nspace realmName) = none)
    (hfault : s.faults = []) :
    (∃ err, (CreateClient mn s realmName clientNew).1 = some err ∧
      err.Is .ErrNotFound = true) ∧
    (CreateClient mn s realmName clientNew).2.kv = s.kv ∧
    storedClient mn (CreateClient mn s realmName clientNew).2 realmName clientNew.Name = none ∧
    membership mn (CreateClient mn s realmName clientNew).2 realmName
      = membership mn s realmName := by
  have hg := GetClient_of_absent mn s realmName clientNew.Name hfault hnone
  have hr := GetRealm_of_absent mn s realmName hfault hrealm
  have hrun : CreateClient mn s realmName clientNew =
      (some (.wrap "GetRealm failed"
        (.wrap "getObjectFromRedis failed" (.sentinel .ErrNotFound))), s) := by
    simp only [CreateClient, hg, GoError.Is, decide_True, Bool.not_true, Bool.false_eq_true,
      ↓reduceIte, hr]
  rw [hrun]
  exact ⟨⟨_, rfl, rfl⟩, rfl, by simp [storedClient, hnone], rfl⟩

theorem CreateClient_without_realm_witness :
    (∃ err, (CreateClient sampleManager emptyStore "acme" app1).1 = some err ∧
      err.Is .ErrNotFound = true) ∧
    (CreateClient sampleManager emptyStore "acme" app1).2.kv = emptyStore.kv ∧
    storedClient sampleManager (CreateClient sampleManager emptyStore "acme" app1).2 "acme"
      app1.Name = none ∧
    membership sampleManager (CreateClient sampleManager emptyStore "acme" app1).2 "acme"
      = membership sampleManager emptyStore "acme" :=
  CreateClient_without_realm sampleManager emptyStore "acme" app1 rfl rfl rfl

theorem resolveClients_all_stored (mn : RedisDataManager) (realmName : String)
    (l : List ExtendedIdentifier) (s : Redis) (hf : s.faults = [])
    (hall : ∀ e ∈ l, ∃ c, storedClient mn s realmName e.Name = some c) :
    ∃ clients, resolveClients mn realmName l s = (.ok clients, s) ∧
      clients.map some = l.map (fun e => storedClient mn s realmName e.Name) := by
  induction l with
  | nil => exact ⟨[], rfl, rfl⟩
  | cons x xs ih =>
    obtain ⟨c, hc⟩ := hall x (List.mem_cons_self x xs)
    obtain ⟨cs, hcs, hmap⟩ := ih (fun e he => hall e (List.mem_cons_of_mem x he))
    have hkv : s.kv (clientKey mn.nspace realmName x.Name) = some (.str (.client c)) := by
      unfold storedClient at hc
      split at hc
      · rename_i c' hk
        simp only [Option.some.injEq] at hc
        rw [hk, hc]
      · simp at hc
    refine ⟨c :: cs, ?_, ?_⟩
    · simp only [resolveClients, GetClient_of_stored mn s realmName x.Name c hf hkv, hcs]
    · simp [hmap, hc]

theorem resolveClients_missing (mn : RedisDataManager) (realmName : String)
    (l : List ExtendedIdentifier) (s : Redis) (hf : s.faults = [])
    (hmiss : ∃ e ∈ l, storedClient mn s realmName e.Name = none)
    (hnolist : ∀ e ∈ l, ∀ slots,
      s.kv (clientKey mn.nspace realmName e.Name) ≠ some (.list slots)) :
    ∃ err, resolveClients mn realmName l s = (.error err, s) ∧ err.Is .ErrNotFound = true := by
  induction l with
  | nil =>
    obtain ⟨e, he, _⟩ := hmiss
    simp at he
  | cons x xs ih =>
    have hnl := hnolist x (List.mem_cons_self x xs)
    cases hk : s.kv (clientKey mn.nspace realmName x.Name) with
    | none =>
      exact ⟨.wrap "GetClient failed"
        (.wrap "getObjectFromRedis failed" (.sentinel .ErrNotFound)),
        by simp only [resolveClients, GetClient_of_absent mn s realmName x.Name hf hk], rfl⟩
    | some entry =>
      cases entry with
      | list slots => exact absurd hk (hnl slots)
      | str d =>
        cases d with
        | client c =>
          have hxs : ∃ e ∈ xs, storedClient mn s realmName e.Name = none := by
            obtain ⟨e, he, hnone⟩ := hmiss
            rcases List.mem_cons.mp he with rfl | he'
            · simp [storedClient, hk] at hnone
            · exact ⟨e, he', hnone⟩
          obtain ⟨err, herr, his⟩ := ih hxs (fun e he => hnolist e (List.mem_cons_of_mem x he))
          exact ⟨err, by simp only [resolveClients,
            GetClient_of_stored mn s realmName x.Name c hf hk, herr], his⟩
        | realm r =>
          exact ⟨.wrap "GetClient failed" (.wrap "getObjectFromRedis failed"
            (.wrap "json.Unmarshal failed" (.sentinel .ErrNotFound))),
            by simp only [resolveClients, GetClient, getObjectFromRedis_nil _ s _ hf, hk,
              decodeClient], rfl⟩
        | identifiers ids =>
          exact ⟨.wrap "GetClient failed" (.wrap "getObjectFromRedis failed"
            (.wrap "json.Unmarshal failed" (.sentinel .ErrNotFound))),
            by simp only [resolveClients, GetClient, getObjectFromRedis_nil _ s _ hf, hk,
              decodeClient], rfl⟩
        | user u =>
          exact ⟨.wrap "GetClient failed" (.wrap "getObjectFromRedis failed"
            (.wrap "json.Unmarshal failed" (.sentinel .ErrNotFound))),
            by simp only [resolveClients, GetClient, getObjectFromRedis_nil _ s _ hf, hk,
              decodeClient], rfl⟩
        | raw t =>
          exact ⟨.wrap "GetClient failed" (.wrap "getObjectFromRedis failed"
            (.wrap "json.Unmarshal failed" (.sentinel .ErrNotFound))),
            by simp only [resolveClients, GetClient, getObjectFromRedis_nil _ s _ hf, hk,
              decodeClient], rfl⟩

/-- C7: let the realm's membership list `l` be non-empty and no store failure
occur (no transport failure pending, no client key of an entry holding a list
value).  When every entry's name has a stored client record,
`GetClientsFromRealm` returns without error a list as long as `l` whose `i`-th
element is the record stored under the `i`-th entry's name.  When some entry
has no stored client record, it returns no clients but an error that wraps
`ErrNotFound`. -/
theorem GetClientsFromRealm_resolves (mn : RedisDataManager) (s : Redis) (realmName : String)
    (l : List ExtendedIdentifier)
    (hmem : membership mn s realmName = some l) (hne : l ≠ [])
    (hfault : s.faults = []) :
    ((∀ e ∈ l, (storedClient mn s realmName e.Name).isSome = true) →
      ∃ clients, (GetClientsFromRealm mn s realmName).1 = .ok clients ∧
        clients.length = l.length ∧
        ∀ i (hi : i < l.length),
          clients[i]? = storedClient mn s realmName (l.get ⟨i, hi⟩).Name) ∧
    ((∃ e ∈ l, storedClient mn s realmName e.Name = none) →
      (∀ e ∈ l, s.holdsList (clientKey mn.nspace realmName e.Name) = false) →
      ∃ err, (GetClientsFromRealm mn s realmName).1 = .error err ∧
        err.Is .ErrNotFound = true) := by
  have hlen : ¬ l.length = 0 := fun h => hne (List.length_eq_zero.mp h)
  have hg : getRealmClients mn s realmName = (.ok l, s) := by
    rw [getRealmClients_of_membership mn s realmName l hfault hmem, if_neg hlen]
  constructor
  · intro hall
    obtain ⟨clients, hres, hmap⟩ := resolveClients_all_stored mn realmName l s hfault
      (fun e he => Option.isSome_iff_exists.mp (hall e he))
    have hlen2 : clients.length = l.length := by
      have := congrArg List.length hmap
      simpa using this
    refine ⟨clients, by simp only [GetClientsFromRealm, hg, hres], hlen2, fun i hi => ?_⟩
    have hi2 : i < clients.length := by omega
    have := congrArg (fun xs => xs[i]?) hmap
    simp only [List.getElem?_map] at this
    rw [List.getElem?_eq_getElem hi, List.getElem?_eq_getElem hi2] at this
    simp only [Option.map_some', Option.some.injEq] at this
    rw [List.getElem?_eq_getElem hi2, List.get_eq_getElem, this]
  · intro hmiss hnolist
    obtain ⟨err, hres, his⟩ := resolveClients_missing mn realmName l s hfault hmiss
      (fun e he => holdsList_false s _ (hnolist e he))
    exact ⟨err, by simp only [GetClientsFromRealm, hg, hres], his⟩

theorem GetClientsFromRealm_resolves_witness :
    (∃ clients, (GetClientsFromRealm sampleManager acmeTwoClients "acme").1 = .ok clients ∧
      clients.length = [(⟨1, "app1"⟩ : ExtendedIdentifier), ⟨2, "app2"⟩].length ∧
      ∀ i (hi : i < [(⟨1, "app1"⟩ : ExtendedIdentifier), ⟨2, "app2"⟩].length),
        clients[i]? = storedClient sampleManager acmeTwoClients "acme"
          ([(⟨1, "app1"⟩ : ExtendedIdentifier), ⟨2, "app2"⟩].get ⟨i, hi⟩).Name) ∧
    (∃ err, (GetClientsFromRealm sampleManager acmeOrphan "acme").1 = .error err ∧
      err.Is .ErrNotFound = true) :=
  ⟨(GetClientsFromRealm_resolves sampleManager acmeTwoClients "acme"
      [⟨1, "app1"⟩, ⟨2, "app2"⟩] (by decide) (by decide) rfl).1 (by decide),
   (GetClientsFromRealm_resolves sampleManager acmeOrphan "acme"
      [⟨7, "app1"⟩] (by decide) (by decide) rfl).2 (by decide) (by decide)⟩

/-- C6, as stated, fails: in a store that holds nothing the realm's client list
is absent, yet `DeleteClient` returns an error, because deleting the client
record comes first and that record is not there. -/
theorem DeleteClient_absent_record_fails :
    emptyStore.kv (realmClientsKey "ferrum" "acme") = none ∧
    membership sampleManager emptyStore "acme" = some [] ∧
    (DeleteClient sampleManager emptyStore "acme" "app1").1 ≠ none := by
  decide

/-- C6, amended: let the realm's membership list be empty or absent and no
transport failure be pending.  When a value is stored under the client key of
`(realmName, clientName)`, `DeleteClient` returns no error; when nothing is
stored under that key, it returns the error of the record deletion,
`ErrNotExists` wrapped by `delKey` and `deleteClientRedis`, and leaves the
store as it was. -/
theorem DeleteClient_empty_list (mn : RedisDataManager) (s : Redis)
    (realmName clientName : String)
    (hmem : membership mn s realmName = some [])
    (hfault : s.faults = []) :
    ((s.kv (clientKey mn.nspace realmName clientName)).isSome = true →
      (DeleteClient mn s realmName clientName).1 = none) ∧
    (s.kv (clientKey mn.nspace realmName clientName) = none →
      DeleteClient mn s realmName clientName
        = (some (.wrap "deleteClientRedis failed"
            (.wrap "delKey failed" (.sentinel .ErrNotExists))), s)) := by
  have hne := clientKey_ne_realmClientsKey mn.nspace realmName clientName mn.nspace realmName
  constructor
  · intro hbound
    obtain ⟨e, he⟩ := Option.isSome_iff_exists.mp hbound
    have hd : deleteClientRedis mn s realmName clientName
        = (none, s.remove (clientKey mn.nspace realmName clientName)) := by
      rw [deleteClientRedis_nil mn s realmName clientName hfault, he]
    have hf2 : (s.remove (clientKey mn.nspace realmName clientName)).faults = [] := hfault
    have hmem2 : membership mn (s.remove (clientKey mn.nspace realmName clientName)) realmName
        = some [] := by
      rw [membership_congr mn s _ realmName (by simp [Redis.remove, Ne.symm hne])]
      exact hmem
    have hg := getRealmClients_of_membership mn _ realmName [] hf2 hmem2
    simp [DeleteClient, hd, deleteClientFromRealm, hg, GoError.Is]
  · intro habsent
    have hd : deleteClientRedis mn s realmName clientName
        = (some (.wrap "delKey failed" (.sentinel .ErrNotExists)), s) := by
      rw [deleteClientRedis_nil mn s realmName clientName hfault, habsent]
    simp only [DeleteClient, hd]

theorem DeleteClient_empty_list_witness :
    ((loneClientStore.kv (clientKey sampleManager.nspace "acme" "app1")).isSome = true →
      (DeleteClient sampleManager loneClientStore "acme" "app1").1 = none) ∧
    (loneClientStore.kv (clientKey sampleManager.nspace "acme" "app1") = none →
      DeleteClient sampleManager loneClientStore "acme" "app1"
        = (some (.wrap "deleteClientRedis failed"
            (.wrap "delKey failed" (.sentinel .ErrNotExists))), loneClientStore)) :=
  DeleteClient_empty_list sampleManager loneClientStore "acme" "app1" (by decide) rfl

theorem findIdx?_append_last (l : List ExtendedIdentifier) (e : ExtendedIdentifier)
    (clientName : String) (hfree : ∀ x ∈ l, x.Name ≠ clientName) (he : e.Name = clientName) :
    (l ++ [e]).findIdx? (fun rc => rc.Name == clientName) = some l.length := by
  induction l with
  | nil => simp [List.findIdx?_cons, he]
  | cons x xs ih =>
    have hx : x.Name ≠ clientName := hfree x (List.mem_cons_self x xs)
    have := ih (fun y hy => hfree y (List.mem_cons_of_mem x hy))
    simp [List.findIdx?_cons, hx, this]

theorem removeByName_append_last (l : List ExtendedIdentifier) (e : ExtendedIdentifier)
    (clientName : String) (hfree : ∀ x ∈ l, x.Name ≠ clientName) (he : e.Name = clientName) :
    removeByName (l ++ [e]) clientName = some l := by
  simp [removeByName, findIdx?_append_last l e clientName hfree he, swapRemove]

/-- C5, as stated, fails: in `acmeOrphan` the list already holds an entry named
`app1` without a record.  Creating a client of that name and deleting it again
both succeed, but the swap-removal takes out the first entry of that name, the
old one, and the entry of the created client stays in the membership list. -/
theorem create_delete_leaves_entry :
    (CreateClient sampleManager acmeOrphan "acme" app1Again).1 = none ∧
    (DeleteClient sampleManager
      (CreateClient sampleManager acmeOrphan "acme" app1Again).2 "acme" "app1").1 = none ∧
    membership sampleManager (DeleteClient sampleManager
      (CreateClient sampleManager acmeOrphan "acme" app1Again).2 "acme" "app1").2 "acme"
      = some [{ ID := app1Again.ID, Name := app1Again.Name }] := by
  decide

/-- C5, amended: when the realm's membership list held no entry named `c.Name`
before, then after a successful `CreateClient` of `c` followed by a successful
`DeleteClient` of `c.Name`, a `GetClient` of `c.Name` that is not hit by a
transport failure fails with an error that wraps `ErrNotFound`, and the realm's
membership list is the list from before, with no entry named `c.Name`. -/
theorem create_then_delete (mn : RedisDataManager) (s : Redis) (realmName : String)
    (c : Client) (l : List ExtendedIdentifier)
    (hmem : membership mn s realmName = some l)
    (hfree : ∀ e ∈ l, e.Name ≠ c.Name)
    (hcreate : (CreateClient mn s realmName c).1 = none)
    (hdelete : (DeleteClient mn (CreateClient mn s realmName c).2 realmName c.Name).1 = none) :
    (∃ err, (GetClient mn (DeleteClient mn (CreateClient mn s realmName c).2 realmName
        c.Name).2.healthy realmName c.Name).1 = .error err ∧ err.Is .ErrNotFound = true) ∧
    membership mn (DeleteClient mn (CreateClient mn s realmName c).2 realmName c.Name).2
      realmName = some l ∧
    ∀ e ∈ l, e.Name ≠ c.Name := by
  obtain ⟨_, _, hns, hkv1⟩ := CreateClient_ok mn s realmName c hcreate
  -- the membership list after the create
  have hmem1 : membership mn (CreateClient mn s realmName c).2 realmName
      = some (l ++ [{ ID := c.ID, Name := c.Name }]) := by
    unfold membership at hmem ⊢
    rw [hkv1]
    simp only [if_true]
    cases hk : s.kv (realmClientsKey mn.nspace realmName) with
    | none =>
      rw [hk] at hmem
      simp only [Option.some.injEq] at hmem
      subst hmem
      simp [listSlots, hk, decodeSlots, decodeIdentifiers]
    | some e =>
      cases e with
      | str d => exact absurd hk (hns d)
      | list slots =>
        rw [hk] at hmem
        simp only at hmem
        simp only [listSlots, hk]
        rw [decodeSlots_append_single decodeIdentifiers slots
          (.identifiers [{ ID := c.ID, Name := c.Name }])
          [{ ID := c.ID, Name := c.Name }] rfl, hmem]
        rfl
  have hrm := removeByName_append_last l { ID := c.ID, Name := c.Name } c.Name hfree rfl
  obtain ⟨_, hgone, hlist⟩ := DeleteClient_ok mn _ realmName c.Name hdelete
  refine ⟨?_, ?_, hfree⟩
  · refine ⟨.wrap "getObjectFromRedis failed" (.sentinel .ErrNotFound), ?_, rfl⟩
    rw [GetClient_of_absent mn (DeleteClient mn (CreateClient mn s realmName c).2 realmName
      c.Name).2.healthy realmName c.Name rfl hgone]
  · rcases hlist with ⟨_, hnone⟩ | ⟨l', rest, hl', _, hrest, hkv2⟩
    · have := hnone _ hmem1
      rw [hrm] at this
      simp at this
    · rw [hmem1] at hl'
      simp only [Option.some.injEq] at hl'
      subst hl'
      rw [hrm] at hrest
      simp only [Option.some.injEq] at hrest
      subst hrest
      simp [membership, hkv2, decodeSlots, decodeIdentifiers]

theorem create_then_delete_witness :
    (∃ err, (GetClient sampleManager (DeleteClient sampleManager
        (CreateClient sampleManager acmeOneClient "acme" app2).2 "acme"
        app2.Name).2.healthy "acme" app2.Name).1 = .error err ∧
      err.Is .ErrNotFound = true) ∧
    membership sampleManager (DeleteClient sampleManager
      (CreateClient sampleManager acmeOneClient "acme" app2).2 "acme" app2.Name).2 "acme"
      = some [{ ID := 1, Name := "app1" }] ∧
    ∀ e ∈ [({ ID := 1, Name := "app1" } : ExtendedIdentifier)], e.Name ≠ app2.Name :=
  create_then_delete sampleManager acmeOneClient "acme" app2 [{ ID := 1, Name := "app1" }]
    (by decide) (by decide) (by decide) (by decide)

/-- C4, as stated, fails: in `misfiledStore` a client record is stored under
`(acme, app1)` and `app9Confidential.Name` differs from `app1`; the update
succeeds, comparing with the `Name` field of the stored record and so taking the
in-place path, and `GetClient` of `app1` still returns the old record. -/
theorem rename_misfiled_keeps_old :
    misfiledStore.kv (clientKey "ferrum" "acme" "app1") = some (.str (.client app9)) ∧
    app9Confidential.Name ≠ "app1" ∧
    (UpdateClient sampleManager misfiledStore "acme" "app1" app9Confidential).1 = none ∧
    (GetClient sampleManager
      (UpdateClient sampleManager misfiledStore "acme" "app1" app9Confidential).2
      "acme" "app1").1 = .ok app9 :=
  ⟨by decide, by decide, by decide, rfl⟩

/-- C4, amended: when the record stored under `(realmName, oldName)` carries
the name `oldName` and `clientNew.Name` differs from `oldName`, then after a
successful `UpdateClient`, a `GetClient` that is not hit by a transport failure
fails for `oldName` with an error that wraps `ErrNotFound` and returns
`clientNew` for `clientNew.Name`. -/
theorem UpdateClient_rename (mn : RedisDataManager) (s : Redis)
    (realmName oldName : String) (clientNew old : Client)
    (hold : s.kv (clientKey mn.nspace realmName oldName) = some (.str (.client old)))
    (hname : old.Name = oldName)
    (hne : clientNew.Name ≠ oldName)
    (hok : (UpdateClient mn s realmName oldName clientNew).1 = none) :
    (∃ err, (GetClient mn (UpdateClient mn s realmName oldName clientNew).2.healthy
        realmName oldName).1 = .error err ∧ err.Is .ErrNotFound = true) ∧
    (GetClient mn (UpdateClient mn s realmName oldName clientNew).2.healthy
      realmName clientNew.Name).1 = .ok clientNew := by
  obtain ⟨old', hold', hcases⟩ := UpdateClient_ok mn s realmName oldName clientNew hok
  have heq : old' = old := by
    rw [hold] at hold'
    simp only [Option.some.injEq, Entry.str.injEq, Doc.client.injEq] at hold'
    exact hold'.symm
  subst heq
  have hkne : clientKey mn.nspace realmName oldName
      ≠ clientKey mn.nspace realmName clientNew.Name :=
    fun h => hne (clientKey_inj _ _ _ _ h).symm
  rcases hcases with ⟨_, hsame, _⟩ | ⟨_, s1, hs1, hdel, hadd, hkv⟩
  · exact absurd (hsame.trans hname) hne
  · rw [hname] at hdel hadd hkv
    obtain ⟨_, hgone, _⟩ := DeleteClient_ok mn s1 realmName oldName hdel
    have hframe := addClientToRealm_frame mn (DeleteClient mn s1 realmName oldName).2
      realmName clientNew (clientKey mn.nspace realmName oldName)
      (clientKey_ne_realmClientsKey _ _ _ _ _)
    constructor
    · refine ⟨.wrap "getObjectFromRedis failed" (.sentinel .ErrNotFound), ?_, rfl⟩
      rw [GetClient_of_absent mn (UpdateClient mn s realmName oldName clientNew).2.healthy
        realmName oldName rfl
        (by show (UpdateClient mn s realmName oldName clientNew).2.kv _ = none
            rw [hkv, if_neg hkne, hframe, hgone])]
    · rw [GetClient_of_stored mn (UpdateClient mn s realmName oldName clientNew).2.healthy
        realmName clientNew.Name clientNew rfl
        (by show (UpdateClient mn s realmName oldName clientNew).2.kv _ = _
            rw [hkv, if_pos rfl])]

theorem UpdateClient_rename_witness :
    (∃ err, (GetClient sampleManager
        (UpdateClient sampleManager acmeTwoClients "acme" "app1" app1Renamed).2.healthy
        "acme" "app1").1 = .error err ∧ err.Is .ErrNotFound = true) ∧
    (GetClient sampleManager
      (UpdateClient sampleManager acmeTwoClients "acme" "app1" app1Renamed).2.healthy
      "acme" app1Renamed.Name).1 = .ok app1Renamed :=
  UpdateClient_rename sampleManager acmeTwoClients "acme" "app1" app1Renamed app1
    (by decide) (by decide) (by decide) (by decide)

/-- C8, as stated, fails: in `misfiledStore` the record stored under
`(acme, app1)` has the id and the name of `app9Confidential`; the update
succeeds, but the key of `(acme, app1)` still holds the old record and it is
another key, the one of `(acme, app9)`, free before, that now holds the new
one. -/
theorem inplace_misfiled_writes_other_key :
    misfiledStore.kv (clientKey "ferrum" "acme" "app1") = some (.str (.client app9)) ∧
    app9Confidential.ID = app9.ID ∧ app9Confidential.Name = app9.Name ∧
    (UpdateClient sampleManager misfiledStore "acme" "app1" app9Confidential).1 = none ∧
    (UpdateClient sampleManager misfiledStore "acme" "app1" app9Confidential).2.kv
      (clientKey "ferrum" "acme" "app1") = some (.str (.client app9)) ∧
    misfiledStore.kv (clientKey "ferrum" "acme" "app9") = none ∧
    (UpdateClient sampleManager misfiledStore "acme" "app1" app9Confidential).2.kv
      (clientKey "ferrum" "acme" "app9") = some (.str (.client app9Confidential)) := by
  decide

/-- C8, amended: when the record stored under `(realmName, clientName)` has the
id and the name of `clientNew`, a successful `UpdateClient` changes one key
only, the client key of `(realmName, clientNew.Name)`: it then holds
`clientNew`, and every other key, the realm's list key and so its membership
list among them, is as before.  That key is the key of `(realmName,
clientName)` when the record is stored under its own name. -/
theorem UpdateClient_in_place (mn : RedisDataManager) (s : Redis)
    (realmName clientName : String) (clientNew old : Client)
    (hold : s.kv (clientKey mn.nspace realmName clientName) = some (.str (.client old)))
    (hid : old.ID = clientNew.ID) (hnm : old.Name = clientNew.Name)
    (hok : (UpdateClient mn s realmName clientName clientNew).1 = none) :
    (UpdateClient mn s realmName clientName clientNew).2.kv
        (clientKey mn.nspace realmName clientNew.Name) = some (.str (.client clientNew)) ∧
    (∀ k, k ≠ clientKey mn.nspace realmName clientNew.Name →
      (UpdateClient mn s realmName clientName clientNew).2.kv k = s.kv k) ∧
    membership mn (UpdateClient mn s realmName clientName clientNew).2 realmName
      = membership mn s realmName ∧
    (old.Name = clientName →
      clientKey mn.nspace realmName clientNew.Name = clientKey mn.nspace realmName clientName) := by
  obtain ⟨old', hold', hcases⟩ := UpdateClient_ok mn s realmName clientName clientNew hok
  have heq : old' = old := by
    rw [hold] at hold'
    simp only [Option.some.injEq, Entry.str.injEq, Doc.client.injEq] at hold'
    exact hold'.symm
  subst heq
  rcases hcases with ⟨_, _, hkv⟩ | ⟨hdiff, _⟩
  · have hframe : ∀ k, k ≠ clientKey mn.nspace realmName clientNew.Name →
        (UpdateClient mn s realmName clientName clientNew).2.kv k = s.kv k :=
      fun k hkne => by rw [hkv, if_neg hkne]
    exact ⟨by rw [hkv, if_pos rfl], hframe,
      membership_congr mn s _ realmName (hframe _ (realmClientsKey_ne_clientKey _ _ _ _ _)),
      fun hkey => by rw [← hnm, hkey]⟩
  · rcases hdiff with h | h
    · exact absurd hid.symm h
    · exact absurd hnm.symm h

theorem UpdateClient_in_place_witness :
    (UpdateClient sampleManager acmeTwoClients "acme" "app1" app1Confidential).2.kv
        (clientKey "ferrum" "acme" app1Confidential.Name)
      = some (.str (.client app1Confidential)) ∧
    (∀ k, k ≠ clientKey "ferrum" "acme" app1Confidential.Name →
      (UpdateClient sampleManager acmeTwoClients "acme" "app1" app1Confidential).2.kv k
        = acmeTwoClients.kv k) ∧
    membership sampleManager
        (UpdateClient sampleManager acmeTwoClients "acme" "app1" app1Confidential).2 "acme"
      = membership sampleManager acmeTwoClients "acme" ∧
    (app1.Name = "app1" →
      clientKey "ferrum" "acme" app1Confidential.Name = clientKey "ferrum" "acme" "app1") :=
  UpdateClient_in_place sampleManager acmeTwoClients "acme" "app1" app1Confidential app1
    (by decide) (by decide) (by decide) (by decide)

theorem clientKey_eq_iff (ns r a b : String) : clientKey ns r a = clientKey ns r b ↔ a = b :=
  ⟨clientKey_inj ns r a b, fun h => by rw [h]⟩

theorem acmeTwoClients_kv (k : String) :
    acmeTwoClients.kv k =
      if k = realmClientsKey "ferrum" "acme" then
        some (.list [.identifiers [{ ID := 1, Name := "app1" }],
          .identifiers [{ ID := 2, Name := "app2" }]])
      else if k = clientKey "ferrum" "acme" "app2" then some (.str (.client app2))
      else if k = clientKey "ferrum" "acme" "app1" then some (.str (.client app1))
      else if k = realmKey "ferrum" "acme" then some (.str (.realm acme))
      else none := by
  have h1 : (CreateClient sampleManager acmeStore "acme" app1).1 = none := by decide
  have h2 : (CreateClient sampleManager (CreateClient sampleManager acmeStore "acme" app1).2
      "acme" app2).1 = none := by decide
  obtain ⟨_, _, _, hk1⟩ := CreateClient_ok sampleManager acmeStore "acme" app1 h1
  obtain ⟨_, _, _, hk2⟩ := CreateClient_ok sampleManager _ "acme" app2 h2
  have hs1 : listSlots acmeStore (realmClientsKey "ferrum" "acme") = [] := by decide
  have hs2 : listSlots (CreateClient sampleManager acmeStore "acme" app1).2
      (realmClientsKey "ferrum" "acme") = [.identifiers [{ ID := 1, Name := "app1" }]] := by
    decide
  simp only [show sampleManager.nspace = "ferrum" from rfl] at hk1 hk2
  rw [hs1] at hk1
  rw [hs2] at hk2
  show (CreateClient sampleManager (CreateClient sampleManager acmeStore "acme" app1).2
      "acme" app2).2.kv k = _
  rw [hk2 k, hk1 k]
  have hn1 : app1.Name = "app1" := rfl
  have hn2 : app2.Name = "app2" := rfl
  have hi1 : app1.ID = 1 := rfl
  have hi2 : app2.ID = 2 := rfl
  rw [hn1, hn2, hi1, hi2]
  by_cases c1 : k = realmClientsKey "ferrum" "acme"
  · simp [c1]
  · by_cases c2 : k = clientKey "ferrum" "acme" "app2"
    · simp [c1, c2]
    · by_cases c3 : k = clientKey "ferrum" "acme" "app1"
      · simp only [if_neg c1, if_neg c2, if_pos c3]
      · simp only [if_neg c1, if_neg c2, if_neg c3, acmeStore]

/-- C2 fails on the code: `acmeTwoClients` satisfies the correspondence, and a
successful `UpdateClient` that renames `app1` to the name of the existing
client `app2` leaves two membership entries named `app2`, so the
correspondence no longer holds. -/
theorem rename_onto_existing_breaks_membership :
    Consistent sampleManager acmeTwoClients "acme" ∧
    (UpdateClient sampleManager acmeTwoClients "acme" "app1" app1AsApp2).1 = none ∧
    membership sampleManager
      (UpdateClient sampleManager acmeTwoClients "acme" "app1" app1AsApp2).2 "acme"
      = some [{ ID := 2, Name := "app2" }, { ID := 1, Name := "app2" }] ∧
    ¬ Consistent sampleManager
      (UpdateClient sampleManager acmeTwoClients "acme" "app1" app1AsApp2).2 "acme" := by
  have hm : membership sampleManager
      (UpdateClient sampleManager acmeTwoClients "acme" "app1" app1AsApp2).2 "acme"
      = some [{ ID := 2, Name := "app2" }, { ID := 1, Name := "app2" }] := by decide
  refine ⟨?_, by decide, hm, ?_⟩
  · refine ⟨[{ ID := 1, Name := "app1" }, { ID := 2, Name := "app2" }], by decide, by decide,
      by decide, ?_⟩
    intro clientName c hc
    unfold storedClient at hc
    rw [acmeTwoClients_kv] at hc
    simp only [sampleManager, clientKey_ne_realmClientsKey, if_false, clientKey_eq_iff,
      clientKey_ne_realmKey] at hc
    by_cases c2 : clientName = "app2"
    · subst c2
      simp at hc
      subst hc
      decide
    · by_cases c3 : clientName = "app1"
      · subst c3
        simp at hc
        subst hc
        decide
      · simp [c2, c3] at hc
  · rintro ⟨l, hl, hnodup, _⟩
    rw [hm] at hl
    simp only [Option.some.injEq] at hl
    subst hl
    simp at hnodup

/-! ## base64url -/

theorem sextetValue_sextetChar : ∀ n : Fin 64, sextetValue (sextetChar n.val) = some n.val := by
  decide

theorem sextetChar_ne_dot : ∀ n : Fin 64, sextetChar n.val ≠ '.' := by
  decide

theorem sextetValue_char (n : Nat) (h : n < 64) : sextetValue (sextetChar n) = some n :=
  sextetValue_sextetChar ⟨n, h⟩

theorem sextetChar_dot (n : Nat) (h : n < 64) : sextetChar n ≠ '.' :=
  sextetChar_ne_dot ⟨n, h⟩

theorem dot_not_mem_EncodeToString (bs : List Byte) : '.' ∉ EncodeToString bs := by
  induction bs using EncodeToString.induct with
  | case1 b0 b1 b2 rest ih =>
    have h0 := b0.isLt
    have h1 := b1.isLt
    have h2 := b2.isLt
    simp only [EncodeToString, List.mem_cons, not_or]
    exact ⟨(sextetChar_dot _ (by omega)).symm, (sextetChar_dot _ (by omega)).symm,
      (sextetChar_dot _ (by omega)).symm, (sextetChar_dot _ (by omega)).symm, ih⟩
  | case2 b0 b1 =>
    have h0 := b0.isLt
    have h1 := b1.isLt
    simp only [EncodeToString, List.mem_cons, List.mem_nil_iff, or_false, not_or]
    exact ⟨(sextetChar_dot _ (by omega)).symm, (sextetChar_dot _ (by omega)).symm,
      (sextetChar_dot _ (by omega)).symm⟩
  | case3 b0 =>
    have h0 := b0.isLt
    simp only [EncodeToString, List.mem_cons, List.mem_nil_iff, or_false, not_or]
    exact ⟨(sextetChar_dot _ (by omega)).symm, (sextetChar_dot _ (by omega)).symm⟩
  | case4 => simp [EncodeToString]

theorem DecodeString_EncodeToString (bs : List Byte) :
    DecodeString (EncodeToString bs) = some bs := by
  induction bs using EncodeToString.induct with
  | case1 b0 b1 b2 rest ih =>
    have h0 := b0.isLt
    have h1 := b1.isLt
    have h2 := b2.isLt
    simp only [EncodeToString, DecodeString, sextetValue_char _ (show b0.val / 4 < 64 by omega),
      sextetValue_char _ (show b0.val % 4 * 16 + b1.val / 16 < 64 by omega),
      sextetValue_char _ (show b1.val % 16 * 4 + b2.val / 64 < 64 by omega),
      sextetValue_char _ (show b2.val % 64 < 64 by omega), ih]
    simp only [Option.some.injEq, List.cons.injEq, and_true]
    refine ⟨?_, ?_, ?_⟩ <;> (apply Fin.ext; simp only [toByte]; omega)
  | case2 b0 b1 =>
    have h0 := b0.isLt
    have h1 := b1.isLt
    simp only [EncodeToString, DecodeString, sextetValue_char _ (show b0.val / 4 < 64 by omega),
      sextetValue_char _ (show b0.val % 4 * 16 + b1.val / 16 < 64 by omega),
      sextetValue_char _ (show b1.val % 16 * 4 < 64 by omega)]
    simp only [Option.some.injEq, List.cons.injEq, and_true]
    refine ⟨?_, ?_⟩ <;> (apply Fin.ext; simp only [toByte]; omega)
  | case3 b0 =>
    have h0 := b0.isLt
    simp only [EncodeToString, DecodeString, sextetValue_char _ (show b0.val / 4 < 64 by omega),
      sextetValue_char _ (show b0.val % 4 * 16 < 64 by omega)]
    simp only [Option.some.injEq, List.cons.injEq, and_true]
    apply Fin.ext; simp only [toByte]; omega
  | case4 => simp [EncodeToString, DecodeString]

/-- C10: whenever `makeSignedToken` succeeds on a token made by
`jwt.New(jwt.SigningMethodHS256)`, for every claims string
`tokenData.ResultJsonStr` and every signing key, the string it returns contains
exactly two `.`, it splits at them into three segments, and the unpadded
base64url decoding of the second segment is `ResultJsonStr`, byte for byte;
`generateJwtAccessToken`, which calls it with the generator's key, returns that
same string, and so does `GenerateJwtAccessToken` whenever the token data it
prepares is `tokenData`. -/
theorem signed_token_shape (libs : Libraries) (tokenData : AccessTokenData)
    (signKey : SignKey) (signed : List Char)
    (hsigned : makeSignedToken libs (jwtNew (SigningMethodHS256 libs)) tokenData signKey
      = .ok signed) :
    signed.count '.' = 2 ∧
    (∃ header claim sig, signed.splitOn '.' = [header, claim, sig] ∧
      DecodeString claim = some tokenData.ResultJsonStr) ∧
    (∀ generator : JwtGenerator, signKey = .bytes generator.SignKey →
      generateJwtAccessToken libs generator tokenData = signed) ∧
    (∀ (User : Type) (CreateAccessToken : JwtCommonInfo → User → AccessTokenData)
      (newId : UUID) (generator : JwtGenerator) (realmBaseUrl tokenType scope : String)
      (sessionData : UserSession) (userData : User),
      signKey = .bytes generator.SignKey →
      prepareAccessToken CreateAccessToken newId realmBaseUrl tokenType scope sessionData
        userData = tokenData →
      GenerateJwtAccessToken libs CreateAccessToken newId generator realmBaseUrl tokenType
        scope sessionData userData = signed) := by
  cases hm : libs.jsonMarshal (jwtNew (SigningMethodHS256 libs)).Header with
  | error err => simp [makeSignedToken, hm] at hsigned
  | ok jsonValue =>
    have hm2 : libs.jsonMarshal [("typ", "JWT"), ("alg", "HS256")] = .ok jsonValue := hm
    cases signKey with
    | other => simp [makeSignedToken, hm2, jwtNew, SigningMethodHS256] at hsigned
    | bytes keyBytes =>
      have hparts : ∃ sig, '.' ∉ sig ∧
          signed = ['.'].intercalate
            [EncodeToString jsonValue, EncodeToString tokenData.ResultJsonStr, sig] := by
        simp only [makeSignedToken, hm2, jwtNew, SigningMethodHS256, stringsJoin,
          Except.ok.injEq] at hsigned
        exact ⟨EncodeToString (libs.hmacSHA256 keyBytes (bytesOfText (['.'].intercalate
          [EncodeToString jsonValue, EncodeToString tokenData.ResultJsonStr]))),
          dot_not_mem_EncodeToString _, by rw [← hsigned]; simp [List.intercalate]⟩
      obtain ⟨sig, hsig, hs⟩ := hparts
      have hall : ∀ l ∈ [EncodeToString jsonValue, EncodeToString tokenData.ResultJsonStr, sig],
          '.' ∉ l := by
        intro l hl
        simp only [List.mem_cons, List.mem_nil_iff, or_false] at hl
        rcases hl with rfl | rfl | rfl
        · exact dot_not_mem_EncodeToString _
        · exact dot_not_mem_EncodeToString _
        · exact hsig
      refine ⟨?_, ⟨EncodeToString jsonValue, EncodeToString tokenData.ResultJsonStr, sig, ?_,
        DecodeString_EncodeToString _⟩, ?_, ?_⟩
      · rw [hs]
        simp [List.intercalate, List.count_append, List.count_cons,
          List.count_eq_zero_of_not_mem (dot_not_mem_EncodeToString _),
          List.count_eq_zero_of_not_mem hsig]
      · rw [hs]
        exact List.splitOn_intercalate _ '.' hall (by simp)
      · intro generator hkey
        simp only [SignKey.bytes.injEq] at hkey
        subst hkey
        simp only [generateJwtAccessToken, hsigned]
      · intro User CreateAccessToken newId generator realmBaseUrl tokenType scope sessionData
          userData hkey hdata
        simp only [SignKey.bytes.injEq] at hkey
        subst hkey
        simp only [GenerateJwtAccessToken, hdata, generateJwtAccessToken, hsigned]

theorem signed_token_shape_witness :
    (GenerateJwtAccessToken sampleLibraries sampleCreateAccessToken 7 sampleGenerator
      "http://idp/auth/realms/acme" "Bearer" "profile" sampleSession "alice").count '.' = 2 ∧
    (∃ header claim sig,
      (GenerateJwtAccessToken sampleLibraries sampleCreateAccessToken 7 sampleGenerator
        "http://idp/auth/realms/acme" "Bearer" "profile" sampleSession "alice").splitOn '.'
        = [header, claim, sig] ∧
      DecodeString claim
        = some (prepareAccessToken sampleCreateAccessToken 7 "http://idp/auth/realms/acme"
            "Bearer" "profile" sampleSession "alice").ResultJsonStr) ∧
    generateJwtAccessToken sampleLibraries sampleGenerator
        (prepareAccessToken sampleCreateAccessToken 7 "http://idp/auth/realms/acme" "Bearer"
          "profile" sampleSession "alice")
      = GenerateJwtAccessToken sampleLibraries sampleCreateAccessToken 7 sampleGenerator
          "http://idp/auth/realms/acme" "Bearer" "profile" sampleSession "alice" ∧
    GenerateJwtAccessToken sampleLibraries sampleCreateAccessToken 7 sampleGenerator
        "http://idp/auth/realms/acme" "Bearer" "profile" sampleSession "alice" ≠ [] :=
  have h := signed_token_shape sampleLibraries
    (prepareAccessToken sampleCreateAccessToken 7 "http://idp/auth/realms/acme" "Bearer"
      "profile" sampleSession "alice")
    (.bytes sampleGenerator.SignKey)
    (GenerateJwtAccessToken sampleLibraries sampleCreateAccessToken 7 sampleGenerator
      "http://idp/auth/realms/acme" "Bearer" "profile" sampleSession "alice") rfl
  ⟨h.1, h.2.1, h.2.2.1 sampleGenerator rfl, fun hnil => by
    have hc := h.1
    rw [hnil] at hc
    simp at hc⟩

/-- C11: whenever `makeSignedToken` succeeds, the header marshalled to some
`jsonValue`, the token's method signed the text `u` made of the base64url of
`jsonValue`, a `.`, and the base64url of the claims string, and the token is
`u`, a `.` and that signature: the signature is computed over exactly the first
two segments joined by `.`.  For the token of `generateJwtAccessToken`, made by
`jwt.New(jwt.SigningMethodHS256)`, the signature is the base64url of the
HMAC-SHA256 of `u` under the key. -/
theorem signed_token_construction (libs : Libraries) (token : Token)
    (tokenData : AccessTokenData) (signKey : SignKey) (signed : List Char)
    (hsigned : makeSignedToken libs token tokenData signKey = .ok signed) :
    ∃ jsonValue sig,
      libs.jsonMarshal token.Header = .ok jsonValue ∧
      token.Method.Sign
        (EncodeToString jsonValue ++ '.' :: EncodeToString tokenData.ResultJsonStr) signKey
        = .ok sig ∧
      signed = (EncodeToString jsonValue ++ '.' :: EncodeToString tokenData.ResultJsonStr)
        ++ '.' :: sig ∧
      (token = jwtNew (SigningMethodHS256 libs) →
        ∃ keyBytes, signKey = .bytes keyBytes ∧
          sig = EncodeToString (libs.hmacSHA256 keyBytes (bytesOfText
            (EncodeToString jsonValue ++ '.' :: EncodeToString tokenData.ResultJsonStr)))) := by
  cases hm : libs.jsonMarshal token.Header with
  | error err => simp [makeSignedToken, hm] at hsigned
  | ok jsonValue =>
    have hu : stringsJoin [EncodeToString jsonValue, EncodeToString tokenData.ResultJsonStr]
        ['.'] = EncodeToString jsonValue ++ '.' :: EncodeToString tokenData.ResultJsonStr := by
      simp [stringsJoin, List.intercalate]
    simp only [makeSignedToken, hm, hu] at hsigned
    cases hs : token.Method.Sign
        (EncodeToString jsonValue ++ '.' :: EncodeToString tokenData.ResultJsonStr) signKey with
    | error err => simp [hs] at hsigned
    | ok sig =>
      simp only [hs, Except.ok.injEq] at hsigned
      refine ⟨jsonValue, sig, rfl, hs, ?_, ?_⟩
      · rw [← hsigned]
        simp [stringsJoin, List.intercalate]
      · intro htoken
        subst htoken
        cases signKey with
        | other => simp [jwtNew, SigningMethodHS256] at hs
        | bytes keyBytes =>
          refine ⟨keyBytes, rfl, ?_⟩
          simp only [jwtNew, SigningMethodHS256, Except.ok.injEq] at hs
          exact hs.symm

theorem signed_token_construction_witness :
    ∃ jsonValue sig,
      sampleLibraries.jsonMarshal (jwtNew (SigningMethodHS256 sampleLibraries)).Header
        = .ok jsonValue ∧
      (jwtNew (SigningMethodHS256 sampleLibraries)).Method.Sign
        (EncodeToString jsonValue ++ '.' :: EncodeToString sampleTokenData.ResultJsonStr)
        (.bytes sampleGenerator.SignKey) = .ok sig ∧
      generateJwtAccessToken sampleLibraries sampleGenerator sampleTokenData
        = (EncodeToString jsonValue ++ '.' :: EncodeToString sampleTokenData.ResultJsonStr)
          ++ '.' :: sig ∧
      (jwtNew (SigningMethodHS256 sampleLibraries) = jwtNew (SigningMethodHS256 sampleLibraries) →
        ∃ keyBytes, SignKey.bytes sampleGenerator.SignKey = .bytes keyBytes ∧
          sig = EncodeToString (sampleLibraries.hmacSHA256 keyBytes (bytesOfText
            (EncodeToString jsonValue ++ '.' ::
              EncodeToString sampleTokenData.ResultJsonStr)))) :=
  signed_token_construction sampleLibraries (jwtNew (SigningMethodHS256 sampleLibraries))
    sampleTokenData (.bytes sampleGenerator.SignKey)
    (generateJwtAccessToken sampleLibraries sampleGenerator sampleTokenData) rfl

/-- C13: when the header does not marshal, or the signing step fails,
`makeSignedToken` returns that error and no token; whenever `makeSignedToken`
fails, `generateJwtAccessToken` returns the empty string, and its result type
has no place for an error; a non-empty result is the token of a
`makeSignedToken` that succeeded. -/
theorem signing_failure_gives_empty (libs : Libraries) (generator : JwtGenerator)
    (tokenData : AccessTokenData) :
    (∀ (token : Token) (signKey : SignKey) (err : JwtError),
      libs.jsonMarshal token.Header = .error err →
      makeSignedToken libs token tokenData signKey = .error err) ∧
    (∀ (token : Token) (signKey : SignKey) (jsonValue : List Byte) (err : JwtError),
      libs.jsonMarshal token.Header = .ok jsonValue →
      token.Method.Sign
        (stringsJoin [EncodeToString jsonValue, EncodeToString tokenData.ResultJsonStr] ['.'])
        signKey = .error err →
      makeSignedToken libs token tokenData signKey = .error err) ∧
    (∀ err, makeSignedToken libs (jwtNew (SigningMethodHS256 libs)) tokenData
        (.bytes generator.SignKey) = .error err →
      generateJwtAccessToken libs generator tokenData = []) ∧
    (generateJwtAccessToken libs generator tokenData ≠ [] →
      makeSignedToken libs (jwtNew (SigningMethodHS256 libs)) tokenData
        (.bytes generator.SignKey)
        = .ok (generateJwtAccessToken libs generator tokenData)) := by
  refine ⟨?_, ?_, ?_, ?_⟩
  · intro token signKey err hm
    simp only [makeSignedToken, hm]
  · intro token signKey jsonValue err hm hs
    simp only [makeSignedToken, hm, hs]
  · intro err herr
    simp only [generateJwtAccessToken, herr]
  · intro hne
    cases hr : makeSignedToken libs (jwtNew (SigningMethodHS256 libs)) tokenData
        (.bytes generator.SignKey) with
    | error err => simp [generateJwtAccessToken, hr] at hne
    | ok signed => simp only [generateJwtAccessToken, hr]

/-- The signer run on a header that does not marshal: no token, and the empty
string from `generateJwtAccessToken`. -/
theorem failing_marshal_example :
    makeSignedToken failingLibraries (jwtNew (SigningMethodHS256 failingLibraries))
      sampleTokenData (.bytes sampleGenerator.SignKey) = .error .marshal ∧
    makeSignedToken sampleLibraries (jwtNew (SigningMethodHS256 sampleLibraries))
      sampleTokenData .other = .error .invalidKeyType ∧
    generateJwtAccessToken failingLibraries sampleGenerator sampleTokenData = [] :=
  ⟨rfl, rfl, rfl⟩

theorem getObjectFromRedis_congr {α : Type} (decode : Doc → Option α) (s t : Redis)
    (key : String) (hkey : s.kv key = t.kv key) (hfault : s.faults.head? = t.faults.head?) :
    (getObjectFromRedis decode s key).1 = (getObjectFromRedis decode t key).1 := by
  obtain ⟨skv, sf⟩ := s
  obtain ⟨tkv, tf⟩ := t
  simp only at hkey
  have body : ∀ r1 r2 : List Bool,
      (match skv key with
        | none => ((.error (.sentinel .ErrNotFound) : Except GoError α), (⟨skv, r1⟩ : Redis))
        | some (.list _) => (.error (.sentinel .WrongType), ⟨skv, r1⟩)
        | some (.str d) =>
          match decode d with
          | some obj => (.ok obj, ⟨skv, r1⟩)
          | none => (.error (.wrap "json.Unmarshal failed" (.sentinel .ErrNotFound)),
              ⟨skv, r1⟩)).1
      = (match tkv key with
        | none => ((.error (.sentinel .ErrNotFound) : Except GoError α), (⟨tkv, r2⟩ : Redis))
        | some (.list _) => (.error (.sentinel .WrongType), ⟨tkv, r2⟩)
        | some (.str d) =>
          match decode d with
          | some obj => (.ok obj, ⟨tkv, r2⟩)
          | none => (.error (.wrap "json.Unmarshal failed" (.sentinel .ErrNotFound)),
              ⟨tkv, r2⟩)).1 := by
    intro r1 r2
    rw [hkey]
    rcases tkv key with _ | (d | l)
    · rfl
    · simp only
      cases decode d <;> rfl
    · rfl
  cases sf with
  | nil =>
    cases tf with
    | nil => exact body [] []
    | cons b rest => simp at hfault
  | cons a rest =>
    cases tf with
    | nil => simp at hfault
    | cons b rest2 =>
      simp only [List.head?_cons, Option.some.injEq] at hfault
      subst hfault
      cases a
      · exact body rest rest2
      · rfl

/-- C15: `GetClient` reads the client key and nothing else: on two stores that
hold the same value under the client key of `(realmName, clientName)` (the
request meeting the same transport outcome) it returns the same result,
whatever else the stores hold; in particular the result is the same after the
realm's list key is given any value or is removed. -/
theorem GetClient_reads_one_key (mn : RedisDataManager) (s t : Redis)
    (realmName clientName : String)
    (hkey : s.kv (clientKey mn.nspace realmName clientName)
      = t.kv (clientKey mn.nspace realmName clientName))
    (hfault : s.faults.head? = t.faults.head?) :
    (GetClient mn s realmName clientName).1 = (GetClient mn t realmName clientName).1 ∧
    (∀ e, (GetClient mn (s.put (realmClientsKey mn.nspace realmName) e) realmName clientName).1
      = (GetClient mn s realmName clientName).1) ∧
    (GetClient mn (s.remove (realmClientsKey mn.nspace realmName)) realmName clientName).1
      = (GetClient mn s realmName clientName).1 := by
  have hne := clientKey_ne_realmClientsKey mn.nspace realmName clientName mn.nspace realmName
  have key : ∀ a b : Redis, a.kv (clientKey mn.nspace realmName clientName)
      = b.kv (clientKey mn.nspace realmName clientName) → a.faults.head? = b.faults.head? →
      (GetClient mn a realmName clientName).1 = (GetClient mn b realmName clientName).1 := by
    intro a b hk hf
    have h := getObjectFromRedis_congr decodeClient a b _ hk hf
    rcases ha : getObjectFromRedis decodeClient a (clientKey mn.nspace realmName clientName)
      with ⟨(ea | va), a1⟩ <;>
    rcases hb : getObjectFromRedis decodeClient b (clientKey mn.nspace realmName clientName)
      with ⟨(eb | vb), b1⟩ <;>
    simp only [ha, hb] at h <;> simp [GetClient, ha, hb] <;> simp_all
  refine ⟨key s t hkey hfault, fun e => key _ _ ?_ rfl, key _ _ ?_ rfl⟩
  · simp [Redis.put, hne]
  · simp [Redis.remove, hne]

theorem GetClient_reads_one_key_witness :
    (GetClient sampleManager acmeTwoClients "acme" "app1").1
      = (GetClient sampleManager loneClientStore "acme" "app1").1 ∧
    (∀ e, (GetClient sampleManager
        (acmeTwoClients.put (realmClientsKey "ferrum" "acme") e) "acme" "app1").1
      = (GetClient sampleManager acmeTwoClients "acme" "app1").1) ∧
    (GetClient sampleManager
        (acmeTwoClients.remove (realmClientsKey "ferrum" "acme")) "acme" "app1").1
      = (GetClient sampleManager acmeTwoClients "acme" "app1").1 :=
  GetClient_reads_one_key sampleManager acmeTwoClients loneClientStore "acme" "app1"
    (by decide) (by decide)

/-- What the error of the membership append tells: when `CreateClient` returns
it, no client record was stored before the call, the record of `clientNew` is
in the store afterwards, and no other key has changed. -/
theorem CreateClient_append_error (mn : RedisDataManager) (s : Redis) (realmName : String)
    (clientNew : Client) (err : GoError)
    (hfail : (CreateClient mn s realmName clientNew).1
      = some (.wrap "addClientToRealm failed" err)) :
    (CreateClient mn s realmName clientNew).1 ≠ none ∧
    storedClient mn s realmName clientNew.Name = none ∧
    (CreateClient mn s realmName clientNew).2.kv (clientKey mn.nspace realmName clientNew.Name)
      = some (.str (.client clientNew)) ∧
    (∀ k, k ≠ clientKey mn.nspace realmName clientNew.Name →
      (CreateClient mn s realmName clientNew).2.kv k = s.kv k) := by
  refine ⟨by rw [hfail]; simp, ?_⟩
  have hg1 := GetClient_kv mn s realmName clientNew.Name
  rcases hg : GetClient mn s realmName clientNew.Name with ⟨(e1 | v), s1⟩
  · rw [hg] at hg1
    simp only at hg1
    simp only [CreateClient, hg] at hfail ⊢
    by_cases hnf : e1.Is .ErrNotFound = true
    · simp only [hnf, Bool.not_true, Bool.false_eq_true, if_false] at hfail ⊢
      have hstored : storedClient mn s realmName clientNew.Name = none := by
        rcases hgo : getObjectFromRedis decodeClient s
          (clientKey mn.nspace realmName clientNew.Name) with ⟨(e0 | v0), s0⟩
        · simp only [GetClient, hgo, Prod.mk.injEq, Except.error.injEq] at hg
          have he0 : e0.Is .ErrNotFound = true := by
            rw [← hg.1] at hnf
            simpa [GoError.Is] using hnf
          rcases getObjectFromRedis_notFound decodeClient s _ e0 (by rw [hgo]) he0 with
            habs | ⟨d, hd, hdec⟩
          · simp [storedClient, habs]
          · cases d <;> simp [decodeClient] at hdec <;> simp [storedClient, hd]
        · simp [GetClient, hgo] at hg
      have hr1 := GetRealm_kv mn s1 realmName
      rcases hr : GetRealm mn s1 realmName with ⟨(e2 | realm), s2⟩
      · simp [hr] at hfail
      · rw [hr] at hr1
        simp only at hr1
        simp only [hr] at hfail ⊢
        rcases hc : createClientRedis mn s2 realmName clientNew.Name (.client clientNew)
          with ⟨(_ | e3), s3⟩
        · have hc1 := createClientRedis_ok mn s2 realmName clientNew.Name _ (by rw [hc])
          rw [hc] at hc1
          simp only at hc1
          simp only [hc] at hfail ⊢
          rcases haa : addClientToRealm mn s3 realmName clientNew with ⟨(_ | e4), s4⟩
          · simp [haa] at hfail
          · have ha := (addClientToRealm_err mn s3 realmName clientNew e4 (by rw [haa])).1
            rw [haa] at ha
            simp only at ha ⊢
            refine ⟨hstored, ?_, fun k hk => ?_⟩
            · rw [ha, hc1, if_pos rfl]
            · rw [ha, hc1, if_neg hk, hr1, hg1]
        · simp [hc] at hfail
    · simp [hnf] at hfail
  · simp [CreateClient, hg] at hfail

/-- A transport failure of the fourth request has the same effect: the record
of `app1` stays in the store and the membership list is not written. -/
theorem CreateClient_fourth_request_fails :
    (CreateClient sampleManager acmeFourthFails "acme" app1).1
      = some (.wrap "addClientToRealm failed"
          (.wrap "createRealmClients failed" (.sentinel .StoreUnavailable))) ∧
    (CreateClient sampleManager acmeFourthFails "acme" app1).2.kv
        (clientKey "ferrum" "acme" "app1") = some (.str (.client app1)) ∧
    (CreateClient sampleManager acmeFourthFails "acme" app1).2.kv
        (realmClientsKey "ferrum" "acme") = none := by
  decide

/-- C12: the common claim set `prepareAccessToken` hands to
`data.CreateAccessToken` has the issuer `realmBaseUrl`, the audience `account`,
the given type and scope, the start and expiry of the session, the session's
user as subject and the session id as session id and session state;
`prepareRefreshToken` hands `data.CreateRefreshToken` the same set except that
the audience is `realmBaseUrl` (and the token id is the one drawn there). -/
theorem claims_builder_mapping {User α β : Type}
    (CreateAccessToken : JwtCommonInfo → User → α) (CreateRefreshToken : JwtCommonInfo → β)
    (accessId refreshId : UUID) (realmBaseUrl tokenType scope : String)
    (sessionData : UserSession) (userData : User) :
    ∃ access refresh : JwtCommonInfo,
      prepareAccessToken CreateAccessToken accessId realmBaseUrl tokenType scope sessionData
        userData = CreateAccessToken access userData ∧
      prepareRefreshToken CreateRefreshToken refreshId realmBaseUrl tokenType scope sessionData
        = CreateRefreshToken refresh ∧
      access = prepareAccessToken (fun common (_ : User) => common) accessId realmBaseUrl
        tokenType scope sessionData userData ∧
      refresh = prepareRefreshToken (fun common => common) refreshId realmBaseUrl tokenType
        scope sessionData ∧
      access.Issuer = realmBaseUrl ∧ access.Typ = tokenType ∧ access.Audience = "account" ∧
      access.Scope = scope ∧ access.JwtId = accessId ∧
      access.IssuedAt = sessionData.Started ∧ access.ExpiredAt = sessionData.Expired ∧
      access.Subject = sessionData.UserId ∧ access.SessionId = sessionData.Id ∧
      access.SessionState = sessionData.Id ∧
      refresh = { access with Audience := realmBaseUrl, JwtId := refreshId } :=
  ⟨_, _, rfl, rfl, rfl, rfl, rfl, rfl, rfl, rfl, rfl, rfl, rfl, rfl, rfl, rfl, rfl⟩

/-- C14 as stated fails: the slot `CreateClient` appends holds a JSON array (of
one entry), and after `DeleteClient` of `app1` among three clients the list
holds its two remaining memberships in one slot, a JSON array of both. -/
theorem delete_packs_two_entries_in_one_slot :
    listSlots acmeOneClient (realmClientsKey "ferrum" "acme")
      = [.identifiers [{ ID := 1, Name := "app1" }]] ∧
    listSlots acmeThreeClients (realmClientsKey "ferrum" "acme")
      = [.identifiers [{ ID := 1, Name := "app1" }], .identifiers [{ ID := 2, Name := "app2" }],
         .identifiers [{ ID := 3, Name := "app3" }]] ∧
    (DeleteClient sampleManager acmeThreeClients "acme" "app1").1 = none ∧
    listSlots (DeleteClient sampleManager acmeThreeClients "acme" "app1").2
        (realmClientsKey "ferrum" "acme")
      = [.identifiers [{ ID := 3, Name := "app3" }, { ID := 2, Name := "app2" }]] ∧
    membership sampleManager (DeleteClient sampleManager acmeThreeClients "acme" "app1").2 "acme"
      = some [{ ID := 3, Name := "app3" }, { ID := 2, Name := "app2" }] := by
  decide

/-- C14, amended: every slot the three operations write holds a JSON array of
membership entries.  A successful `CreateClient` appends one slot holding the
array of the one new entry.  A successful `DeleteClient` replaces all slots by
one slot holding the array of all remaining entries when the list reads as `l`
and holds an entry of the name, and leaves the slots as they were when it holds
none (or does not decode).  A successful `UpdateClient` found a record `old`:
when `clientNew` has the id and the name of `old` the slots stay as they were;
otherwise one slot holding the array of the one new entry is appended to what
the deletion of `old.Name` left. -/
theorem membership_slots_hold_arrays (mn : RedisDataManager) (s : Redis)
    (realmName clientName : String) (clientNew : Client) :
    ((CreateClient mn s realmName clientNew).1 = none →
      listSlots (CreateClient mn s realmName clientNew).2 (realmClientsKey mn.nspace realmName)
        = listSlots s (realmClientsKey mn.nspace realmName)
          ++ [.identifiers [{ ID := clientNew.ID, Name := clientNew.Name }]]) ∧
    ((DeleteClient mn s realmName clientName).1 = none →
      (∀ l rest, membership mn s realmName = some l → removeByName l clientName = some rest →
        listSlots (DeleteClient mn s realmName clientName).2
          (realmClientsKey mn.nspace realmName) = [.identifiers rest]) ∧
      ((∀ l, membership mn s realmName = some l → removeByName l clientName = none) →
        listSlots (DeleteClient mn s realmName clientName).2
          (realmClientsKey mn.nspace realmName)
          = listSlots s (realmClientsKey mn.nspace realmName))) ∧
    ((UpdateClient mn s realmName clientName clientNew).1 = none →
      ∃ old, storedClient mn s realmName clientName = some old ∧
        (clientNew.ID = old.ID ∧ clientNew.Name = old.Name →
          listSlots (UpdateClient mn s realmName clientName clientNew).2
              (realmClientsKey mn.nspace realmName)
            = listSlots s (realmClientsKey mn.nspace realmName)) ∧
        (clientNew.ID ≠ old.ID ∨ clientNew.Name ≠ old.Name →
          (∀ l rest, membership mn s realmName = some l →
            removeByName l old.Name = some rest →
            listSlots (UpdateClient mn s realmName clientName clientNew).2
                (realmClientsKey mn.nspace realmName)
              = [.identifiers rest,
                  .identifiers [{ ID := clientNew.ID, Name := clientNew.Name }]]) ∧
          ((∀ l, membership mn s realmName = some l → removeByName l old.Name = none) →
            listSlots (UpdateClient mn s realmName clientName clientNew).2
                (realmClientsKey mn.nspace realmName)
              = listSlots s (realmClientsKey mn.nspace realmName)
                ++ [.identifiers [{ ID := clientNew.ID, Name := clientNew.Name }]]))) := by
  have hne : ∀ n, realmClientsKey mn.nspace realmName ≠ clientKey mn.nspace realmName n :=
    fun n => realmClientsKey_ne_clientKey mn.nspace realmName n mn.nspace realmName
  have hdel : ∀ (t : Redis) (n : String), (DeleteClient mn t realmName n).1 = none →
      (∀ l rest, membership mn t realmName = some l → removeByName l n = some rest →
        listSlots (DeleteClient mn t realmName n).2
          (realmClientsKey mn.nspace realmName) = [.identifiers rest]) ∧
      ((∀ l, membership mn t realmName = some l → removeByName l n = none) →
        listSlots (DeleteClient mn t realmName n).2 (realmClientsKey mn.nspace realmName)
          = listSlots t (realmClientsKey mn.nspace realmName)) := by
    intro t n h
    rcases (DeleteClient_ok mn t realmName n h).2.2 with
      ⟨hkeep, hnone⟩ | ⟨l, rest, hl, _, hrem, hkv⟩
    · refine ⟨fun l rest hl hrem => ?_, fun _ => by simp only [listSlots, hkeep]⟩
      rw [hnone l hl] at hrem
      simp at hrem
    · refine ⟨fun l2 rest2 hl2 hrem2 => ?_, fun hall => ?_⟩
      · rw [hl] at hl2
        simp only [Option.some.injEq] at hl2
        subst hl2
        rw [hrem] at hrem2
        simp only [Option.some.injEq] at hrem2
        subst hrem2
        simp only [listSlots, hkv]
      · rw [hall l hl] at hrem
        simp at hrem
  refine ⟨fun h => ?_, hdel s clientName, fun h => ?_⟩
  · have hk := (CreateClient_ok mn s realmName clientNew h).2.2.2 (realmClientsKey mn.nspace realmName)
    rw [if_pos rfl] at hk
    conv_lhs => rw [listSlots, hk]
  · obtain ⟨old, hold, hcase⟩ := UpdateClient_ok mn s realmName clientName clientNew h
    refine ⟨old, by simp only [storedClient, hold], ?_⟩
    rcases hcase with ⟨hid, hname, hkv⟩ | ⟨hdiff, s1, hs1, hd, ha, hkv⟩
    · refine ⟨fun _ => ?_, fun hdiff => ?_⟩
      · have hk := hkv (realmClientsKey mn.nspace realmName)
        rw [if_neg (hne _)] at hk
        simp only [listSlots, hk]
      · rcases hdiff with h1 | h1
        · exact absurd hid h1
        · exact absurd hname h1
    · refine ⟨fun hsame => ?_, fun _ => ?_⟩
      · rcases hdiff with h1 | h1
        · exact absurd hsame.1 h1
        · exact absurd hsame.2 h1
      · have hk := hkv (realmClientsKey mn.nspace realmName)
        rw [if_neg (hne _), (addClientToRealm_ok mn _ realmName clientNew ha).2, if_pos rfl] at hk
        have hl1 : listSlots s1 (realmClientsKey mn.nspace realmName)
            = listSlots s (realmClientsKey mn.nspace realmName) := by
          simp only [listSlots, hs1]
        have hm1 : membership mn s1 realmName = membership mn s realmName := by
          simp only [membership, hs1]
        obtain ⟨hfound, hkeep⟩ := hdel s1 old.Name hd
        refine ⟨fun l rest hl hrem => ?_, fun hall => ?_⟩
        · conv_lhs => rw [listSlots, hk]
          simp only
          rw [hfound l rest (by rw [hm1]; exact hl) hrem]
          rfl
        · conv_lhs => rw [listSlots, hk]
          simp only
          rw [hkeep (fun l hl => hall l (by rw [← hm1]; exact hl)), hl1]

theorem noSeparator_iff (text : String) : noSeparator text = true ↔ '_' ∉ text.data := by
  simp [noSeparator]

/-- Two texts cut at their first separator: equal wholes have equal parts. -/
theorem cut_at_separator (x y p q : List Char) (hx : '_' ∉ x) (hy : '_' ∉ y)
    (h : x ++ '_' :: p = y ++ '_' :: q) : x = y ∧ p = q := by
  induction x generalizing y with
  | nil =>
    cases y with
    | nil => simpa using h
    | cons b y =>
      simp only [List.nil_append, List.cons_append, List.cons.injEq] at h
      simp [← h.1] at hy
  | cons a x ih =>
    cases y with
    | nil =>
      simp only [List.nil_append, List.cons_append, List.cons.injEq] at h
      simp [h.1] at hx
    | cons b y =>
      simp only [List.cons_append, List.cons.injEq] at h
      simp only [List.mem_cons, not_or] at hx hy
      obtain ⟨hxy, hpq⟩ := ih y hx.2 hy.2 h.2
      exact ⟨by rw [h.1, hxy], hpq⟩

/-- C17 as stated fails: a realm named `a_clients` has the key of the client
list of the realm `a`; the realm `b_c` of the namespace `a` has the key of the
realm `c` of the namespace `a_b`; and a client key of one realm is the client
key of another. -/
theorem keys_with_separator_collide :
    realmKey "ferrum" "a_clients" = realmClientsKey "ferrum" "a" ∧
    "a_clients" ≠ "a" ∧
    realmKey "a" "b_c" = realmKey "a_b" "c" ∧
    clientKey "ferrum" "a" "b_c" = clientKey "ferrum" "a_b" "c" ∧
    userKey "ferrum" "a" "b_c" = userKey "ferrum" "a_b" "c" ∧
    StoreKey.text (.realm "ferrum" "a_clients") = StoreKey.text (.realmClients "ferrum" "a") ∧
    StoreKey.realm "ferrum" "a_clients" ≠ StoreKey.realmClients "ferrum" "a" := by
  decide

/-- C17, amended: when the namespaces and the realm names are free of the
separator `_`, two keys built by the templates (realm, realm client list, client, user)
are equal only if they are built for the same kind, the same namespace, the
same realm and the same entity name. -/
theorem plain_keys_collision_free (a b : StoreKey) (ha : a.plain = true)
    (hb : b.plain = true) : a.text = b.text ↔ a = b := by
  refine ⟨fun h => ?_, fun h => by rw [h]⟩
  have hd := congrArg String.data h
  cases a <;> cases b <;>
    simp only [StoreKey.plain, Bool.and_eq_true, noSeparator_iff] at ha hb <;>
    simp only [StoreKey.text, realmKey, realmClientsKey, clientKey, userKey,
      String.data_append, List.append_assoc] at hd
  all_goals first | (simp at hd; done) | skip
  · simp at hd
    obtain ⟨h1, h2⟩ := cut_at_separator _ _ _ _ ha.1 hb.1 hd
    rw [String.ext h1, String.ext h2]
  · simp at hd
    obtain ⟨_, h2⟩ := cut_at_separator _ _ _ _ ha.1 hb.1 hd
    exact absurd (by rw [h2]; simp) ha.2
  · simp at hd
    obtain ⟨_, h2⟩ := cut_at_separator _ _ _ _ ha.1 hb.1 hd
    exact absurd (by rw [← h2]; simp) hb.2
  · simp at hd
    obtain ⟨h1, h2⟩ := cut_at_separator _ _ _ _ ha.1 hb.1 hd
    rw [String.ext h1, String.ext (List.append_cancel_right h2)]
  · simp at hd
    obtain ⟨h1, h2⟩ := cut_at_separator _ _ _ _ ha.1 hb.1 hd
    obtain ⟨h3, h4⟩ := cut_at_separator _ _ _ _ ha.2 hb.2 h2
    rw [String.ext h1, String.ext h3, String.ext h4]
  · simp at hd
    obtain ⟨h1, h2⟩ := cut_at_separator _ _ _ _ ha.1 hb.1 hd
    obtain ⟨h3, h4⟩ := cut_at_separator _ _ _ _ ha.2 hb.2 h2
    rw [String.ext h1, String.ext h3, String.ext h4]

theorem plain_keys_collision_free_witness :
    StoreKey.text (.realm "ferrum" "acme") = StoreKey.text (.realmClients "ferrum" "acme")
      ↔ StoreKey.realm "ferrum" "acme" = StoreKey.realmClients "ferrum" "acme" :=
  plain_keys_collision_free (.realm "ferrum" "acme") (.realmClients "ferrum" "acme")
    (by decide) (by decide)

/-- C18: on a store whose realm key holds the text `x`, which is not JSON, the
one-result `getObjectFromRedis`, and `GetRealm` through it, returns an object
and not `nil`: the object `json.Unmarshal` left, which is the zero realm when
the call fails and leaves the object as it was; for the realm whose key is
absent it returns `nil`.  In general, whenever the key holds a string and the
request is not hit by a transport failure it returns the object
`json.Unmarshal` left, whether or not the call failed. -/
theorem decode_error_returns_object :
    (∀ unmarshal : Doc → Realm → Bool × Realm,
      (managers.GetRealm unmarshal malformedRealmStore "acme").1
        = some (unmarshal (.raw "x") Realm.zero).2 ∧
      (managers.GetRealm unmarshal malformedRealmStore "acme").1 ≠ none ∧
      (unmarshal (.raw "x") Realm.zero = (true, Realm.zero) →
        (managers.GetRealm unmarshal malformedRealmStore "acme").1 = some Realm.zero) ∧
      (managers.GetRealm unmarshal malformedRealmStore "other").1 = none) ∧
    (∀ (unmarshal : Doc → Realm → Bool × Realm) (s : Redis) (key : String) (d : Doc),
      s.faults.head? ≠ some true → s.kv key = some (.str d) →
      (managers.getObjectFromRedis unmarshal Realm.zero s key).1
        = some (unmarshal d Realm.zero).2) := by
  have hgen : ∀ (unmarshal : Doc → Realm → Bool × Realm) (s : Redis) (key : String) (d : Doc),
      s.faults.head? ≠ some true → s.kv key = some (.str d) →
      (managers.getObjectFromRedis unmarshal Realm.zero s key).1
        = some (unmarshal d Realm.zero).2 := by
    intro unmarshal s key d hf hk
    simp only [managers.getObjectFromRedis, roundTrip_of_head s hf, hk]
  refine ⟨fun unmarshal => ?_, hgen⟩
  have hrun : (managers.GetRealm unmarshal malformedRealmStore "acme").1
      = some (unmarshal (.raw "x") Realm.zero).2 :=
    hgen unmarshal malformedRealmStore (managers.realmKey "acme") (.raw "x") (by decide)
      (by decide)
  refine ⟨hrun, by rw [hrun]; simp, fun hleft => by rw [hrun, hleft], ?_⟩
  have hk : malformedRealmStore.kv (managers.realmKey "other") = none := by decide
  simp only [managers.GetRealm, managers.getObjectFromRedis,
    roundTrip_nil malformedRealmStore rfl, hk]

/-- C19: `GetUser` of the package `managers` never returns `nil`: for every
store, realm and user name it returns the user `data.CreateUser` builds from
whatever the lookup gave; on the empty store, where no user key is bound, it
returns the user built from `nil`, while `GetRealm` returns `nil` there. -/
theorem GetUser_absent_returns_user {User : Type} (CreateUser : Option (Option Doc) → User) :
    (managers.GetUser CreateUser emptyStore acme "alice").1 = some (CreateUser none) ∧
    emptyStore.kv (managers.userKey "alice") = none ∧
    (∀ unmarshal : Doc → Realm → Bool × Realm,
      (managers.GetRealm unmarshal emptyStore "acme").1 = none) ∧
    (∀ (s : Redis) (realm : Realm) (userName : String),
      (managers.GetUser CreateUser s realm userName).1
        = some (CreateUser (managers.getObjectFromRedis unmarshalAny none s
            (managers.userKey userName)).1)) := by
  refine ⟨rfl, rfl, fun unmarshal => rfl, fun s realm userName => ?_⟩
  simp only [managers.GetUser]

theorem putAll_faults (s : Redis) (entries : List (String × Entry)) :
    (s.putAll entries).faults = s.faults := by
  induction entries generalizing s with
  | nil => rfl
  | cons e rest ih => simpa [Redis.putAll, Redis.put] using ih (s.put e.1 e.2)

theorem putAll_kv_of_not_mem (s : Redis) (entries : List (String × Entry)) (k : String)
    (h : ∀ e ∈ entries, e.1 ≠ k) : (s.putAll entries).kv k = s.kv k := by
  induction entries generalizing s with
  | nil => rfl
  | cons e rest ih =>
    have h1 : k ≠ e.1 := fun hk => h e (List.mem_cons_self e rest) hk.symm
    have h2 := ih (s.put e.1 e.2) (fun x hx => h x (List.mem_cons_of_mem e hx))
    simp only [Redis.putAll, List.foldl_cons] at h2 ⊢
    rw [h2]
    simp [Redis.put, h1]

theorem putAll_kv_of_mem (s : Redis) (entries : List (String × Entry))
    (hnd : (entries.map Prod.fst).Nodup) (e : String × Entry) (he : e ∈ entries) :
    (s.putAll entries).kv e.1 = some e.2 := by
  induction entries generalizing s with
  | nil => simp at he
  | cons x rest ih =>
    simp only [List.map_cons, List.nodup_cons, List.mem_map, not_exists, not_and] at hnd
    rcases List.mem_cons.mp he with rfl | hrest
    · have h2 := putAll_kv_of_not_mem (s.put e.1 e.2) rest e.1 (fun y hy => hnd.1 y hy)
      simp only [Redis.putAll, List.foldl_cons] at h2 ⊢
      rw [h2]
      simp [Redis.put]
    · have h2 := ih (s.put x.1 x.2) hnd.2 hrest
      simpa only [Redis.putAll, List.foldl_cons] using h2

theorem putAll_kv_bound (s : Redis) (entries : List (String × Entry)) (k : String)
    (h : ∃ e ∈ entries, e.1 = k) : (s.putAll entries).kv k ≠ none := by
  induction entries generalizing s with
  | nil =>
    obtain ⟨e, he, _⟩ := h
    simp at he
  | cons x rest ih =>
    by_cases hrest : ∃ e ∈ rest, e.1 = k
    · have h2 := ih (s.put x.1 x.2) hrest
      simpa only [Redis.putAll, List.foldl_cons] using h2
    · have hx : x.1 = k := by
        obtain ⟨e, he, hek⟩ := h
        rcases List.mem_cons.mp he with rfl | he'
        · exact hek
        · exact absurd ⟨e, he', hek⟩ hrest
      have h2 := putAll_kv_of_not_mem (s.put x.1 x.2) rest k
        (fun e he hek => hrest ⟨e, he, hek⟩)
      simp only [Redis.putAll, List.foldl_cons] at h2 ⊢
      rw [h2]
      simp [Redis.put, hx]

theorem removeAll_faults (s : Redis) (keys : List String) :
    (s.removeAll keys).faults = s.faults := by
  induction keys generalizing s with
  | nil => rfl
  | cons k rest ih => simpa [Redis.removeAll, Redis.remove] using ih (s.remove k)

theorem removeAll_kv (s : Redis) (keys : List String) (k : String) :
    (s.removeAll keys).kv k = if k ∈ keys then none else s.kv k := by
  induction keys generalizing s with
  | nil => simp [Redis.removeAll]
  | cons x rest ih =>
    have h2 := ih (s.remove x)
    simp only [Redis.removeAll, List.foldl_cons] at h2 ⊢
    rw [h2]
    by_cases h1 : k ∈ rest
    · simp [h1]
    · by_cases h3 : k = x <;> simp [h1, h3, Redis.remove]

theorem createRealmClientRecords_nil (mn : RedisDataManager) (realmName : String)
    (clients : List Client) (s : Redis) (hf : s.faults = []) :
    createRealmClientRecords mn realmName clients s =
      (none, s.putAll (clients.map
        (fun c => (clientKey mn.nspace realmName c.Name, Entry.str (.client c))))) := by
  induction clients generalizing s with
  | nil => rfl
  | cons c rest ih =>
    simp only [createRealmClientRecords, createClientRedis_nil mn s realmName c.Name _ hf]
    rw [ih _ (by simpa [Redis.put] using hf)]
    rfl

theorem createRealmUserRecords_nil (mn : RedisDataManager) (userName : String → String)
    (realmName : String) (users : List String) (s : Redis) (hf : s.faults = []) :
    createRealmUserRecords mn userName realmName users s =
      (none, s.putAll (users.map
        (fun u => (userKey mn.nspace realmName (userName u), Entry.str (.user u))))) := by
  induction users generalizing s with
  | nil => rfl
  | cons u rest ih =>
    simp only [createRealmUserRecords, setString_nil s _ _ hf]
    rw [ih _ (by simpa [Redis.put] using hf)]
    rfl

theorem deleteRealmClientRecords_nil (mn : RedisDataManager) (realmName : String)
    (clients : List Client) (s : Redis) (hf : s.faults = [])
    (hnd : (clients.map (fun c => c.Name)).Nodup)
    (hbound : ∀ c ∈ clients, s.kv (clientKey mn.nspace realmName c.Name) ≠ none) :
    deleteRealmClientRecords mn realmName clients s =
      (none, s.removeAll (clients.map (fun c => clientKey mn.nspace realmName c.Name))) := by
  induction clients generalizing s with
  | nil => rfl
  | cons c rest ih =>
    simp only [List.map_cons, List.nodup_cons, List.mem_map, not_exists, not_and] at hnd
    have hc := hbound c (List.mem_cons_self c rest)
    obtain ⟨e, he⟩ := Option.ne_none_iff_exists'.mp hc
    simp only [deleteRealmClientRecords, deleteClientRedis_nil mn s realmName c.Name hf, he]
    rw [ih _ (by simpa [Redis.remove] using hf) hnd.2]
    · rfl
    · intro x hx
      have hne : clientKey mn.nspace realmName x.Name ≠ clientKey mn.nspace realmName c.Name :=
        fun h => hnd.1 x hx (clientKey_inj _ _ _ _ h)
      simpa [Redis.remove, hne] using hbound x (List.mem_cons_of_mem c hx)

theorem userKey_inj (ns r a b : String) (h : userKey ns r a = userKey ns r b) : a = b := by
  unfold userKey at h
  have := congrArg String.data h
  simp only [String.data_append, List.append_assoc] at this
  exact String.ext (List.append_cancel_left (List.append_cancel_left
    (List.append_cancel_left (List.append_cancel_left (List.append_cancel_left this)))))

theorem userKey_ne_clientKey (ns r u ns2 r2 c : String) : userKey ns r u ≠ clientKey ns2 r2 c := by
  intro h
  have := congrArg String.data h
  simp [userKey, clientKey, String.data_append] at this

theorem userKey_ne_realmKey (ns r u ns2 r2 : String) : userKey ns r u ≠ realmKey ns2 r2 := by
  intro h
  have := congrArg String.data h
  simp [userKey, realmKey, String.data_append] at this

theorem userKey_ne_realmClientsKey (ns r u ns2 r2 : String) :
    userKey ns r u ≠ realmClientsKey ns2 r2 := by
  intro h
  have := congrArg String.data h
  simp [userKey, realmClientsKey, String.data_append] at this

theorem deleteRealmUserRecords_nil (mn : RedisDataManager) (userName : String → String)
    (realmName : String) (users : List String) (s : Redis) (hf : s.faults = [])
    (hnd : (users.map userName).Nodup)
    (hbound : ∀ u ∈ users, s.kv (userKey mn.nspace realmName (userName u)) ≠ none) :
    deleteRealmUserRecords mn userName realmName users s =
      (none, s.removeAll (users.map (fun u => userKey mn.nspace realmName (userName u)))) := by
  induction users generalizing s with
  | nil => rfl
  | cons u rest ih =>
    simp only [List.map_cons, List.nodup_cons, List.mem_map, not_exists, not_and] at hnd
    have hu := hbound u (List.mem_cons_self u rest)
    obtain ⟨e, he⟩ := Option.ne_none_iff_exists'.mp hu
    simp only [deleteRealmUserRecords, delKey_nil s _ hf, he]
    rw [ih _ (by simpa [Redis.remove] using hf) hnd.2]
    · rfl
    · intro x hx
      have hne : userKey mn.nspace realmName (userName x)
          ≠ userKey mn.nspace realmName (userName u) :=
        fun h => hnd.1 x hx (userKey_inj _ _ _ _ h)
      simpa [Redis.remove, hne] using hbound x (List.mem_cons_of_mem u hx)

/-- The store after `CreateRealm` of a realm whose key was free, no transport
failure pending: the call succeeds, the realm document is under the realm key,
the membership list is one slot holding the entries of all clients, every
client is under its client key (the names being distinct), and every user key
is bound. -/
theorem CreateRealm_fresh (mn : RedisDataManager) (userName : String → String) (s : Redis)
    (newRealm : Realm) (hf : s.faults = [])
    (hfree : s.kv (realmKey mn.nspace newRealm.Name) = none)
    (hnd : (newRealm.Clients.map (fun c => c.Name)).Nodup) :
    (CreateRealm mn userName s newRealm).1 = none ∧
    (CreateRealm mn userName s newRealm).2.faults = [] ∧
    (CreateRealm mn userName s newRealm).2.kv (realmKey mn.nspace newRealm.Name)
      = some (.str (.realm newRealm)) ∧
    (CreateRealm mn userName s newRealm).2.kv (realmClientsKey mn.nspace newRealm.Name)
      = some (.list [.identifiers (newRealm.Clients.map Client.identifier)]) ∧
    (∀ c ∈ newRealm.Clients,
      (CreateRealm mn userName s newRealm).2.kv (clientKey mn.nspace newRealm.Name c.Name)
        = some (.str (.client c))) ∧
    (∀ u ∈ newRealm.Users,
      (CreateRealm mn userName s newRealm).2.kv
        (userKey mn.nspace newRealm.Name (userName u)) ≠ none) := by
  obtain ⟨s2, hs2⟩ : ∃ s2, s2 = s.putAll (newRealm.Clients.map
      (fun c => (clientKey mn.nspace newRealm.Name c.Name, Entry.str (.client c)))) := ⟨_, rfl⟩
  have h2 : createRealmClientRecords mn newRealm.Name newRealm.Clients s = (none, s2) := by
    rw [hs2]
    exact createRealmClientRecords_nil mn newRealm.Name newRealm.Clients s hf
  have hf2 : s2.faults = [] := by rw [hs2, putAll_faults]; exact hf
  obtain ⟨s3, h3, hf3, h3kv⟩ : ∃ s3,
      createRealmClients mn s2 newRealm.Name (newRealm.Clients.map Client.identifier) true
        = (none, s3) ∧ s3.faults = [] ∧
      ∀ k, s3.kv k = if k = realmClientsKey mn.nspace newRealm.Name then
        some (.list [.identifiers (newRealm.Clients.map Client.identifier)]) else s2.kv k := by
    refine ⟨_, createRealmClients_rewrite_nil mn s2 _ _ hf2, ?_, fun k => ?_⟩
    · cases s2.kv (realmClientsKey mn.nspace newRealm.Name) <;>
        simpa [Redis.put, Redis.remove] using hf2
    · cases hk : s2.kv (realmClientsKey mn.nspace newRealm.Name) <;>
        by_cases hkk : k = realmClientsKey mn.nspace newRealm.Name <;>
        simp [Redis.put, Redis.remove, hkk, hk]
  obtain ⟨s4, hs4⟩ : ∃ s4, s4 = s3.putAll (newRealm.Users.map
      (fun u => (userKey mn.nspace newRealm.Name (userName u), Entry.str (.user u)))) := ⟨_, rfl⟩
  have h4 : createRealmUserRecords mn userName newRealm.Name newRealm.Users s3 = (none, s4) := by
    rw [hs4]
    exact createRealmUserRecords_nil mn userName newRealm.Name newRealm.Users s3 hf3
  have hf4 : s4.faults = [] := by rw [hs4, putAll_faults]; exact hf3
  have hres : CreateRealm mn userName s newRealm
      = (none, s4.put (realmKey mn.nspace newRealm.Name) (.str (.realm newRealm))) := by
    simp [CreateRealm, GetRealm_of_absent mn s _ hf hfree, GoError.Is, h2, h3, h4,
      setString_nil s4 _ _ hf4]
  have hlist : realmClientsKey mn.nspace newRealm.Name ≠ realmKey mn.nspace newRealm.Name :=
    fun h => realmKey_ne_realmClientsKey _ _ h.symm
  have hkv4 : ∀ k, (∀ u ∈ newRealm.Users, userKey mn.nspace newRealm.Name (userName u) ≠ k) →
      s4.kv k = s3.kv k := by
    intro k hk
    rw [hs4]
    refine putAll_kv_of_not_mem s3 _ k (fun e he => ?_)
    obtain ⟨u, hu, rfl⟩ := List.mem_map.mp he
    exact hk u hu
  rw [hres]
  refine ⟨rfl, by simpa [Redis.put] using hf4, by simp [Redis.put], ?_, fun c hc => ?_,
    fun u hu => ?_⟩
  · simp only [Redis.put, if_neg hlist]
    rw [hkv4 _ (fun u _ => userKey_ne_realmClientsKey _ _ _ _ _), h3kv, if_pos rfl]
  · simp only [Redis.put, if_neg (clientKey_ne_realmKey _ _ _ _ _)]
    rw [hkv4 _ (fun u _ => userKey_ne_clientKey _ _ _ _ _ _), h3kv,
      if_neg (clientKey_ne_realmClientsKey _ _ _ _ _), hs2]
    have hmem : (clientKey mn.nspace newRealm.Name c.Name, Entry.str (.client c)) ∈
        newRealm.Clients.map
          (fun c => (clientKey mn.nspace newRealm.Name c.Name, Entry.str (.client c))) :=
      List.mem_map.mpr ⟨c, hc, rfl⟩
    refine putAll_kv_of_mem s _ ?_ _ hmem
    rw [List.map_map]
    have hinj : Function.Injective (clientKey mn.nspace newRealm.Name) :=
      fun a b h => clientKey_inj _ _ _ _ h
    have := List.Nodup.map hinj hnd
    simpa [List.map_map, Function.comp] using this
  · simp only [Redis.put, if_neg (userKey_ne_realmKey _ _ _ _ _)]
    rw [hs4]
    exact putAll_kv_bound s3 _ _ ⟨_, List.mem_map.mpr ⟨u, hu, rfl⟩, rfl⟩

theorem resolveClients_length (mn : RedisDataManager) (realmName : String)
    (l : List ExtendedIdentifier) (s : Redis) (clients : List Client)
    (h : (resolveClients mn realmName l s).1 = .ok clients) : clients.length = l.length := by
  induction l generalizing s clients with
  | nil =>
    simp only [resolveClients, Except.ok.injEq] at h
    subst h
    rfl
  | cons x rest ih =>
    rcases hg : GetClient mn s realmName x.Name with ⟨(e | c), s1⟩
    · simp [resolveClients, hg] at h
    · rcases hr : resolveClients mn realmName rest s1 with ⟨(e | cs), s2⟩
      · simp [resolveClients, hg, hr] at h
      · simp only [resolveClients, hg, hr, Except.ok.injEq] at h
        have := ih s1 cs (by rw [hr])
        rw [← h]
        simp [this]

/-- A successful `GetClientsFromRealm` never returns the empty slice. -/
theorem GetClientsFromRealm_nonempty (mn : RedisDataManager) (s : Redis) (realmName : String)
    (clients : List Client) (h : (GetClientsFromRealm mn s realmName).1 = .ok clients) :
    clients ≠ [] := by
  rcases hg : getRealmClients mn s realmName with ⟨(e | l), s1⟩
  · simp [GetClientsFromRealm, hg] at h
  · have hl := (getRealmClients_ok mn s realmName l (by rw [hg])).2
    simp only [GetClientsFromRealm, hg] at h
    have hlen := resolveClients_length mn realmName l s1 clients h
    intro hc
    rw [hc] at hlen
    exact hl (List.length_eq_zero.mp hlen.symm)

/-- C16 as stated fails for `n = 0`: after `CreateRealm` of a realm without
clients `GetClientsFromRealm` returns the error `ErrZeroLength` and no client
set; and on no store at all does `GetClientsFromRealm` return the empty set. -/
theorem realm_without_clients_has_no_client_set :
    acmeNoClients.Clients = [] ∧
    (CreateRealm sampleManager sampleUserName emptyStore acmeNoClients).1 = none ∧
    (GetClientsFromRealm sampleManager
        (CreateRealm sampleManager sampleUserName emptyStore acmeNoClients).2 "acme").1
      = .error (.wrap "getRealmClients failed" (.sentinel .ErrZeroLength)) ∧
    ¬ ∃ (mn : RedisDataManager) (s : Redis) (realmName : String),
      (GetClientsFromRealm mn s realmName).1 = .ok [] :=
  ⟨rfl, by decide, rfl,
    fun ⟨mn, s, realmName, h⟩ => GetClientsFromRealm_nonempty mn s realmName [] h rfl⟩

/-- C16, amended: for a realm whose client names are pairwise distinct and
whose user names are pairwise distinct, on a store that does not hold the realm
and with no transport failure pending, `CreateRealm` succeeds; then `GetRealm`
returns the realm (the same name, the same clients), `GetClientsFromRealm`
returns exactly the clients of the realm when there is at least one and fails
with `ErrZeroLength` when there is none, `GetUsers` returns the users of the
realm, and `DeleteRealm` succeeds, after which `GetRealm` fails with
`ErrNotFound`. -/
theorem realm_round_trip (mn : RedisDataManager) (userName : String → String) (s : Redis)
    (newRealm : Realm) (hf : s.faults = [])
    (hfree : s.kv (realmKey mn.nspace newRealm.Name) = none)
    (hclients : (newRealm.Clients.map (fun c => c.Name)).Nodup)
    (husers : (newRealm.Users.map userName).Nodup) :
    (CreateRealm mn userName s newRealm).1 = none ∧
    GetRealm mn (CreateRealm mn userName s newRealm).2 newRealm.Name
      = (.ok newRealm, (CreateRealm mn userName s newRealm).2) ∧
    (newRealm.Clients ≠ [] →
      GetClientsFromRealm mn (CreateRealm mn userName s newRealm).2 newRealm.Name
        = (.ok newRealm.Clients, (CreateRealm mn userName s newRealm).2)) ∧
    (newRealm.Clients = [] →
      (GetClientsFromRealm mn (CreateRealm mn userName s newRealm).2 newRealm.Name).1
        = .error (.wrap "getRealmClients failed" (.sentinel .ErrZeroLength))) ∧
    GetUsers mn (CreateRealm mn userName s newRealm).2 newRealm.Name
      = (.ok newRealm.Users, (CreateRealm mn userName s newRealm).2) ∧
    (DeleteRealm mn userName (CreateRealm mn userName s newRealm).2 newRealm.Name).1 = none ∧
    ∃ err, (GetRealm mn
        (DeleteRealm mn userName (CreateRealm mn userName s newRealm).2 newRealm.Name).2
        newRealm.Name).1 = .error err ∧ err.Is .ErrNotFound = true := by
  obtain ⟨hok, hf1, hrealm, hlist, hrec, husr⟩ :=
    CreateRealm_fresh mn userName s newRealm hf hfree hclients
  generalize (CreateRealm mn userName s newRealm).2 = s1 at hf1 hrealm hlist hrec husr ⊢
  have hget := GetRealm_of_stored mn s1 newRealm.Name newRealm hf1 hrealm
  have hmem : membership mn s1 newRealm.Name = some (newRealm.Clients.map Client.identifier) := by
    simp [membership, hlist, decodeSlots, decodeIdentifiers]
  have hgrc := getRealmClients_of_membership mn s1 newRealm.Name _ hf1 hmem
  refine ⟨hok, hget, fun hne => ?_, fun hnil => ?_, by simp only [GetUsers, hget], ?_⟩
  · have hlen : (newRealm.Clients.map Client.identifier).length ≠ 0 := by
      simpa using hne
    rw [if_neg hlen] at hgrc
    obtain ⟨clients, hres, hmap⟩ := resolveClients_all_stored mn newRealm.Name
      (newRealm.Clients.map Client.identifier) s1 hf1 (by
        intro e he
        obtain ⟨c, hc, rfl⟩ := List.mem_map.mp he
        exact ⟨c, by simp [storedClient, Client.identifier, hrec c hc]⟩)
    have hcl : clients = newRealm.Clients := by
      apply List.map_injective_iff.mpr (Option.some_injective Client)
      rw [hmap, List.map_map]
      refine (List.map_congr_left (fun c hc => ?_)).symm
      simp [storedClient, Client.identifier, hrec c hc]
    simp only [GetClientsFromRealm, hgrc, hres, hcl]
  · have hlen : (newRealm.Clients.map Client.identifier).length = 0 := by
      simp [hnil]
    rw [if_pos hlen] at hgrc
    simp only [GetClientsFromRealm, hgrc]
  · have hck : ∀ k, k ∈ newRealm.Clients.map (fun c => clientKey mn.nspace newRealm.Name c.Name) →
        ∃ c, k = clientKey mn.nspace newRealm.Name c := by
      intro k hk
      obtain ⟨c, _, rfl⟩ := List.mem_map.mp hk
      exact ⟨c.Name, rfl⟩
    have huk : ∀ k, k ∈ newRealm.Users.map
        (fun u => userKey mn.nspace newRealm.Name (userName u)) →
        ∃ u, k = userKey mn.nspace newRealm.Name u := by
      intro k hk
      obtain ⟨u, _, rfl⟩ := List.mem_map.mp hk
      exact ⟨userName u, rfl⟩
    have hlistc : realmClientsKey mn.nspace newRealm.Name ∉
        newRealm.Clients.map (fun c => clientKey mn.nspace newRealm.Name c.Name) := by
      intro hk
      obtain ⟨c, hc⟩ := hck _ hk
      exact realmClientsKey_ne_clientKey _ _ _ _ _ hc
    have hlistu : realmClientsKey mn.nspace newRealm.Name ∉
        newRealm.Users.map (fun u => userKey mn.nspace newRealm.Name (userName u)) := by
      intro hk
      obtain ⟨u, hu⟩ := huk _ hk
      exact userKey_ne_realmClientsKey _ _ _ _ _ hu.symm
    have hrealmc : realmKey mn.nspace newRealm.Name ∉
        newRealm.Clients.map (fun c => clientKey mn.nspace newRealm.Name c.Name) := by
      intro hk
      obtain ⟨c, hc⟩ := hck _ hk
      exact realmKey_ne_clientKey _ _ _ _ _ hc
    have hrealmu : realmKey mn.nspace newRealm.Name ∉
        newRealm.Users.map (fun u => userKey mn.nspace newRealm.Name (userName u)) := by
      intro hk
      obtain ⟨u, hu⟩ := huk _ hk
      exact userKey_ne_realmKey _ _ _ _ _ hu.symm
    have huserc : ∀ u, userKey mn.nspace newRealm.Name u ∉
        newRealm.Clients.map (fun c => clientKey mn.nspace newRealm.Name c.Name) := by
      intro u hk
      obtain ⟨c, hc⟩ := hck _ hk
      exact userKey_ne_clientKey _ _ _ _ _ _ hc
    -- the client records
    obtain ⟨s2, hs2⟩ : ∃ s2, s2 = s1.removeAll
        (newRealm.Clients.map (fun c => clientKey mn.nspace newRealm.Name c.Name)) := ⟨_, rfl⟩
    have h2 : deleteRealmClientRecords mn newRealm.Name newRealm.Clients s1 = (none, s2) := by
      rw [hs2]
      exact deleteRealmClientRecords_nil mn newRealm.Name newRealm.Clients s1 hf1 hclients
        (fun c hc => by rw [hrec c hc]; simp)
    have hf2 : s2.faults = [] := by rw [hs2, removeAll_faults]; exact hf1
    have hkv2 : ∀ k, k ∉ newRealm.Clients.map
        (fun c => clientKey mn.nspace newRealm.Name c.Name) → s2.kv k = s1.kv k := by
      intro k hk
      rw [hs2, removeAll_kv, if_neg hk]
    -- the membership list
    have h3 : deleteRealmClientsRedis mn s2 newRealm.Name
        = (none, s2.remove (realmClientsKey mn.nspace newRealm.Name)) := by
      simp [deleteRealmClientsRedis, delKey_nil s2 _ hf2, hkv2 _ hlistc, hlist]
    -- the user documents
    obtain ⟨s4, hs4⟩ : ∃ s4, s4 = (s2.remove (realmClientsKey mn.nspace newRealm.Name)).removeAll
        (newRealm.Users.map (fun u => userKey mn.nspace newRealm.Name (userName u))) := ⟨_, rfl⟩
    have h4 : deleteRealmUserRecords mn userName newRealm.Name newRealm.Users
        (s2.remove (realmClientsKey mn.nspace newRealm.Name)) = (none, s4) := by
      rw [hs4]
      refine deleteRealmUserRecords_nil mn userName newRealm.Name newRealm.Users _ hf2 husers
        (fun u hu => ?_)
      simp only [Redis.remove, if_neg (userKey_ne_realmClientsKey _ _ _ _ _)]
      rw [hkv2 _ (huserc _)]
      exact husr u hu
    have hf4 : s4.faults = [] := by rw [hs4, removeAll_faults]; exact hf2
    have hkv4 : s4.kv (realmKey mn.nspace newRealm.Name) = some (.str (.realm newRealm)) := by
      rw [hs4, removeAll_kv, if_neg hrealmu]
      simp only [Redis.remove, if_neg (realmKey_ne_realmClientsKey _ _)]
      rw [hkv2 _ hrealmc, hrealm]
    have hres : DeleteRealm mn userName s1 newRealm.Name
        = (none, s4.remove (realmKey mn.nspace newRealm.Name)) := by
      simp [DeleteRealm, hget, h2, h3, h4, delKey_nil s4 _ hf4, hkv4]
    rw [hres]
    refine ⟨rfl, _, congrArg Prod.fst (GetRealm_of_absent mn _ newRealm.Name
      (by simpa [Redis.remove] using hf4) (by simp [Redis.remove])), by decide⟩

theorem realm_round_trip_witness :
    (CreateRealm sampleManager sampleUserName emptyStore acmeFull).1 = none ∧
    GetRealm sampleManager (CreateRealm sampleManager sampleUserName emptyStore acmeFull).2
        acmeFull.Name
      = (.ok acmeFull, (CreateRealm sampleManager sampleUserName emptyStore acmeFull).2) ∧
    (acmeFull.Clients ≠ [] →
      GetClientsFromRealm sampleManager
          (CreateRealm sampleManager sampleUserName emptyStore acmeFull).2 acmeFull.Name
        = (.ok acmeFull.Clients,
            (CreateRealm sampleManager sampleUserName emptyStore acmeFull).2)) ∧
    (acmeFull.Clients = [] →
      (GetClientsFromRealm sampleManager
          (CreateRealm sampleManager sampleUserName emptyStore acmeFull).2 acmeFull.Name).1
        = .error (.wrap "getRealmClients failed" (.sentinel .ErrZeroLength))) ∧
    GetUsers sampleManager (CreateRealm sampleManager sampleUserName emptyStore acmeFull).2
        acmeFull.Name
      = (.ok acmeFull.Users, (CreateRealm sampleManager sampleUserName emptyStore acmeFull).2) ∧
    (DeleteRealm sampleManager sampleUserName
      (CreateRealm sampleManager sampleUserName emptyStore acmeFull).2 acmeFull.Name).1 = none ∧
    ∃ err, (GetRealm sampleManager
        (DeleteRealm sampleManager sampleUserName
          (CreateRealm sampleManager sampleUserName emptyStore acmeFull).2 acmeFull.Name).2
        acmeFull.Name).1 = .error err ∧ err.Is .ErrNotFound = true :=
  realm_round_trip sampleManager sampleUserName emptyStore acmeFull rfl rfl
    (by decide) (by decide)

/-- C22: when no client record is stored under `(realmName, clientName)` (the
key is absent or holds a text that does not decode to a client) and the lookup
is not hit by a transport failure, `UpdateClient` returns the error of
`GetClient`, which wraps `ErrNotFound`, and writes nothing: every key is as
before, so no record of `clientNew` appears and the membership list of the
realm is untouched. -/
theorem UpdateClient_without_record (mn : RedisDataManager) (s : Redis)
    (realmName clientName : String) (clientNew : Client)
    (hnone : storedClient mn s realmName clientName = none)
    (hstring : s.holdsList (clientKey mn.nspace realmName clientName) = false)
    (hfault : s.faults.head? ≠ some true) :
    (∃ err, (UpdateClient mn s realmName clientName clientNew).1
        = some (.wrap "GetClient failed" err) ∧ err.Is .ErrNotFound = true) ∧
    (UpdateClient mn s realmName clientName clientNew).2.kv = s.kv ∧
    storedClient mn (UpdateClient mn s realmName clientName clientNew).2 realmName
        clientNew.Name
      = storedClient mn s realmName clientNew.Name ∧
    membership mn (UpdateClient mn s realmName clientName clientNew).2 realmName
      = membership mn s realmName := by
  have hkv := GetClient_kv mn s realmName clientName
  have herr : ∃ err, (GetClient mn s realmName clientName).1 = .error err ∧
      err.Is .ErrNotFound = true := by
    simp only [GetClient, getObjectFromRedis, roundTrip_of_head s hfault]
    cases hk : s.kv (clientKey mn.nspace realmName clientName) with
    | none => exact ⟨_, rfl, rfl⟩
    | some e =>
      cases e with
      | list slots => exact absurd hk (holdsList_false s _ hstring slots)
      | str d =>
        cases d with
        | client c => simp [storedClient, hk] at hnone
        | realm r => exact ⟨_, rfl, rfl⟩
        | identifiers l => exact ⟨_, rfl, rfl⟩
        | user u => exact ⟨_, rfl, rfl⟩
        | raw t => exact ⟨_, rfl, rfl⟩
  obtain ⟨err, hget, his⟩ := herr
  rcases hg : GetClient mn s realmName clientName with ⟨(e | c), s1⟩
  · rw [hg] at hget hkv
    simp only [Except.error.injEq] at hget
    subst hget
    simp only at hkv
    have hrun : UpdateClient mn s realmName clientName clientNew
        = (some (.wrap "GetClient failed" e), s1) := by
      simp only [UpdateClient, hg]
    rw [hrun]
    exact ⟨⟨e, rfl, his⟩, hkv, by simp only [storedClient, hkv],
      by simp only [membership, hkv]⟩
  · rw [hg] at hget
    simp at hget

theorem UpdateClient_without_record_witness :
    (∃ err, (UpdateClient sampleManager acmeUnreadable "acme" "app1" app1).1
        = some (.wrap "GetClient failed" err) ∧ err.Is .ErrNotFound = true) ∧
    (UpdateClient sampleManager acmeUnreadable "acme" "app1" app1).2.kv = acmeUnreadable.kv ∧
    storedClient sampleManager (UpdateClient sampleManager acmeUnreadable "acme" "app1" app1).2
        "acme" app1.Name
      = storedClient sampleManager acmeUnreadable "acme" app1.Name ∧
    membership sampleManager (UpdateClient sampleManager acmeUnreadable "acme" "app1" app1).2
        "acme"
      = membership sampleManager acmeUnreadable "acme" :=
  UpdateClient_without_record sampleManager acmeUnreadable "acme" "app1" app1
    (by decide) (by decide) (by decide)

/-- On the store that holds the realm `acme` and nothing else, where the client
key is absent, `UpdateClient` of `app1` fails the same way and the store is as
before. -/
theorem UpdateClient_absent_key_example :
    (UpdateClient sampleManager acmeStore "acme" "app1" app1).1
      = some (.wrap "GetClient failed"
          (.wrap "getObjectFromRedis failed" (.sentinel .ErrNotFound))) ∧
    (UpdateClient sampleManager acmeStore "acme" "app1" app1).2.kv
        (clientKey "ferrum" "acme" "app1") = none ∧
    (UpdateClient sampleManager acmeStore "acme" "app1" app1).2.kv
        (realmClientsKey "ferrum" "acme") = none := by
  decide

theorem swapRemove_at_last (A : List ExtendedIdentifier) (x : ExtendedIdentifier) :
    swapRemove (A ++ [x]) A.length = A := by
  simp [swapRemove]

theorem swapRemove_inner (A B : List ExtendedIdentifier) (x y : ExtendedIdentifier) :
    swapRemove (A ++ x :: (B ++ [y])) A.length = A ++ y :: B := by
  have hlen : (A ++ x :: (B ++ [y])).length - 1 = A.length + (B.length + 1) := by
    simp
  have hlast : (A ++ x :: (B ++ [y]))[A.length + (B.length + 1)]? = some y := by
    rw [List.getElem?_append_right (by omega)]
    simp
  have hne : A.length ≠ A.length + (B.length + 1) := by omega
  simp only [swapRemove, hlen, hlast, ne_eq, hne, not_false_eq_true, if_true]
  rw [List.set_append_right _ _ (le_refl _)]
  simp
  rw [List.take_append_eq_append_take]
  simp

/-- The entries of the swap-removal, position by position. -/
theorem swapRemove_getElem? (l : List ExtendedIdentifier) (i j : Nat) (hi : i < l.length)
    (hj : j < l.length - 1) :
    (swapRemove l i)[j]? = if j = i then l[l.length - 1]? else l[j]? := by
  have hn : l.length - 1 < l.length := by omega
  have hlast : l[l.length - 1]? = some l[l.length - 1] := List.getElem?_eq_getElem hn
  simp only [swapRemove, List.getElem?_take_of_lt hj, hlast]
  by_cases hlastidx : i = l.length - 1
  · have hji : j ≠ i := by omega
    rw [if_neg (not_not.mpr hlastidx), if_neg hji]
  · rw [if_pos hlastidx, List.getElem?_set]
    by_cases hji : j = i
    · subst hji
      simp [hi]
    · have hij : i ≠ j := fun h => hji h.symm
      simp [hij, hji]

/-- A list cut at the first entry with the name. -/
theorem split_at_first (l : List ExtendedIdentifier) (clientName : String) (i : Nat)
    (h : l.findIdx? (fun rc => rc.Name == clientName) = some i) :
    ∃ A x C, l = A ++ x :: C ∧ A.length = i ∧ x.Name = clientName ∧
      ∀ a ∈ A, a.Name ≠ clientName := by
  obtain ⟨hi, hp, hbefore⟩ := List.findIdx?_eq_some_iff_getElem.mp h
  refine ⟨l.take i, l[i], l.drop (i + 1), ?_, ?_, by simpa using hp, fun a ha => ?_⟩
  · rw [← List.drop_eq_getElem_cons hi, List.take_append_drop]
  · simp [List.length_take]; omega
  · obtain ⟨j, hj⟩ := List.mem_iff_getElem?.mp ha
    have hjl : j < i := by
      by_contra hge
      rw [List.getElem?_take] at hj
      simp [hge] at hj
    rw [List.getElem?_take_of_lt hjl] at hj
    have hjlen : j < l.length := by omega
    rw [List.getElem?_eq_getElem hjlen] at hj
    simp only [Option.some.injEq] at hj
    have := hbefore j hjl
    rw [hj] at this
    simpa using this

theorem swapRemove_perm_eraseIdx (l : List ExtendedIdentifier) (clientName : String) (i : Nat)
    (h : l.findIdx? (fun rc => rc.Name == clientName) = some i) :
    (swapRemove l i).Perm (l.eraseIdx i) ∧
    (l.countP (fun rc => rc.Name == clientName) = 1 →
      ∀ e ∈ l.eraseIdx i, e.Name ≠ clientName) := by
  obtain ⟨A, x, C, rfl, rfl, hx, hA⟩ := split_at_first l clientName i h
  have herase : (A ++ x :: C).eraseIdx A.length = A ++ C := by
    rw [List.eraseIdx_append_of_length_le (le_refl _)]
    simp
  rw [herase]
  constructor
  · rcases List.eq_nil_or_concat C with rfl | ⟨B, y, rfl⟩
    · rw [swapRemove_at_last]
      simp
    · rw [List.concat_eq_append, swapRemove_inner]
      refine List.Perm.append_left A ?_
      exact (List.perm_append_singleton y B).symm
  · intro hcount e he
    have hA0 : A.countP (fun rc => rc.Name == clientName) = 0 := by
      rw [List.countP_eq_zero]
      intro a ha
      simpa using hA a ha
    have hC0 : C.countP (fun rc => rc.Name == clientName) = 0 := by
      simp only [List.countP_append, List.countP_cons, hA0, hx, beq_self_eq_true, if_true]
        at hcount
      omega
    rcases List.mem_append.mp he with ha | hc
    · exact hA e ha
    · rw [List.countP_eq_zero] at hC0
      simpa using hC0 e hc

/-- C21 as stated fails: in `acmeTwins` the membership list holds two entries
named `app2`; `deleteClientFromRealm` of `app2` succeeds and rewrites the list
by the swap-removal at the first of them, and the rewritten list still holds an
entry named `app2`. -/
theorem swap_removal_keeps_second_entry :
    membership sampleManager acmeTwins "acme"
      = some [{ ID := 2, Name := "app2" }, { ID := 1, Name := "app2" }] ∧
    (deleteClientFromRealm sampleManager acmeTwins "acme" "app2").1 = none ∧
    membership sampleManager
        (deleteClientFromRealm sampleManager acmeTwins "acme" "app2").2 "acme"
      = some [{ ID := 1, Name := "app2" }] ∧
    ¬ ∀ e ∈ [({ ID := 1, Name := "app2" } : ExtendedIdentifier)], e.Name ≠ "app2" := by
  decide

/-- C21, amended: let the membership list of the realm read as `l`, let `i` be
the first index of an entry named `clientName`, and let no transport failure
be pending.  Then `deleteClientFromRealm` succeeds and rewrites the list to
`rest`, kept in one slot: `rest` has one entry less than `l`, at every position
`j` it holds `l[j]`, except at `i`, where it holds the last entry of `l` (when
`i` is not the last position); `rest` is a permutation of `l` with the entry at
`i` removed; and when `l` holds exactly one entry named `clientName`, `rest`
holds none. -/
theorem swap_removal (mn : RedisDataManager) (s : Redis) (realmName clientName : String)
    (l : List ExtendedIdentifier) (i : Nat) (hfault : s.faults = [])
    (hmem : membership mn s realmName = some l)
    (hfirst : l.findIdx? (fun rc => rc.Name == clientName) = some i) :
    ∃ rest,
      (deleteClientFromRealm mn s realmName clientName).1 = none ∧
      (deleteClientFromRealm mn s realmName clientName).2.kv (realmClientsKey mn.nspace realmName)
        = some (.list [.identifiers rest]) ∧
      membership mn (deleteClientFromRealm mn s realmName clientName).2 realmName = some rest ∧
      rest.length = l.length - 1 ∧
      (∀ j, j < l.length - 1 → rest[j]? = if j = i then l[l.length - 1]? else l[j]?) ∧
      rest.Perm (l.eraseIdx i) ∧
      (l.countP (fun rc => rc.Name == clientName) = 1 → ∀ e ∈ rest, e.Name ≠ clientName) := by
  obtain ⟨hi, _, _⟩ := List.findIdx?_eq_some_iff_getElem.mp hfirst
  have hlen : ¬ l.length = 0 := by omega
  have hget := getRealmClients_of_membership mn s realmName l hfault hmem
  rw [if_neg hlen] at hget
  have hrem : removeByName l clientName = some (swapRemove l i) := by
    simp only [removeByName, hfirst]
  have hwrite : (createRealmClients mn s realmName (swapRemove l i) true).1 = none := by
    rw [createRealmClients_rewrite_nil mn s realmName (swapRemove l i) hfault]
  have hwkv := (createRealmClients_rewrite mn s realmName (swapRemove l i)).1 hwrite
    (realmClientsKey mn.nspace realmName)
  rw [if_pos rfl] at hwkv
  have hrun : deleteClientFromRealm mn s realmName clientName
      = (none, (createRealmClients mn s realmName (swapRemove l i) true).2) := by
    rcases hcr : createRealmClients mn s realmName (swapRemove l i) true with ⟨(_ | e), s2⟩
    · simp only [deleteClientFromRealm, hget, hrem, hcr]
    · rw [hcr] at hwrite
      simp at hwrite
  have hkv : (deleteClientFromRealm mn s realmName clientName).2.kv
      (realmClientsKey mn.nspace realmName)
      = some (.list [.identifiers (swapRemove l i)]) := by
    rw [hrun]
    exact hwkv
  obtain ⟨hperm, hnone⟩ := swapRemove_perm_eraseIdx l clientName i hfirst
  refine ⟨swapRemove l i, by rw [hrun], hkv, ?_, ?_,
    fun j hj => swapRemove_getElem? l i j hi hj, hperm,
    fun hcount e he => hnone hcount e (hperm.mem_iff.mp he)⟩
  · simp [membership, hkv, decodeSlots, decodeIdentifiers]
  · rw [hperm.length_eq, List.length_eraseIdx, if_pos hi]

theorem swap_removal_witness :
    ∃ rest,
      (deleteClientFromRealm sampleManager acmeThreeClients "acme" "app1").1 = none ∧
      (deleteClientFromRealm sampleManager acmeThreeClients "acme" "app1").2.kv
          (realmClientsKey sampleManager.nspace "acme")
        = some (.list [.identifiers rest]) ∧
      membership sampleManager
        (deleteClientFromRealm sampleManager acmeThreeClients "acme" "app1").2 "acme"
        = some rest ∧
      rest.length
        = [({ ID := 1, Name := "app1" } : ExtendedIdentifier), { ID := 2, Name := "app2" },
            { ID := 3, Name := "app3" }].length - 1 ∧
      (∀ j, j < [({ ID := 1, Name := "app1" } : ExtendedIdentifier), { ID := 2, Name := "app2" },
            { ID := 3, Name := "app3" }].length - 1 →
        rest[j]? = if j = 0 then
            [({ ID := 1, Name := "app1" } : ExtendedIdentifier), { ID := 2, Name := "app2" },
              { ID := 3, Name := "app3" }][[({ ID := 1, Name := "app1" } : ExtendedIdentifier),
              { ID := 2, Name := "app2" }, { ID := 3, Name := "app3" }].length - 1]?
          else [({ ID := 1, Name := "app1" } : ExtendedIdentifier), { ID := 2, Name := "app2" },
              { ID := 3, Name := "app3" }][j]?) ∧
      rest.Perm ([({ ID := 1, Name := "app1" } : ExtendedIdentifier), { ID := 2, Name := "app2" },
            { ID := 3, Name := "app3" }].eraseIdx 0) ∧
      ([({ ID := 1, Name := "app1" } : ExtendedIdentifier), { ID := 2, Name := "app2" },
            { ID := 3, Name := "app3" }].countP (fun rc => rc.Name == "app1") = 1 →
        ∀ e ∈ rest, e.Name ≠ "app1") :=
  swap_removal sampleManager acmeThreeClients "acme" "app1"
    [{ ID := 1, Name := "app1" }, { ID := 2, Name := "app2" }, { ID := 3, Name := "app3" }] 0
    (by decide) (by decide) (by decide)

theorem roundTrip_of_failsAt (s : Redis) :
    s.roundTrip = (s.failsAt 0, { s with faults := s.faults.tail }) := by
  obtain ⟨kv, faults⟩ := s
  cases faults with
  | nil => rfl
  | cons f rest => cases f <;> rfl

theorem failsAt_tail (s : Redis) (kv : String → Option Entry) (i : Nat) :
    Redis.failsAt { kv := kv, faults := s.faults.tail } i = s.failsAt (i + 1) := by
  simp [Redis.failsAt, List.drop_tail]

/-- C20: let no client record be stored under `(realmName, clientNew.Name)`, let
the realm record be stored, and let the first three requests (the two lookups
and the record write) go through.  When the membership append then fails, by a
transport failure of the fourth request or because the list key holds a plain
string, `CreateClient` returns the error of the append, and the client record
it wrote is in the store afterwards: the write is not rolled back, no other key
has changed, and the membership list is as before. -/
theorem CreateClient_no_rollback (mn : RedisDataManager) (s : Redis) (realmName : String)
    (clientNew : Client) (realm : Realm)
    (hnone : storedClient mn s realmName clientNew.Name = none)
    (hnolist : s.holdsList (clientKey mn.nspace realmName clientNew.Name) = false)
    (hrealm : s.kv (realmKey mn.nspace realmName) = some (.str (.realm realm)))
    (h0 : s.failsAt 0 = false) (h1 : s.failsAt 1 = false) (h2 : s.failsAt 2 = false)
    (hfail : s.failsAt 3 = true ∨ s.holdsString (realmClientsKey mn.nspace realmName) = true) :
    (∃ err, (CreateClient mn s realmName clientNew).1
        = some (.wrap "addClientToRealm failed" (.wrap "createRealmClients failed" err)) ∧
      (err = .sentinel .StoreUnavailable ∨ err = .sentinel .WrongType)) ∧
    (CreateClient mn s realmName clientNew).2.kv (clientKey mn.nspace realmName clientNew.Name)
      = some (.str (.client clientNew)) ∧
    (∀ k, k ≠ clientKey mn.nspace realmName clientNew.Name →
      (CreateClient mn s realmName clientNew).2.kv k = s.kv k) ∧
    membership mn (CreateClient mn s realmName clientNew).2 realmName
      = membership mn s realmName := by
  have hne := clientKey_ne_realmClientsKey mn.nspace realmName clientNew.Name mn.nspace realmName
  have hner := clientKey_ne_realmKey mn.nspace realmName clientNew.Name mn.nspace realmName
  -- the lookup of the client
  obtain ⟨e1, hget, his⟩ : ∃ e1, GetClient mn s realmName clientNew.Name
      = (.error e1, { s with faults := s.faults.tail }) ∧ e1.Is .ErrNotFound = true := by
    simp only [GetClient, getObjectFromRedis, roundTrip_of_failsAt, h0]
    cases hk : s.kv (clientKey mn.nspace realmName clientNew.Name) with
    | none => exact ⟨_, rfl, rfl⟩
    | some e =>
      cases e with
      | list slots => exact absurd hk (holdsList_false s _ hnolist slots)
      | str d =>
        cases d with
        | client c => simp [storedClient, hk] at hnone
        | realm r => exact ⟨_, rfl, rfl⟩
        | identifiers l => exact ⟨_, rfl, rfl⟩
        | user u => exact ⟨_, rfl, rfl⟩
        | raw t => exact ⟨_, rfl, rfl⟩
  -- the lookup of the realm
  have hrealm1 : GetRealm mn { s with faults := s.faults.tail } realmName
      = (.ok realm, { kv := s.kv, faults := s.faults.tail.tail }) := by
    simp only [GetRealm, getObjectFromRedis, roundTrip_of_failsAt, failsAt_tail, h1, hrealm,
      decodeRealm]
  -- the record write
  have hwrite : createClientRedis mn { kv := s.kv, faults := s.faults.tail.tail } realmName
      clientNew.Name (.client clientNew)
      = (none, (Redis.mk s.kv s.faults.tail.tail.tail).put
          (clientKey mn.nspace realmName clientNew.Name) (.str (.client clientNew))) := by
    have h2b : Redis.failsAt { kv := s.kv, faults := s.faults.tail.tail } 0 = false := by
      have := failsAt_tail { kv := s.kv, faults := s.faults.tail } s.kv 0
      simp only at this
      rw [this, failsAt_tail s s.kv 1]
      exact h2
    simp only [createClientRedis, setString, roundTrip_of_failsAt, h2b]
  -- the append
  obtain ⟨e4, happend, he4⟩ : ∃ e4, (addClientToRealm mn ((Redis.mk s.kv s.faults.tail.tail.tail).put
      (clientKey mn.nspace realmName clientNew.Name) (.str (.client clientNew))) realmName
      clientNew).1 = some (.wrap "createRealmClients failed" e4) ∧
      (e4 = .sentinel .StoreUnavailable ∨ e4 = .sentinel .WrongType) := by
    have h3b : ∀ kv, Redis.failsAt { kv := kv, faults := s.faults.tail.tail.tail } 0
        = s.failsAt 3 := by
      intro kv
      have a := failsAt_tail { kv := s.kv, faults := s.faults.tail.tail } kv 0
      have b := failsAt_tail { kv := s.kv, faults := s.faults.tail } s.kv 1
      have c := failsAt_tail s s.kv 2
      simp only at a b
      rw [a, b, c]
    by_cases h3 : s.failsAt 3 = true
    · refine ⟨.sentinel .StoreUnavailable, ?_, Or.inl rfl⟩
      simp only [addClientToRealm, createRealmClients, Bool.false_eq_true, if_false, RPush,
        roundTrip_of_failsAt, Redis.put, h3b, h3]
    · have h3f : s.failsAt 3 = false := by simpa using h3
      have hstr : s.holdsString (realmClientsKey mn.nspace realmName) = true := by
        rcases hfail with hf | hf
        · exact absurd hf h3
        · exact hf
      obtain ⟨d, hd⟩ : ∃ d, s.kv (realmClientsKey mn.nspace realmName) = some (.str d) := by
        unfold Redis.holdsString at hstr
        split at hstr
        · rename_i d hk
          exact ⟨d, hk⟩
        · simp at hstr
      refine ⟨.sentinel .WrongType, ?_, Or.inr rfl⟩
      simp only [addClientToRealm, createRealmClients, Bool.false_eq_true, if_false, RPush,
        roundTrip_of_failsAt, Redis.put, h3b, h3f, if_neg (Ne.symm hne), hd]
  have hres : (CreateClient mn s realmName clientNew).1
      = some (.wrap "addClientToRealm failed" (.wrap "createRealmClients failed" e4)) := by
    rcases haa : addClientToRealm mn ((Redis.mk s.kv s.faults.tail.tail.tail).put
      (clientKey mn.nspace realmName clientNew.Name) (.str (.client clientNew))) realmName
      clientNew with ⟨(_ | e), s4⟩
    · rw [haa] at happend
      simp at happend
    · rw [haa] at happend
      simp only [Option.some.injEq] at happend
      subst happend
      simp only [CreateClient, hget, his, Bool.not_true, Bool.false_eq_true, if_false, hrealm1,
        hwrite, haa]
  obtain ⟨_, _, hrec, hframe⟩ := CreateClient_append_error mn s realmName clientNew _ hres
  refine ⟨⟨e4, hres, he4⟩, hrec, hframe, ?_⟩
  simp only [membership, hframe _ (Ne.symm hne)]

theorem CreateClient_no_rollback_witness :
    (∃ err, (CreateClient sampleManager acmeFourthFails "acme" app1).1
        = some (.wrap "addClientToRealm failed" (.wrap "createRealmClients failed" err)) ∧
      (err = .sentinel .StoreUnavailable ∨ err = .sentinel .WrongType)) ∧
    (CreateClient sampleManager acmeFourthFails "acme" app1).2.kv
        (clientKey sampleManager.nspace "acme" app1.Name)
      = some (.str (.client app1)) ∧
    (∀ k, k ≠ clientKey sampleManager.nspace "acme" app1.Name →
      (CreateClient sampleManager acmeFourthFails "acme" app1).2.kv k = acmeFourthFails.kv k) ∧
    membership sampleManager (CreateClient sampleManager acmeFourthFails "acme" app1).2 "acme"
      = membership sampleManager acmeFourthFails "acme" :=
  CreateClient_no_rollback sampleManager acmeFourthFails "acme" app1 acme
    (by decide) (by decide) (by decide) (by decide) (by decide) (by decide)
    (Or.inl (by decide))

/-- A list key holding a plain string has the same effect as a transport
failure of the append: `CreateClient` of `app1` returns the error of the
append, and the record of `app1` stays in the store. -/
theorem CreateClient_blocked_list_example :
    (CreateClient sampleManager acmeBlockedList "acme" app1).1
      = some (.wrap "addClientToRealm failed"
          (.wrap "createRealmClients failed" (.sentinel .WrongType))) ∧
    (CreateClient sampleManager acmeBlockedList "acme" app1).2.kv
        (clientKey "ferrum" "acme" "app1") = some (.str (.client app1)) ∧
    storedClient sampleManager acmeBlockedList "acme" "app1" = none := by
  decide

end Ferrum
